import Mathlib

/-!
# Prefetch injection (`src/Prefetch.cpp`)

A shallow embedding of the `InjectPrefetch` mutator and of `inject_prefetch`,
followed by theorems about the rewritten loop nests.

Conventions of the embedding:

* `std::string` is `String`, `std::vector` is `List`, `std::map` is an
  association list enumerated in the order of the list.
* A handle that may be undefined (`Stmt pstmts;`, the slots of
  `vector<Expr> args(n)`, `else_case`) is an `Option`.
* `internal_assert` failures abort the pass: the mutator returns `Option`,
  and `none` is the abort.
* The mutator's fields `scope` and `ptmp` are threaded as an explicit state.
* `ptmp` (`unsigned long`) and `dims`/`cnt` (`int`) are natural numbers: a
  wrap-around needs more generated nodes than an address space can hold.
-/

namespace Prefetch

/-! ## The IR, the environment and the pieces of the loop visitor -/

/-- The type codes of `Type`. -/
inductive TypeCode where
  | Int | UInt | Float | Handle
  deriving DecidableEq, Repr

/-- The IR value type `Type`: a code, a bit width and a lane count. -/
structure Type_ where
  code : TypeCode
  bits : Nat
  lanes : Nat
  deriving DecidableEq, Repr

/-- The constructor `Int(bits)`. -/
def Int_ (bits : Nat) : Type_ := ⟨TypeCode.Int, bits, 1⟩

/-- The constructor `UInt(bits)`. -/
def UInt (bits : Nat) : Type_ := ⟨TypeCode.UInt, bits, 1⟩

/-- The constructor `Handle()`, also the value of `type_of<struct buffer_t *>()`. -/
def Handle : Type_ := ⟨TypeCode.Handle, 64, 1⟩

/-- Modelled from the spec: `Type::bytes()` (Type.h is not part of the sources), the
"element byte size": bytes of one scalar of the type. -/
def Type_.bytes (t : Type_) : Nat := (t.bits + 7) / 8

/-- The binary operator nodes of the IR. -/
inductive BinOp where
  | Add | Sub | Mul | Div | Mod | Min | Max
  | EQ | NE | LT | LE | GT | GE | And | Or
  deriving DecidableEq, Repr

/-- The field `call_type` of a `Call` node. -/
inductive CallType where
  | Image | Extern | Halide | Intrinsic | PureIntrinsic
  deriving DecidableEq, Repr

/-- Expression nodes (IR.h is not part of the sources; the node kinds are the ones the
pass builds or walks through). The binary nodes share one constructor. -/
inductive Expr where
  | IntImm (t : Type_) (value : Int)
  | UIntImm (t : Type_) (value : Nat)
  | FloatImm (t : Type_) (bits : Nat)
  | StringImm (value : String)
  | Cast (t : Type_) (value : Expr)
  | Variable (t : Type_) (name : String)
  | Bin (op : BinOp) (a b : Expr)
  | Not (a : Expr)
  | Select (condition true_value false_value : Expr)
  | Load (t : Type_) (name : String) (index : Expr)
  | Ramp (base stride : Expr) (lanes : Nat)
  | Broadcast (value : Expr) (lanes : Nat)
  | Call (t : Type_) (name : String) (args : List Expr) (call_type : CallType)
  | Let (name : String) (value body : Expr)

/-- The field `for_type` of a `For` node. -/
inductive ForType where
  | Serial | Parallel | Vectorized | Unrolled
  deriving DecidableEq, Repr

/-- The field `device_api` of a `For` node. -/
inductive DeviceAPI where
  | Parent | Host | Default_GPU | CUDA | OpenCL | GLSL | Renderscript
  | OpenGLCompute | Metal | Hexagon
  deriving DecidableEq, Repr

/-- Statement nodes. `update` of a `ProducerConsumer` and `else_case` of an
`IfThenElse` may be undefined. -/
inductive Stmt where
  | LetStmt (name : String) (value : Expr) (body : Stmt)
  | AssertStmt (condition message : Expr)
  | ProducerConsumer (name : String) (produce : Stmt) (update : Option Stmt)
      (consume : Stmt)
  | For (name : String) (min extent : Expr) (for_type : ForType)
      (device_api : DeviceAPI) (body : Stmt)
  | Store (name : String) (value index : Expr)
  | Provide (name : String) (values args : List Expr)
  | Allocate (name : String) (t : Type_) (extents : List Expr) (condition : Expr)
      (body : Stmt)
  | Free (name : String)
  | Realize (name : String) (types : List Type_) (bounds : List (Expr × Expr))
      (condition : Expr) (body : Stmt)
  | Block (first rest : Stmt)
  | IfThenElse (condition : Expr) (then_case : Stmt) (else_case : Option Stmt)
  | Evaluate (value : Expr)

/-- An `Interval`: a min and a max expression. -/
structure Interval where
  min : Expr
  max : Expr

/-- A `Box`: one interval per dimension. -/
abbrev Box := List Interval

/-- Modelled from the spec: `Scope<Interval>` (Scope.h is not part of the sources), a
nested stack of variable to interval bindings; the innermost binding comes first. -/
abbrev Scope := List (String × Interval)

/-- Modelled from the spec: `Scope::push(name, interval)`. -/
def Scope.push (name : String) (v : Interval) (s : Scope) : Scope := (name, v) :: s

/-- Modelled from the spec: `Scope::pop(name)`, which removes the innermost binding of
`name` and asserts that there is one. -/
def Scope.pop (name : String) : Scope → Option Scope
  | [] => none
  | (n, v) :: rest =>
    if n = name then some rest else (Scope.pop name rest).map (fun r => (n, v) :: r)

/-- A prefetch directive of a schedule: `struct Prefetch { var; offset; }`. -/
structure Directive where
  var : String
  offset : Int
  deriving DecidableEq, Repr

/-- What the pass reads of a `Function`: its output types (`output_types()`) and the
prefetch directives of its schedule (`schedule().prefetches()`). -/
structure Function where
  output_types : List Type_
  prefetches : List Directive

/-- The method `Function::outputs()`: the number of outputs. -/
def Function.outputs (f : Function) : Nat := f.output_types.length

/-- The environment `map<string, Function>`; `find` is `List.lookup`. -/
abbrev Env := List (String × Function)

/-- The external collaborators of the pass, taken as parameters: interval inference
(`bounds_of_expr_in_scope`), box analysis (`boxes_required`, a `map<string, Box>`
given by its enumeration) and `make_zero`. -/
structure Externals where
  bounds_of_expr_in_scope : Expr → Scope → Interval
  boxes_required : Stmt → Scope → List (String × Box)
  make_zero : Type_ → Expr

/-- The mutable fields of `InjectPrefetch`: `scope` and `ptmp`. -/
structure PState where
  scope : Scope
  ptmp : Nat

mutual
/-- Modelled from the spec: the default `IRMutator` walk over expressions (IRMutator.cpp
is not part of the sources), "rebuilt structurally unchanged, recursing into its
substructure", with the override `visit(const Let *)` of the pass (lines 89-94). -/
def mutate_expr (X : Externals) : Expr → PState → Option (Expr × PState)
  | Expr.IntImm t v, st => some (Expr.IntImm t v, st)
  | Expr.UIntImm t v, st => some (Expr.UIntImm t v, st)
  | Expr.FloatImm t v, st => some (Expr.FloatImm t v, st)
  | Expr.StringImm v, st => some (Expr.StringImm v, st)
  | Expr.Variable t n, st => some (Expr.Variable t n, st)
  | Expr.Cast t v, st =>
    match mutate_expr X v st with
    | some (v1, st1) => some (Expr.Cast t v1, st1)
    | none => none
  | Expr.Bin op a b, st =>
    match mutate_expr X a st with
    | some (a1, st1) =>
      match mutate_expr X b st1 with
      | some (b1, st2) => some (Expr.Bin op a1 b1, st2)
      | none => none
    | none => none
  | Expr.Not a, st =>
    match mutate_expr X a st with
    | some (a1, st1) => some (Expr.Not a1, st1)
    | none => none
  | Expr.Select c t f, st =>
    match mutate_expr X c st with
    | some (c1, st1) =>
      match mutate_expr X t st1 with
      | some (t1, st2) =>
        match mutate_expr X f st2 with
        | some (f1, st3) => some (Expr.Select c1 t1 f1, st3)
        | none => none
      | none => none
    | none => none
  | Expr.Load t n i, st =>
    match mutate_expr X i st with
    | some (i1, st1) => some (Expr.Load t n i1, st1)
    | none => none
  | Expr.Ramp b s l, st =>
    match mutate_expr X b st with
    | some (b1, st1) =>
      match mutate_expr X s st1 with
      | some (s1, st2) => some (Expr.Ramp b1 s1 l, st2)
      | none => none
    | none => none
  | Expr.Broadcast v l, st =>
    match mutate_expr X v st with
    | some (v1, st1) => some (Expr.Broadcast v1 l, st1)
    | none => none
  | Expr.Call t n args ct, st =>
    match mutate_exprs X args st with
    | some (args1, st1) => some (Expr.Call t n args1 ct, st1)
    | none => none
  | Expr.Let n v b, st =>
    -- Interval in = bounds_of_expr_in_scope(op->value, scope); scope.push(op->name, in);
    let st0 : PState :=
      { st with scope := st.scope.push n (X.bounds_of_expr_in_scope v st.scope) }
    -- IRMutator::visit(op)
    match mutate_expr X v st0 with
    | some (v1, st1) =>
      match mutate_expr X b st1 with
      | some (b1, st2) =>
        -- scope.pop(op->name)
        match st2.scope.pop n with
        | some sc => some (Expr.Let n v1 b1, { st2 with scope := sc })
        | none => none
      | none => none
    | none => none
/-- The walk over a vector of expressions, first to last. -/
def mutate_exprs (X : Externals) : List Expr → PState → Option (List Expr × PState)
  | [], st => some ([], st)
  | e :: es, st =>
    match mutate_expr X e st with
    | some (e1, st1) =>
      match mutate_exprs X es st1 with
      | some (es1, st2) => some (e1 :: es1, st2)
      | none => none
    | none => none
end

/-- The walk over the `(min, extent)` ranges of a `Realize` node. -/
def mutate_ranges (X : Externals) :
    List (Expr × Expr) → PState → Option (List (Expr × Expr) × PState)
  | [], st => some ([], st)
  | (mn, ex) :: rs, st =>
    match mutate_expr X mn st with
    | some (mn1, st1) =>
      match mutate_expr X ex st1 with
      | some (ex1, st2) =>
        match mutate_ranges X rs st2 with
        | some (rs1, st3) => some ((mn1, ex1) :: rs1, st3)
        | none => none
      | none => none
    | none => none

/-- Modelled from the spec: `split_string(source, delim)` (Util.cpp is not part of the
sources) for a one-character delimiter, on the characters of the string: the pieces
between the delimiters, of which there is always at least one. -/
def split_chars (delim : Char) : List Char → List (List Char)
  | [] => [[]]
  | c :: cs =>
    if c = delim then [] :: split_chars delim cs
    else
      match split_chars delim cs with
      | [] => [[c]]
      | w :: ws => (c :: w) :: ws

/-- Modelled from the spec: `split_string(source, delim)` on strings. -/
def split_string (source : String) (delim : Char) : List String :=
  (split_chars delim source.data).map String.mk

/-- Strip down the tuple name, e.g. `f.*.var` into `f` (lines 46-50). -/
def tuple_func (name : String) : Option String :=
  match split_string name '.' with
  | [] => none
  | v0 :: _ => some v0

/-- Strip down the tuple name, e.g. `f.*.var` into `var` (lines 53-57). -/
def tuple_var (name : String) : Option String :=
  match split_string name '.' with
  | [] => none
  | v0 :: vs => some ((v0 :: vs).getLast (List.cons_ne_nil v0 vs))

/-- Lookup a function in the environment (lines 60-64); `none` is the failed assertion. -/
def get_func (env : Env) (name : String) : Option Function :=
  env.lookup name

/-- Determine the static type of a named buffer, if available (lines 68-87): the type and
`has_static_type`. -/
def get_type (env : Env) (varname : String) : Type_ × Bool :=
  -- Type t = UInt(8);
  let t := UInt 8
  match env.lookup varname with
  | some varf =>
    -- if (varf.outputs()) { t = varf.output_types()[0]; }  has_static_type = true;
    if varf.outputs ≠ 0 then (varf.output_types.headD t, true) else (t, true)
  | none => (t, false)

/-- Modelled from the spec: the implicit conversion of an `int` to an expression
(IROperator.h is not part of the sources). -/
def int_expr (v : Int) : Expr := Expr.IntImm (Int_ 32) v

/-- Modelled from the spec: `likely(e)`, the "likely/fast-path hint" around a boolean
expression. -/
def likely (e : Expr) : Expr := Expr.Call (UInt 1) "likely" [e] CallType.PureIntrinsic

/-- Modelled from the spec: `Call::make`, which asserts that every argument is defined
(IR.cpp is not part of the sources). -/
def defined_args : List (Option Expr) → Option (List Expr)
  | [] => some []
  | none :: _ => none
  | some a :: rest =>
    match defined_args rest with
    | some as => some (a :: as)
    | none => none

/-- Modelled from the spec: `Call::make(type, name, args, call_type)`. -/
def Call_make (t : Type_) (name : String) (args : List (Option Expr)) (ct : CallType) :
    Option Expr :=
  match defined_args args with
  | some as => some (Expr.Call t name as ct)
  | none => none

/-- The name `varname + ".prefetch_" + pstr + "_buf"` (line 159). -/
def prefetch_buf_name (varname pstr : String) : String :=
  varname ++ ".prefetch_" ++ pstr ++ "_buf"

/-- The name `varname + ".stride." + istr` (line 166). -/
def stride_name (varname : String) (i : Nat) : String :=
  varname ++ ".stride." ++ toString i

/-- The name `min_name[i]` (line 188). -/
def min_name (varname pstr : String) (i : Nat) : String :=
  varname ++ ".prefetch_" ++ pstr ++ "_min_" ++ toString i

/-- The name `max_name[i]` (line 189). -/
def max_name (varname pstr : String) (i : Nat) : String :=
  varname ++ ".prefetch_" ++ pstr ++ "_max_" ++ toString i

/-- One round of the loop of lines 202-206: it stores the triple of dimension `i`. -/
def set_dim_args (varname pstr : String) (args : List (Option Expr)) (i : Nat) :
    List (Option Expr) :=
  let min_var := Expr.Variable (Int_ 32) (min_name varname pstr i)
  let max_var := Expr.Variable (Int_ 32) (max_name varname pstr i)
  let stride_var := Expr.Variable (Int_ 32) (stride_name varname i)
  let args1 := args.set (3 * i + 2) (some min_var)
  let args2 := args1.set (3 * i + 3)
    (some (Expr.Bin BinOp.Add (Expr.Bin BinOp.Sub max_var min_var) (int_expr 1)))
  args2.set (3 * i + 4) (some stride_var)

/-- The vector `args` of lines 198-206: `dims*3 + 2` undefined slots, then filled. -/
def create_buffer_args (X : Externals) (t : Type_) (varname pstr : String) (dims : Nat) :
    List (Option Expr) :=
  let args : List (Option Expr) := List.replicate (dims * 3 + 2) none
  let first_elem := Expr.Load t varname (int_expr 0)
  let args := args.set 0
    (some (Expr.Call Handle "address_of" [first_elem] CallType.PureIntrinsic))
  let args := args.set 1 (some (X.make_zero t))
  (List.range dims).foldl (set_dim_args varname pstr) args

/-- The vector `args_prefetch` of lines 209-219. -/
def prefetch_args (t : Type_) (has_static_type : Bool) (varname pstr : String)
    (dims : Nat) : List (Option Expr) :=
  let args_prefetch : List (Option Expr) := List.replicate 3 none
  let args_prefetch := args_prefetch.set 0 (some (int_expr dims))
  let args_prefetch :=
    if has_static_type then args_prefetch.set 1 (some (int_expr t.bytes))
    else
      args_prefetch.set 1 (some (Expr.Variable (Int_ 32) (varname ++ ".elem_size")))
  args_prefetch.set 2 (some (Expr.Variable (Int_ 32) (prefetch_buf_name varname pstr)))

/-- The loop of lines 241-245, `for (int i = dims-1; i >= 0; i--)`, which wraps `pstmts`
in the bindings of dimension `dims-1` first and of dimension 0 last; here from the
outermost binding inwards, `i` being the dimension of the head of the list. -/
def let_bounds (varname pstr : String) : Nat → List Interval → Stmt → Stmt
  | _, [], pstmts => pstmts
  | i, iv :: rest, pstmts =>
    Stmt.LetStmt (min_name varname pstr i) iv.min
      (Stmt.LetStmt (max_name varname pstr i) iv.max
        (let_bounds varname pstr (i + 1) rest pstmts))

/-- The locals `cnt`, `pstmts` of one directive, and the field `ptmp`. -/
structure GenState where
  cnt : Nat
  pstmts : Option Stmt
  ptmp : Nat

/-- The body of the loop `for (auto &b : boxes)` (lines 135-246). The stride check of
lines 167-174 is compiled out, so `do_prefetch` stays true. -/
def prefetch_box (X : Externals) (env : Env) (g : GenState) (b : String × Box) :
    Option GenState :=
  let varname := b.1
  let box := b.2
  let dims := box.length
  let (t, has_static_type) := get_type env varname
  -- string pstr = std::to_string(ptmp++);
  let pstr := toString g.ptmp
  let varname_prefetch_buf := prefetch_buf_name varname pstr
  let args := create_buffer_args X t varname pstr dims
  let args_prefetch := prefetch_args t has_static_type varname pstr dims
  match Call_make (Int_ 32) "prefetch_buffer_t" args_prefetch CallType.Intrinsic with
  | none => none
  | some call =>
    let stmt_prefetch := Stmt.Evaluate call
    let chained : Option Stmt :=
      if g.cnt = 0 then some stmt_prefetch
      else
        match g.pstmts with
        | some p => some (Stmt.Block stmt_prefetch p)
        | none => none
    match chained with
    | none => none
    | some pstmts =>
      match Call_make Handle "create_buffer_t" args CallType.Intrinsic with
      | none => none
      | some prefetch_buf =>
        let pstmts := Stmt.LetStmt varname_prefetch_buf prefetch_buf pstmts
        some { cnt := g.cnt + 1,
               pstmts := some (let_bounds varname pstr 0 box pstmts),
               ptmp := g.ptmp + 1 }

/-- The loop `for (auto &b : boxes)`, in the enumeration order of the map. -/
def prefetch_boxes (X : Externals) (env : Env) :
    List (String × Box) → GenState → Option GenState
  | [], g => some g
  | b :: bs, g =>
    match prefetch_box X env g b with
    | some g1 => prefetch_boxes X env bs g1
    | none => none

/-- The guard of lines 252-253. -/
def pcond (name : String) (offset : Int) (min extent : Expr) : Expr :=
  likely (Expr.Bin BinOp.LT
    (Expr.Bin BinOp.Add (Expr.Variable (Int_ 32) name) (int_expr offset))
    (Expr.Bin BinOp.Sub (Expr.Bin BinOp.Add min extent) (int_expr 1)))

/-- The body of the loop `for (const Prefetch &p : prefetches)` (lines 117-266), on the
local `body` and the state. -/
def visit_directive (X : Externals) (env : Env) (name : String) (min extent : Expr)
    (ivar_name : String) (acc : Stmt × PState) (p : Directive) : Option (Stmt × PState) :=
  let body := acc.1
  let st := acc.2
  if p.var = ivar_name then
    let var := Expr.Variable (Int_ 32) name
    let prein : Interval :=
      ⟨Expr.Bin BinOp.Add var (int_expr p.offset), Expr.Bin BinOp.Add var (int_expr p.offset)⟩
    let scope1 := st.scope.push name prein
    let boxes := X.boxes_required body scope1
    match prefetch_boxes X env boxes { cnt := 0, pstmts := none, ptmp := st.ptmp } with
    | none => none
    | some g =>
      let spliced : Option Stmt :=
        if g.cnt ≠ 0 then
          match g.pstmts with
          | some pstmts =>
            let pguard := Stmt.IfThenElse (pcond name p.offset min extent) pstmts none
            some (Stmt.Block pguard body)
          | none => none
        else some body
      match spliced with
      | none => none
      | some body1 =>
        match scope1.pop name with
        | some sc => some (body1, { scope := sc, ptmp := g.ptmp })
        | none => none
  else some (body, st)

/-- The loop `for (const Prefetch &p : prefetches)`. -/
def visit_directives (X : Externals) (env : Env) (name : String) (min extent : Expr)
    (ivar_name : String) : List Directive → Stmt × PState → Option (Stmt × PState)
  | [], acc => some acc
  | p :: ps, acc =>
    match visit_directive X env name min extent ivar_name acc p with
    | some acc1 => visit_directives X env name min extent ivar_name ps acc1
    | none => none

/-- Everything of `visit(const For *)` before `body = mutate(body)`: the local `body`
after the directives, and the state. -/
def for_prelude (X : Externals) (env : Env) (name : String) (min extent : Expr)
    (body : Stmt) (st : PState) : Option (Stmt × PState) :=
  match tuple_func name with
  | none => none
  | some func_name =>
    match tuple_var name with
    | none => none
    | some ivar_name =>
      match get_func env func_name with
      | none => none
      | some f => visit_directives X env name min extent ivar_name f.prefetches (body, st)

mutual
/-- The number of `For` nodes of a statement. -/
def for_count : Stmt → Nat
  | Stmt.LetStmt _ _ b => for_count b
  | Stmt.AssertStmt _ _ => 0
  | Stmt.ProducerConsumer _ p u c => for_count p + for_count_opt u + for_count c
  | Stmt.For _ _ _ _ _ b => for_count b + 1
  | Stmt.Store _ _ _ => 0
  | Stmt.Provide _ _ _ => 0
  | Stmt.Allocate _ _ _ _ b => for_count b
  | Stmt.Free _ => 0
  | Stmt.Realize _ _ _ _ b => for_count b
  | Stmt.Block f r => for_count f + for_count r
  | Stmt.IfThenElse _ t e => for_count t + for_count_opt e
  | Stmt.Evaluate _ => 0
/-- The number of `For` nodes of a statement that may be undefined. -/
def for_count_opt : Option Stmt → Nat
  | none => 0
  | some s => for_count s
end

/-! ## Definitions used to state the properties -/

/-- The triple of dimension `i` of a descriptor: min, extent, stride. -/
def dim_triple (varname pstr : String) (i : Nat) : List Expr :=
  [Expr.Variable (Int_ 32) (min_name varname pstr i),
   Expr.Bin BinOp.Add
     (Expr.Bin BinOp.Sub (Expr.Variable (Int_ 32) (max_name varname pstr i))
       (Expr.Variable (Int_ 32) (min_name varname pstr i)))
     (int_expr 1),
   Expr.Variable (Int_ 32) (stride_name varname i)]

/-- The triples of the dimensions below `k`, in dimension order. -/
def dim_args (varname pstr : String) : Nat → List Expr
  | 0 => []
  | k + 1 => dim_args varname pstr k ++ dim_triple varname pstr k

/-- The argument list of a descriptor: base address, element-size placeholder, then the
triples of the dimensions. -/
def descriptor_args (X : Externals) (t : Type_) (varname pstr : String) (dims : Nat) :
    List Expr :=
  Expr.Call Handle "address_of" [Expr.Load t varname (int_expr 0)] CallType.PureIntrinsic ::
    X.make_zero t :: dim_args varname pstr dims

/-- The element-size argument of the intrinsic call: a literal for a static type, else
the variable `<buffer>.elem_size`. -/
def elem_size_arg (t : Type_) (has_static_type : Bool) (varname : String) : Expr :=
  if has_static_type then int_expr t.bytes
  else Expr.Variable (Int_ 32) (varname ++ ".elem_size")

/-- The intrinsic call generated for buffer `varname` with `dims` dimensions and
occurrence number `n`. -/
def prefetch_call (env : Env) (varname : String) (dims n : Nat) : Expr :=
  Expr.Call (Int_ 32) "prefetch_buffer_t"
    [int_expr dims, elem_size_arg (get_type env varname).1 (get_type env varname).2 varname,
      Expr.Variable (Int_ 32) (prefetch_buf_name varname (toString n))] CallType.Intrinsic

/-- The descriptor construction generated for buffer `varname` with `dims` dimensions and
occurrence number `n`. -/
def create_call (X : Externals) (env : Env) (varname : String) (dims n : Nat) : Expr :=
  Expr.Call Handle "create_buffer_t"
    (descriptor_args X (get_type env varname).1 varname (toString n) dims) CallType.Intrinsic

/-- Lines 228-232: the call alone, or the call followed by the sequence so far. -/
def chain (call : Expr) : Option Stmt → Stmt
  | none => Stmt.Evaluate call
  | some p => Stmt.Block (Stmt.Evaluate call) p

/-- The statement `pstmts` after one round of the loop over the boxes, for the buffer `b`
with occurrence number `n`, `prev` being `pstmts` before the round. -/
def box_block (X : Externals) (env : Env) (prev : Option Stmt) (n : Nat)
    (b : String × Box) : Stmt :=
  let_bounds b.1 (toString n) 0 b.2
    (Stmt.LetStmt (prefetch_buf_name b.1 (toString n)) (create_call X env b.1 b.2.length n)
      (chain (prefetch_call env b.1 b.2.length n) prev))

/-- The statement `pstmts` after the loop over the boxes, started from `prev` with the
occurrence counter at `n`. -/
def boxes_block (X : Externals) (env : Env) :
    Option Stmt → Nat → List (String × Box) → Option Stmt
  | prev, _, [] => prev
  | prev, n, b :: bs => boxes_block X env (some (box_block X env prev n b)) (n + 1) bs

/-- The locals `cnt` and `pstmts` agree: `pstmts` is undefined exactly when `cnt` is 0. -/
def GenState.consistent (g : GenState) : Prop := g.cnt = 0 ↔ g.pstmts = none

/-- The point interval of the loop variable `offset` iterations ahead (lines 125-126). -/
def prein (name : String) (offset : Int) : Interval :=
  ⟨Expr.Bin BinOp.Add (Expr.Variable (Int_ 32) name) (int_expr offset),
   Expr.Bin BinOp.Add (Expr.Variable (Int_ 32) name) (int_expr offset)⟩

/-- The local `body` after a matching directive: the guarded block in front of `body`
when the boxes gave a block, `body` alone when there was no box. -/
def splice (X : Externals) (env : Env) (name : String) (min extent : Expr) (p : Directive)
    (body : Stmt) (st : PState) : Stmt :=
  match boxes_block X env none st.ptmp
      (X.boxes_required body (st.scope.push name (prein name p.offset))) with
  | some pstmts =>
    Stmt.Block (Stmt.IfThenElse (pcond name p.offset min extent) pstmts none) body
  | none => body

/-- The guards that the directives `ps` put in front of `body`, the last generated
(outermost) first, and the state after the directives. -/
def guards_of (X : Externals) (env : Env) (name : String) (min extent : Expr)
    (ivar_name : String) : List Directive → Stmt → PState → List Stmt × PState
  | [], _, st => ([], st)
  | p :: ps, body, st =>
    if p.var = ivar_name then
      let boxes := X.boxes_required body (st.scope.push name (prein name p.offset))
      let st1 : PState := { scope := st.scope, ptmp := st.ptmp + boxes.length }
      match boxes_block X env none st.ptmp boxes with
      | some pstmts =>
        let g := Stmt.IfThenElse (pcond name p.offset min extent) pstmts none
        ((guards_of X env name min extent ivar_name ps (Stmt.Block g body) st1).1 ++ [g],
          (guards_of X env name min extent ivar_name ps (Stmt.Block g body) st1).2)
      | none => guards_of X env name min extent ivar_name ps body st1
    else guards_of X env name min extent ivar_name ps body st

/-- The guards of a loop and the state after its directives; `none` when the stage of the
loop is not in the environment. -/
def for_guards (X : Externals) (env : Env) (name : String) (min extent : Expr)
    (body : Stmt) (st : PState) : Option (List Stmt × PState) :=
  match tuple_func name, tuple_var name with
  | some func_name, some ivar_name =>
    match get_func env func_name with
    | some f => some (guards_of X env name min extent ivar_name f.prefetches body st)
    | none => none
  | _, _ => none

/-- The mutator as a relation: `Rewrites X env st s out st1` when the walk over `s`
from the state `st` gives `out` and the state `st1`. A loop gets the guards of its
directives in front of its rewritten body; every other node is rebuilt. -/
inductive Rewrites (X : Externals) (env : Env) : PState → Stmt → Stmt → PState → Prop
  | LetStmt (st st1 : PState) (n : String) (v : Expr) (b b1 : Stmt) (sc : Scope) :
      Rewrites X env
        { scope := st.scope.push n (X.bounds_of_expr_in_scope v st.scope), ptmp := st.ptmp }
        b b1 st1 →
      st1.scope.pop n = some sc →
      Rewrites X env st (Stmt.LetStmt n v b) (Stmt.LetStmt n v b1)
        { scope := sc, ptmp := st1.ptmp }
  | AssertStmt (st : PState) (c m : Expr) :
      Rewrites X env st (Stmt.AssertStmt c m) (Stmt.AssertStmt c m) st
  | ProducerConsumer_none (st st1 st2 : PState) (n : String) (p p1 c c1 : Stmt) :
      Rewrites X env st p p1 st1 → Rewrites X env st1 c c1 st2 →
      Rewrites X env st (Stmt.ProducerConsumer n p none c)
        (Stmt.ProducerConsumer n p1 none c1) st2
  | ProducerConsumer_some (st st1 st2 st3 : PState) (n : String) (p p1 u u1 c c1 : Stmt) :
      Rewrites X env st p p1 st1 → Rewrites X env st1 u u1 st2 →
      Rewrites X env st2 c c1 st3 →
      Rewrites X env st (Stmt.ProducerConsumer n p (some u) c)
        (Stmt.ProducerConsumer n p1 (some u1) c1) st3
  | For (st st2 : PState) (n : String) (mn ex : Expr) (ft : ForType) (dev : DeviceAPI)
      (b b1 : Stmt) (r : List Stmt × PState) :
      for_guards X env n mn ex b st = some r →
      Rewrites X env r.2 b b1 st2 →
      Rewrites X env st (Stmt.For n mn ex ft dev b)
        (Stmt.For n mn ex ft dev (r.1.foldr Stmt.Block b1)) st2
  | Store (st : PState) (n : String) (v i : Expr) :
      Rewrites X env st (Stmt.Store n v i) (Stmt.Store n v i) st
  | Provide (st : PState) (n : String) (vs as : List Expr) :
      Rewrites X env st (Stmt.Provide n vs as) (Stmt.Provide n vs as) st
  | Allocate (st st1 : PState) (n : String) (t : Type_) (es : List Expr) (c : Expr)
      (b b1 : Stmt) :
      Rewrites X env st b b1 st1 →
      Rewrites X env st (Stmt.Allocate n t es c b) (Stmt.Allocate n t es c b1) st1
  | Free (st : PState) (n : String) :
      Rewrites X env st (Stmt.Free n) (Stmt.Free n) st
  | Realize (st st1 : PState) (n : String) (ts : List Type_) (bs : List (Expr × Expr))
      (c : Expr) (b b1 : Stmt) :
      Rewrites X env st b b1 st1 →
      Rewrites X env st (Stmt.Realize n ts bs c b) (Stmt.Realize n ts bs c b1) st1
  | Block (st st1 st2 : PState) (f f1 r r1 : Stmt) :
      Rewrites X env st f f1 st1 → Rewrites X env st1 r r1 st2 →
      Rewrites X env st (Stmt.Block f r) (Stmt.Block f1 r1) st2
  | IfThenElse_none (st st1 : PState) (c : Expr) (t t1 : Stmt) :
      Rewrites X env st t t1 st1 →
      Rewrites X env st (Stmt.IfThenElse c t none) (Stmt.IfThenElse c t1 none) st1
  | IfThenElse_some (st st1 st2 : PState) (c : Expr) (t t1 e e1 : Stmt) :
      Rewrites X env st t t1 st1 → Rewrites X env st1 e e1 st2 →
      Rewrites X env st (Stmt.IfThenElse c t (some e)) (Stmt.IfThenElse c t1 (some e1)) st2
  | Evaluate (st : PState) (v : Expr) :
      Rewrites X env st (Stmt.Evaluate v) (Stmt.Evaluate v) st

mutual
/-- Every loop of the statement belongs to a stage of the environment: the first
component of its name is a key of `env`. -/
def stages_known (env : Env) : Stmt → Bool
  | Stmt.LetStmt _ _ b => stages_known env b
  | Stmt.AssertStmt _ _ => true
  | Stmt.ProducerConsumer _ p u c =>
    stages_known env p && stages_known_opt env u && stages_known env c
  | Stmt.For n _ _ _ _ b =>
    (match tuple_func n with
      | some func_name => (get_func env func_name).isSome
      | none => false) && stages_known env b
  | Stmt.Store _ _ _ => true
  | Stmt.Provide _ _ _ => true
  | Stmt.Allocate _ _ _ _ b => stages_known env b
  | Stmt.Free _ => true
  | Stmt.Realize _ _ _ _ b => stages_known env b
  | Stmt.Block f r => stages_known env f && stages_known env r
  | Stmt.IfThenElse _ t e => stages_known env t && stages_known_opt env e
  | Stmt.Evaluate _ => true
/-- The same for a statement that may be undefined. -/
def stages_known_opt (env : Env) : Option Stmt → Bool
  | none => true
  | some s => stages_known env s
end

/-- The first statement is the second with guarded blocks added at the top of loop
bodies: erasing, in the first, leading elements `Block(IfThenElse(c, _), ·)` of loop
bodies, where `c` is a guard of that loop, gives the second; nothing else differs. -/
inductive ErasesTo : Stmt → Stmt → Prop
  | LetStmt (n : String) (v : Expr) (b1 b : Stmt) :
      ErasesTo b1 b → ErasesTo (Stmt.LetStmt n v b1) (Stmt.LetStmt n v b)
  | AssertStmt (c m : Expr) : ErasesTo (Stmt.AssertStmt c m) (Stmt.AssertStmt c m)
  | ProducerConsumer_none (n : String) (p1 p c1 c : Stmt) :
      ErasesTo p1 p → ErasesTo c1 c →
      ErasesTo (Stmt.ProducerConsumer n p1 none c1) (Stmt.ProducerConsumer n p none c)
  | ProducerConsumer_some (n : String) (p1 p u1 u c1 c : Stmt) :
      ErasesTo p1 p → ErasesTo u1 u → ErasesTo c1 c →
      ErasesTo (Stmt.ProducerConsumer n p1 (some u1) c1)
        (Stmt.ProducerConsumer n p (some u) c)
  | For (n : String) (mn ex : Expr) (ft : ForType) (dev : DeviceAPI) (gs : List Stmt)
      (b1 b : Stmt) :
      (∀ g ∈ gs, ∃ k pstmts, g = Stmt.IfThenElse (pcond n k mn ex) pstmts none) →
      ErasesTo b1 b →
      ErasesTo (Stmt.For n mn ex ft dev (gs.foldr Stmt.Block b1)) (Stmt.For n mn ex ft dev b)
  | Store (n : String) (v i : Expr) : ErasesTo (Stmt.Store n v i) (Stmt.Store n v i)
  | Provide (n : String) (vs as : List Expr) :
      ErasesTo (Stmt.Provide n vs as) (Stmt.Provide n vs as)
  | Allocate (n : String) (t : Type_) (es : List Expr) (c : Expr) (b1 b : Stmt) :
      ErasesTo b1 b → ErasesTo (Stmt.Allocate n t es c b1) (Stmt.Allocate n t es c b)
  | Free (n : String) : ErasesTo (Stmt.Free n) (Stmt.Free n)
  | Realize (n : String) (ts : List Type_) (bs : List (Expr × Expr)) (c : Expr)
      (b1 b : Stmt) :
      ErasesTo b1 b → ErasesTo (Stmt.Realize n ts bs c b1) (Stmt.Realize n ts bs c b)
  | Block (f1 f r1 r : Stmt) :
      ErasesTo f1 f → ErasesTo r1 r → ErasesTo (Stmt.Block f1 r1) (Stmt.Block f r)
  | IfThenElse_none (c : Expr) (t1 t : Stmt) :
      ErasesTo t1 t → ErasesTo (Stmt.IfThenElse c t1 none) (Stmt.IfThenElse c t none)
  | IfThenElse_some (c : Expr) (t1 t e1 e : Stmt) :
      ErasesTo t1 t → ErasesTo e1 e →
      ErasesTo (Stmt.IfThenElse c t1 (some e1)) (Stmt.IfThenElse c t (some e))
  | Evaluate (v : Expr) : ErasesTo (Stmt.Evaluate v) (Stmt.Evaluate v)

/-- Modelled from the spec: the value of a binary node over exact integers, a comparison
or a connective giving 1 for true and 0 for false; division and remainder are left out. -/
def eval_bin : BinOp → Int → Int → Option Int
  | BinOp.Add, x, y => some (x + y)
  | BinOp.Sub, x, y => some (x - y)
  | BinOp.Mul, x, y => some (x * y)
  | BinOp.Div, _, _ => none
  | BinOp.Mod, _, _ => none
  | BinOp.Min, x, y => some (min x y)
  | BinOp.Max, x, y => some (max x y)
  | BinOp.EQ, x, y => some (if x = y then 1 else 0)
  | BinOp.NE, x, y => some (if x = y then 0 else 1)
  | BinOp.LT, x, y => some (if x < y then 1 else 0)
  | BinOp.LE, x, y => some (if x ≤ y then 1 else 0)
  | BinOp.GT, x, y => some (if y < x then 1 else 0)
  | BinOp.GE, x, y => some (if y ≤ x then 1 else 0)
  | BinOp.And, x, y => some (if x ≠ 0 ∧ y ≠ 0 then 1 else 0)
  | BinOp.Or, x, y => some (if x ≠ 0 ∨ y ≠ 0 then 1 else 0)

mutual
/-- Modelled from the spec: the value of an integer expression over exact integers, under
a valuation of the variables; `likely(e)` has the value of `e`. Nodes outside integer
arithmetic have no value. -/
def eval_expr (ρ : String → Int) : Expr → Option Int
  | Expr.IntImm _ v => some v
  | Expr.UIntImm _ v => some (v : Int)
  | Expr.Variable _ n => some (ρ n)
  | Expr.Bin op a b =>
    match eval_expr ρ a, eval_expr ρ b with
    | some x, some y => eval_bin op x y
    | _, _ => none
  | Expr.Call _ name args _ =>
    if name = "likely" then
      match eval_exprs ρ args with
      | [some v] => some v
      | _ => none
    else none
  | _ => none
/-- The values of a vector of expressions. -/
def eval_exprs (ρ : String → Int) : List Expr → List (Option Int)
  | [] => []
  | e :: es => eval_expr ρ e :: eval_exprs ρ es
end

/-- The kind of a generated binding: the descriptor, or the min or max bound of a
dimension. -/
inductive NameKind where
  | buf
  | min (i : Nat)
  | max (i : Nat)
  deriving DecidableEq, Repr

/-- What a generated name is built from: the buffer, the occurrence number and the kind. -/
structure GenName where
  buffer : String
  n : Nat
  kind : NameKind
  deriving DecidableEq, Repr

/-- The string construction of lines 159, 188 and 189. -/
def GenName.str (k : GenName) : String :=
  match k.kind with
  | NameKind.buf => prefetch_buf_name k.buffer (toString k.n)
  | NameKind.min i => min_name k.buffer (toString k.n) i
  | NameKind.max i => max_name k.buffer (toString k.n) i

/-- The characters of a generated name after `<buffer>.prefetch_<n>_`. -/
def NameKind.tail : NameKind → List Char
  | NameKind.buf => "buf".data
  | NameKind.min i => "min_".data ++ Nat.toDigits 10 i
  | NameKind.max i => "max_".data ++ Nat.toDigits 10 i

/-- The value of a decimal digit character. -/
def digit_value (c : Char) : Nat := c.toNat - 48

/-- One step of reading a decimal numeral. -/
def read_digit (acc : Nat) (c : Char) : Nat := 10 * acc + digit_value c

mutual
/-- The names bound by the `LetStmt` nodes of a statement, in the order of a walk. -/
def let_names : Stmt → List String
  | Stmt.LetStmt n _ b => n :: let_names b
  | Stmt.AssertStmt _ _ => []
  | Stmt.ProducerConsumer _ p u c => let_names p ++ (let_names_opt u ++ let_names c)
  | Stmt.For _ _ _ _ _ b => let_names b
  | Stmt.Store _ _ _ => []
  | Stmt.Provide _ _ _ => []
  | Stmt.Allocate _ _ _ _ b => let_names b
  | Stmt.Free _ => []
  | Stmt.Realize _ _ _ _ b => let_names b
  | Stmt.Block f r => let_names f ++ let_names r
  | Stmt.IfThenElse _ t e => let_names t ++ let_names_opt e
  | Stmt.Evaluate _ => []
/-- The same for a statement that may be undefined. -/
def let_names_opt : Option Stmt → List String
  | none => []
  | some s => let_names s
end

/-- The bindings of the bounds of a box, from dimension `i` on, for the buffer `b` and the
occurrence number `n`. -/
def bound_keys (b : String) (n : Nat) : Nat → List Interval → List GenName
  | _, [] => []
  | i, _ :: rest =>
    ⟨b, n, NameKind.min i⟩ :: ⟨b, n, NameKind.max i⟩ :: bound_keys b n (i + 1) rest

/-- The bindings generated for one buffer: its bounds, then its descriptor. -/
def box_keys (n : Nat) (b : String × Box) : List GenName :=
  bound_keys b.1 n 0 b.2 ++ [⟨b.1, n, NameKind.buf⟩]

/-- The bindings generated for the boxes of one directive, the occurrence counter
starting at `n`: those of the last buffer, the outermost, first. -/
def boxes_keys : Nat → List (String × Box) → List GenName
  | _, [] => []
  | n, b :: bs => boxes_keys (n + 1) bs ++ box_keys n b

/-- The generated bindings `keys` are pairwise distinct, their occurrence numbers lie in
`[lo, hi)`, and an occurrence number serves one buffer only. -/
def KeysOK (lo hi : Nat) (keys : List GenName) : Prop :=
  keys.Nodup ∧ (∀ k ∈ keys, lo ≤ k.n ∧ k.n < hi) ∧
    (∀ k1 ∈ keys, ∀ k2 ∈ keys, k1.n = k2.n → k1.buffer = k2.buffer)

mutual
/-- The number of `Call` nodes named `name` in an expression, at any depth. -/
def count_calls (name : String) : Expr → Nat
  | Expr.IntImm _ _ => 0
  | Expr.UIntImm _ _ => 0
  | Expr.FloatImm _ _ => 0
  | Expr.StringImm _ => 0
  | Expr.Cast _ v => count_calls name v
  | Expr.Variable _ _ => 0
  | Expr.Bin _ a b => count_calls name a + count_calls name b
  | Expr.Not a => count_calls name a
  | Expr.Select c t f => count_calls name c + count_calls name t + count_calls name f
  | Expr.Load _ _ i => count_calls name i
  | Expr.Ramp b s _ => count_calls name b + count_calls name s
  | Expr.Broadcast v _ => count_calls name v
  | Expr.Call _ n args _ => (if n = name then 1 else 0) + count_calls_list name args
  | Expr.Let _ v b => count_calls name v + count_calls name b
/-- The same over a vector of expressions. -/
def count_calls_list (name : String) : List Expr → Nat
  | [] => 0
  | e :: es => count_calls name e + count_calls_list name es
end

/-- The same over the ranges of a `Realize` node. -/
def count_calls_ranges (name : String) : List (Expr × Expr) → Nat
  | [] => 0
  | (mn, ex) :: rs => count_calls name mn + count_calls name ex + count_calls_ranges name rs

mutual
/-- The number of `Call` nodes named `name` in a statement, at any depth. -/
def stmt_calls (name : String) : Stmt → Nat
  | Stmt.LetStmt _ v b => count_calls name v + stmt_calls name b
  | Stmt.AssertStmt c m => count_calls name c + count_calls name m
  | Stmt.ProducerConsumer _ p u c =>
    stmt_calls name p + stmt_calls_opt name u + stmt_calls name c
  | Stmt.For _ mn ex _ _ b => count_calls name mn + count_calls name ex + stmt_calls name b
  | Stmt.Store _ v i => count_calls name v + count_calls name i
  | Stmt.Provide _ vs as => count_calls_list name vs + count_calls_list name as
  | Stmt.Allocate _ _ es c b =>
    count_calls_list name es + count_calls name c + stmt_calls name b
  | Stmt.Free _ => 0
  | Stmt.Realize _ _ bs c b =>
    count_calls_ranges name bs + count_calls name c + stmt_calls name b
  | Stmt.Block f r => stmt_calls name f + stmt_calls name r
  | Stmt.IfThenElse c t e => count_calls name c + stmt_calls name t + stmt_calls_opt name e
  | Stmt.Evaluate v => count_calls name v
/-- The same for a statement that may be undefined. -/
def stmt_calls_opt (name : String) : Option Stmt → Nat
  | none => 0
  | some s => stmt_calls name s
end

/-- Whether an expression is itself a call of `name`. -/
def is_call (name : String) : Expr → Bool
  | Expr.Call _ n _ _ => n = name
  | _ => false

mutual
/-- The descriptor constructions of a statement: the `LetStmt` nodes that bind a
`create_buffer_t` call, as (bound name, call), outermost first. -/
def descriptor_lets : Stmt → List (String × Expr)
  | Stmt.LetStmt n v b =>
    (if is_call "create_buffer_t" v then [(n, v)] else []) ++ descriptor_lets b
  | Stmt.AssertStmt _ _ => []
  | Stmt.ProducerConsumer _ p u c =>
    descriptor_lets p ++ (descriptor_lets_opt u ++ descriptor_lets c)
  | Stmt.For _ _ _ _ _ b => descriptor_lets b
  | Stmt.Store _ _ _ => []
  | Stmt.Provide _ _ _ => []
  | Stmt.Allocate _ _ _ _ b => descriptor_lets b
  | Stmt.Free _ => []
  | Stmt.Realize _ _ _ _ b => descriptor_lets b
  | Stmt.Block f r => descriptor_lets f ++ descriptor_lets r
  | Stmt.IfThenElse _ t e => descriptor_lets t ++ descriptor_lets_opt e
  | Stmt.Evaluate _ => []
/-- The same for a statement that may be undefined. -/
def descriptor_lets_opt : Option Stmt → List (String × Expr)
  | none => []
  | some s => descriptor_lets s
end

mutual
/-- The intrinsic calls of a statement: the `Evaluate` nodes of a `prefetch_buffer_t`
call, in the sequential (execution) order of the statement. -/
def prefetch_evals : Stmt → List Expr
  | Stmt.LetStmt _ _ b => prefetch_evals b
  | Stmt.AssertStmt _ _ => []
  | Stmt.ProducerConsumer _ p u c =>
    prefetch_evals p ++ (prefetch_evals_opt u ++ prefetch_evals c)
  | Stmt.For _ _ _ _ _ b => prefetch_evals b
  | Stmt.Store _ _ _ => []
  | Stmt.Provide _ _ _ => []
  | Stmt.Allocate _ _ _ _ b => prefetch_evals b
  | Stmt.Free _ => []
  | Stmt.Realize _ _ _ _ b => prefetch_evals b
  | Stmt.Block f r => prefetch_evals f ++ prefetch_evals r
  | Stmt.IfThenElse _ t e => prefetch_evals t ++ prefetch_evals_opt e
  | Stmt.Evaluate v => if is_call "prefetch_buffer_t" v then [v] else []
/-- The same for a statement that may be undefined. -/
def prefetch_evals_opt : Option Stmt → List Expr
  | none => []
  | some s => prefetch_evals s
end

/-- The name of the descriptor that an intrinsic call refers to: the variable of its
third argument. -/
def call_descriptor : Expr → String
  | Expr.Call _ _ [_, _, Expr.Variable _ n] _ => n
  | _ => ""

/-- The expressions that the externals contribute to the block of a box map hold no
call of `name`: the zero of a type, and the bounds of the boxes. -/
def externals_free_of (name : String) (X : Externals) (boxes : List (String × Box)) : Prop :=
  (∀ t, count_calls name (X.make_zero t) = 0) ∧
    ∀ b ∈ boxes, ∀ iv ∈ b.2, count_calls name iv.min = 0 ∧ count_calls name iv.max = 0

mutual
/-- The body of the first `LetStmt` of a statement, in the order of a walk, that binds
the name `x`. -/
def let_body (x : String) : Stmt → Option Stmt
  | Stmt.LetStmt n _ b => if n = x then some b else let_body x b
  | Stmt.AssertStmt _ _ => none
  | Stmt.ProducerConsumer _ p u c =>
    match let_body x p with
    | some r => some r
    | none =>
      match let_body_opt x u with
      | some r => some r
      | none => let_body x c
  | Stmt.For _ _ _ _ _ b => let_body x b
  | Stmt.Store _ _ _ => none
  | Stmt.Provide _ _ _ => none
  | Stmt.Allocate _ _ _ _ b => let_body x b
  | Stmt.Free _ => none
  | Stmt.Realize _ _ _ _ b => let_body x b
  | Stmt.Block f r =>
    match let_body x f with
    | some s => some s
    | none => let_body x r
  | Stmt.IfThenElse _ t e =>
    match let_body x t with
    | some r => some r
    | none => let_body_opt x e
  | Stmt.Evaluate _ => none
/-- The same for a statement that may be undefined. -/
def let_body_opt (x : String) : Option Stmt → Option Stmt
  | none => none
  | some s => let_body x s
end

/-! ## Sample inputs -/

/-- Sample externals: every expression is its own bound, every body reads the box
`[lo, hi]` of the buffer `g`, and the zero of a type is an integer immediate. -/
def sample_externals : Externals :=
  { bounds_of_expr_in_scope := fun e _ => ⟨e, e⟩,
    boxes_required := fun _ _ =>
      [("g", [⟨Expr.Variable (Int_ 32) "lo", Expr.Variable (Int_ 32) "hi"⟩])],
    make_zero := fun t => Expr.IntImm t 0 }

/-- A sample loop `f.i` over `[0, 10)` around a store. -/
def sample_loop : Stmt :=
  Stmt.For "f.i" (int_expr 0) (int_expr 10) ForType.Serial DeviceAPI.Host
    (Stmt.Store "out" (Expr.Load (Int_ 32) "g" (Expr.Variable (Int_ 32) "f.i"))
      (Expr.Variable (Int_ 32) "f.i"))

/-- A sample environment: the stage `f`, with no prefetch directive. -/
def sample_env_plain : Env := [("f", { output_types := [Int_ 32], prefetches := [] })]

/-- A sample environment: the stage `f`, with the directive `(i, 2)`. -/
def sample_env : Env :=
  [("f", { output_types := [Int_ 32], prefetches := [{ var := "i", offset := 2 }] })]

/-- The output of the pass on the sample loop under the sample environment. -/
def sample_out : Stmt :=
  Stmt.For "f.i" (int_expr 0) (int_expr 10) ForType.Serial DeviceAPI.Host
    (Stmt.Block
      (Stmt.IfThenElse
        (Expr.Call (UInt 1) "likely"
          [Expr.Bin BinOp.LT
            (Expr.Bin BinOp.Add (Expr.Variable (Int_ 32) "f.i") (int_expr 2))
            (Expr.Bin BinOp.Sub (Expr.Bin BinOp.Add (int_expr 0) (int_expr 10)) (int_expr 1))]
          CallType.PureIntrinsic)
        (Stmt.LetStmt "g.prefetch_0_min_0" (Expr.Variable (Int_ 32) "lo")
          (Stmt.LetStmt "g.prefetch_0_max_0" (Expr.Variable (Int_ 32) "hi")
            (Stmt.LetStmt "g.prefetch_0_buf"
              (Expr.Call Handle "create_buffer_t"
                [Expr.Call Handle "address_of" [Expr.Load (UInt 8) "g" (int_expr 0)]
                    CallType.PureIntrinsic,
                  Expr.IntImm (UInt 8) 0,
                  Expr.Variable (Int_ 32) "g.prefetch_0_min_0",
                  Expr.Bin BinOp.Add
                    (Expr.Bin BinOp.Sub (Expr.Variable (Int_ 32) "g.prefetch_0_max_0")
                      (Expr.Variable (Int_ 32) "g.prefetch_0_min_0"))
                    (int_expr 1),
                  Expr.Variable (Int_ 32) "g.stride.0"]
                CallType.Intrinsic)
              (Stmt.Evaluate
                (Expr.Call (Int_ 32) "prefetch_buffer_t"
                  [int_expr 1, Expr.Variable (Int_ 32) "g.elem_size",
                    Expr.Variable (Int_ 32) "g.prefetch_0_buf"]
                  CallType.Intrinsic)))))
        none)
      (Stmt.Store "out" (Expr.Load (Int_ 32) "g" (Expr.Variable (Int_ 32) "f.i"))
        (Expr.Variable (Int_ 32) "f.i")))

/-- A sample box map with the two buffers `a` and `b`, enumerated in this order, each
with a box of one dimension. -/
def sample_boxes : List (String × Box) :=
  [("a", [⟨int_expr 0, int_expr 7⟩]), ("b", [⟨int_expr 1, int_expr 5⟩])]

/-! ## A sample box analysis and the scenarios -/

/-- Modelled from the spec: interval inference of the sample box analysis, "the interval of
an expression given a scope of bound variables", for variables, sums and differences; any
other expression is its own bound. -/
def sample_bounds : Expr → Scope → Interval
  | Expr.Variable t n, sc =>
    match sc.lookup n with
    | some iv => iv
    | none => ⟨Expr.Variable t n, Expr.Variable t n⟩
  | Expr.Bin BinOp.Add a b, sc =>
    ⟨Expr.Bin BinOp.Add (sample_bounds a sc).min (sample_bounds b sc).min,
     Expr.Bin BinOp.Add (sample_bounds a sc).max (sample_bounds b sc).max⟩
  | Expr.Bin BinOp.Sub a b, sc =>
    ⟨Expr.Bin BinOp.Sub (sample_bounds a sc).min (sample_bounds b sc).max,
     Expr.Bin BinOp.Sub (sample_bounds a sc).max (sample_bounds b sc).min⟩
  | e, _ => ⟨e, e⟩

mutual
/-- The loads of an expression, as (buffer, index), in the order of a walk. -/
def expr_loads : Expr → List (String × Expr)
  | Expr.IntImm _ _ => []
  | Expr.UIntImm _ _ => []
  | Expr.FloatImm _ _ => []
  | Expr.StringImm _ => []
  | Expr.Cast _ v => expr_loads v
  | Expr.Variable _ _ => []
  | Expr.Bin _ a b => expr_loads a ++ expr_loads b
  | Expr.Not a => expr_loads a
  | Expr.Select c t f => expr_loads c ++ (expr_loads t ++ expr_loads f)
  | Expr.Load _ n i => (n, i) :: expr_loads i
  | Expr.Ramp b s _ => expr_loads b ++ expr_loads s
  | Expr.Broadcast v _ => expr_loads v
  | Expr.Call _ _ args _ => exprs_loads args
  | Expr.Let _ v b => expr_loads v ++ expr_loads b
/-- The loads of a vector of expressions. -/
def exprs_loads : List Expr → List (String × Expr)
  | [] => []
  | e :: es => expr_loads e ++ exprs_loads es
end

/-- The loads of the ranges of a `Realize` node. -/
def ranges_loads : List (Expr × Expr) → List (String × Expr)
  | [] => []
  | (mn, ex) :: rs => expr_loads mn ++ (expr_loads ex ++ ranges_loads rs)

mutual
/-- The loads of a statement, as (buffer, index), in the order of a walk. -/
def stmt_loads : Stmt → List (String × Expr)
  | Stmt.LetStmt _ v b => expr_loads v ++ stmt_loads b
  | Stmt.AssertStmt c m => expr_loads c ++ expr_loads m
  | Stmt.ProducerConsumer _ p u c => stmt_loads p ++ (stmt_loads_opt u ++ stmt_loads c)
  | Stmt.For _ mn ex _ _ b => expr_loads mn ++ (expr_loads ex ++ stmt_loads b)
  | Stmt.Store _ v i => expr_loads v ++ expr_loads i
  | Stmt.Provide _ vs as => exprs_loads vs ++ exprs_loads as
  | Stmt.Allocate _ _ es c b => exprs_loads es ++ (expr_loads c ++ stmt_loads b)
  | Stmt.Free _ => []
  | Stmt.Realize _ _ bs c b => ranges_loads bs ++ (expr_loads c ++ stmt_loads b)
  | Stmt.Block f r => stmt_loads f ++ stmt_loads r
  | Stmt.IfThenElse c t e => expr_loads c ++ (stmt_loads t ++ stmt_loads_opt e)
  | Stmt.Evaluate v => expr_loads v
/-- The same for a statement that may be undefined. -/
def stmt_loads_opt : Option Stmt → List (String × Expr)
  | none => []
  | some s => stmt_loads s
end

/-- The union of two boxes, dimension by dimension. -/
def merge_box (a b : Box) : Box :=
  List.zipWith
    (fun x y => ⟨Expr.Bin BinOp.Min x.min y.min, Expr.Bin BinOp.Max x.max y.max⟩) a b

/-- Insertion into a `map<string, Box>` given by its enumeration, ascending in the
characters of the key; the box of a key already present is widened. -/
def map_insert (k : String) (v : Box) : List (String × Box) → List (String × Box)
  | [] => [(k, v)]
  | (k1, v1) :: rest =>
    if k = k1 then (k1, merge_box v1 v) :: rest
    else if k.data < k1.data then (k, v) :: (k1, v1) :: rest
    else (k1, v1) :: map_insert k v rest

/-- Modelled from the spec: a box analysis for the scenarios, "the interval of each load
index under the shifted scope": every load of the statement contributes the interval of
its index, under the scope, to the one-dimensional box of its buffer. -/
def sample_boxes_required (s : Stmt) (sc : Scope) : List (String × Box) :=
  (stmt_loads s).foldl (fun m l => map_insert l.1 [sample_bounds l.2 sc] m) []

/-- The externals of the scenarios: the sample interval inference and box analysis, and
integer zeros. -/
def scenario_externals : Externals :=
  { bounds_of_expr_in_scope := sample_bounds,
    boxes_required := sample_boxes_required,
    make_zero := fun t => Expr.IntImm t 0 }

/-- The environment of scenario A: the stage `f` with the directive `(i, 2)`, and the
stage `g` with a 4-byte element type. -/
def scenario_env : Env :=
  [("f", { output_types := [Int_ 32], prefetches := [{ var := "i", offset := 2 }] }),
   ("g", { output_types := [Int_ 32], prefetches := [] })]

/-- The loop of scenario A: `f.i` over `[0, 10)`, with a body that reads `g[i+2]`. -/
def scenario_loop : Stmt :=
  Stmt.For "f.i" (int_expr 0) (int_expr 10) ForType.Serial DeviceAPI.Host
    (Stmt.Store "out"
      (Expr.Load (Int_ 32) "g" (Expr.Bin BinOp.Add (Expr.Variable (Int_ 32) "f.i") (int_expr 2)))
      (Expr.Variable (Int_ 32) "f.i"))

/-- The guard condition of scenario A. -/
def scenario_guard : Expr :=
  Expr.Call (UInt 1) "likely"
    [Expr.Bin BinOp.LT
      (Expr.Bin BinOp.Add (Expr.Variable (Int_ 32) "f.i") (int_expr 2))
      (Expr.Bin BinOp.Sub (Expr.Bin BinOp.Add (int_expr 0) (int_expr 10)) (int_expr 1))]
    CallType.PureIntrinsic

/-- The extent argument of the descriptor of scenario A. -/
def scenario_extent : Expr :=
  Expr.Bin BinOp.Add
    (Expr.Bin BinOp.Sub (Expr.Variable (Int_ 32) "g.prefetch_0_max_0")
      (Expr.Variable (Int_ 32) "g.prefetch_0_min_0"))
    (int_expr 1)

/-- The descriptor construction of scenario A. -/
def scenario_descriptor : Expr :=
  Expr.Call Handle "create_buffer_t"
    [Expr.Call Handle "address_of" [Expr.Load (Int_ 32) "g" (int_expr 0)]
        CallType.PureIntrinsic,
      Expr.IntImm (Int_ 32) 0,
      Expr.Variable (Int_ 32) "g.prefetch_0_min_0",
      scenario_extent,
      Expr.Variable (Int_ 32) "g.stride.0"]
    CallType.Intrinsic

/-- The intrinsic call of scenario A. -/
def scenario_call : Expr :=
  Expr.Call (Int_ 32) "prefetch_buffer_t"
    [int_expr 1, int_expr 4, Expr.Variable (Int_ 32) "g.prefetch_0_buf"] CallType.Intrinsic

/-- The generated block of scenario A. -/
def scenario_block : Stmt :=
  Stmt.LetStmt "g.prefetch_0_min_0"
    (Expr.Bin BinOp.Add
      (Expr.Bin BinOp.Add (Expr.Variable (Int_ 32) "f.i") (int_expr 2)) (int_expr 2))
    (Stmt.LetStmt "g.prefetch_0_max_0"
      (Expr.Bin BinOp.Add
        (Expr.Bin BinOp.Add (Expr.Variable (Int_ 32) "f.i") (int_expr 2)) (int_expr 2))
      (Stmt.LetStmt "g.prefetch_0_buf" scenario_descriptor (Stmt.Evaluate scenario_call)))

/-- The output of the pass on scenario A. -/
def scenario_out : Stmt :=
  Stmt.For "f.i" (int_expr 0) (int_expr 10) ForType.Serial DeviceAPI.Host
    (Stmt.Block (Stmt.IfThenElse scenario_guard scenario_block none)
      (Stmt.Store "out"
        (Expr.Load (Int_ 32) "g"
          (Expr.Bin BinOp.Add (Expr.Variable (Int_ 32) "f.i") (int_expr 2)))
        (Expr.Variable (Int_ 32) "f.i")))

mutual
/-- The value bound by the first `LetStmt` of a statement, in the order of a walk, that
binds the name `x`. -/
def let_value (x : String) : Stmt → Option Expr
  | Stmt.LetStmt n v b => if n = x then some v else let_value x b
  | Stmt.AssertStmt _ _ => none
  | Stmt.ProducerConsumer _ p u c =>
    match let_value x p with
    | some r => some r
    | none =>
      match let_value_opt x u with
      | some r => some r
      | none => let_value x c
  | Stmt.For _ _ _ _ _ b => let_value x b
  | Stmt.Store _ _ _ => none
  | Stmt.Provide _ _ _ => none
  | Stmt.Allocate _ _ _ _ b => let_value x b
  | Stmt.Free _ => none
  | Stmt.Realize _ _ _ _ b => let_value x b
  | Stmt.Block f r =>
    match let_value x f with
    | some s => some s
    | none => let_value x r
  | Stmt.IfThenElse _ t e =>
    match let_value x t with
    | some r => some r
    | none => let_value_opt x e
  | Stmt.Evaluate _ => none
/-- The same for a statement that may be undefined. -/
def let_value_opt (x : String) : Option Stmt → Option Expr
  | none => none
  | some s => let_value x s
end

/-- A valuation with the value of one more variable. -/
def bind_var (ρ : String → Int) (x : String) (v : Int) : String → Int :=
  fun y => if y = x then v else ρ y

/-- An environment with two directives on the variable `i` of the stage `f`, and the
stage `g` with a 4-byte element type. -/
def two_directive_env : Env :=
  [("f", { output_types := [Int_ 32],
           prefetches := [{ var := "i", offset := 1 }, { var := "i", offset := 2 }] }),
   ("g", { output_types := [Int_ 32], prefetches := [] })]

/-- A loop body that reads `g[i]`, `i` being the variable of the loop `f.i`. -/
def read_body : Stmt :=
  Stmt.Store "out" (Expr.Load (Int_ 32) "g" (Expr.Variable (Int_ 32) "f.i"))
    (Expr.Variable (Int_ 32) "f.i")

/-! ## Free variables -/

mutual
/-- The free variables of an expression: the names of its `Variable` nodes that no
enclosing `Let` binds. -/
def free_vars : Expr → List String
  | Expr.IntImm _ _ => []
  | Expr.UIntImm _ _ => []
  | Expr.FloatImm _ _ => []
  | Expr.StringImm _ => []
  | Expr.Cast _ v => free_vars v
  | Expr.Variable _ n => [n]
  | Expr.Bin _ a b => free_vars a ++ free_vars b
  | Expr.Not a => free_vars a
  | Expr.Select c t f => free_vars c ++ (free_vars t ++ free_vars f)
  | Expr.Load _ _ i => free_vars i
  | Expr.Ramp b s _ => free_vars b ++ free_vars s
  | Expr.Broadcast v _ => free_vars v
  | Expr.Call _ _ args _ => free_vars_list args
  | Expr.Let n v b => free_vars v ++ (free_vars b).filter (fun x => x ≠ n)
/-- The free variables of a vector of expressions. -/
def free_vars_list : List Expr → List String
  | [] => []
  | e :: es => free_vars e ++ free_vars_list es
end

/-- The free variables of the ranges of a `Realize` node. -/
def free_vars_ranges : List (Expr × Expr) → List String
  | [] => []
  | (mn, ex) :: rs => free_vars mn ++ (free_vars ex ++ free_vars_ranges rs)

mutual
/-- The free variables of a statement: a `LetStmt` binds its name in its body, a `For`
binds the name of the loop in its body. -/
def stmt_free_vars : Stmt → List String
  | Stmt.LetStmt n v b => free_vars v ++ (stmt_free_vars b).filter (fun x => x ≠ n)
  | Stmt.AssertStmt c m => free_vars c ++ free_vars m
  | Stmt.ProducerConsumer _ p u c =>
    stmt_free_vars p ++ (stmt_free_vars_opt u ++ stmt_free_vars c)
  | Stmt.For n mn ex _ _ b =>
    free_vars mn ++ (free_vars ex ++ (stmt_free_vars b).filter (fun x => x ≠ n))
  | Stmt.Store _ v i => free_vars v ++ free_vars i
  | Stmt.Provide _ vs as => free_vars_list vs ++ free_vars_list as
  | Stmt.Allocate _ _ es c b => free_vars_list es ++ (free_vars c ++ stmt_free_vars b)
  | Stmt.Free _ => []
  | Stmt.Realize _ _ bs c b => free_vars_ranges bs ++ (free_vars c ++ stmt_free_vars b)
  | Stmt.Block f r => stmt_free_vars f ++ stmt_free_vars r
  | Stmt.IfThenElse c t e => free_vars c ++ (stmt_free_vars t ++ stmt_free_vars_opt e)
  | Stmt.Evaluate v => free_vars v
/-- The same for a statement that may be undefined. -/
def stmt_free_vars_opt : Option Stmt → List String
  | none => []
  | some s => stmt_free_vars s
end

/-- The variables that the block of a box map may leave free: those of the bounds of the
boxes, the strides `<buffer>.stride.<i>` of the dimensions of a buffer, and
`<buffer>.elem_size` for a buffer outside the environment. -/
def left_free (env : Env) (boxes : List (String × Box)) (x : String) : Prop :=
  (∃ b ∈ boxes, ∃ iv ∈ b.2, x ∈ free_vars iv.min ∨ x ∈ free_vars iv.max) ∨
  (∃ b ∈ boxes, ∃ i, i < b.2.length ∧ x = b.1 ++ ".stride." ++ toString i) ∨
  (∃ b ∈ boxes, env.lookup b.1 = none ∧ x = b.1 ++ ".elem_size")

/-! ## Termination of the loop visitor: the generated guards hold no loop -/

theorem for_count_let_bounds (varname pstr : String) (box : List Interval) :
    ∀ (i : Nat) (p : Stmt), for_count (let_bounds varname pstr i box p) = for_count p := by
  induction box with
  | nil => intro i p; simp [let_bounds]
  | cons iv rest ih => intro i p; simp [let_bounds, for_count, ih]

theorem for_count_prefetch_box (X : Externals) (env : Env) (g g1 : GenState)
    (b : String × Box) (hg : for_count_opt g.pstmts = 0)
    (h : prefetch_box X env g b = some g1) : for_count_opt g1.pstmts = 0 := by
  unfold prefetch_box at h
  simp only at h
  split at h
  · exact absurd h (by simp)
  · split at h
    · exact absurd h (by simp)
    · rename_i pst hch
      split at h
      · exact absurd h (by simp)
      · simp only [Option.some.injEq] at h
        subst h
        simp only [for_count_opt, for_count_let_bounds, for_count]
        split at hch
        · simp only [Option.some.injEq] at hch
          subst hch
          simp [for_count]
        · split at hch
          · simp only [Option.some.injEq] at hch
            subst hch
            rename_i p hp
            rw [hp] at hg
            simpa [for_count, for_count_opt] using hg
          · exact absurd hch (by simp)

theorem for_count_prefetch_boxes (X : Externals) (env : Env) :
    ∀ (boxes : List (String × Box)) (g g1 : GenState), for_count_opt g.pstmts = 0 →
      prefetch_boxes X env boxes g = some g1 → for_count_opt g1.pstmts = 0 := by
  intro boxes
  induction boxes with
  | nil => intro g g1 hg h; simp [prefetch_boxes] at h; subst h; exact hg
  | cons b bs ih =>
    intro g g1 hg h
    simp only [prefetch_boxes] at h
    split at h
    · rename_i g2 h2
      exact ih g2 g1 (for_count_prefetch_box X env g g2 b hg h2) h
    · exact absurd h (by simp)

theorem for_count_visit_directive (X : Externals) (env : Env) (name : String)
    (min extent : Expr) (ivar_name : String) (acc acc1 : Stmt × PState) (p : Directive)
    (h : visit_directive X env name min extent ivar_name acc p = some acc1) :
    for_count acc1.1 = for_count acc.1 := by
  unfold visit_directive at h
  simp only at h
  split at h
  · split at h
    · exact absurd h (by simp)
    · rename_i g hg
      have h0 := for_count_prefetch_boxes X env _ _ g (by simp [for_count_opt]) hg
      split at h
      · exact absurd h (by simp)
      · rename_i body1 hsp
        split at h
        · simp only [Option.some.injEq] at h
          subst h
          simp only
          split at hsp
          · split at hsp
            · rename_i ps hps
              simp only [Option.some.injEq] at hsp
              subst hsp
              rw [hps] at h0
              simp only [for_count_opt] at h0
              simp [for_count, for_count_opt, h0]
            · exact absurd hsp (by simp)
          · simp only [Option.some.injEq] at hsp
            subst hsp
            rfl
        · exact absurd h (by simp)
  · simp only [Option.some.injEq] at h
    subst h
    rfl

theorem for_count_visit_directives (X : Externals) (env : Env) (name : String)
    (min extent : Expr) (ivar_name : String) :
    ∀ (ps : List Directive) (acc acc1 : Stmt × PState),
      visit_directives X env name min extent ivar_name ps acc = some acc1 →
      for_count acc1.1 = for_count acc.1 := by
  intro ps
  induction ps with
  | nil => intro acc acc1 h; simp [visit_directives] at h; subst h; rfl
  | cons p ps ih =>
    intro acc acc1 h
    simp only [visit_directives] at h
    split at h
    · rename_i acc2 h2
      rw [ih acc2 acc1 h, for_count_visit_directive X env name min extent ivar_name acc acc2 p h2]
    · exact absurd h (by simp)

theorem for_count_for_prelude (X : Externals) (env : Env) (name : String)
    (min extent : Expr) (body : Stmt) (st : PState) (r : Stmt × PState)
    (h : for_prelude X env name min extent body st = some r) :
    for_count r.1 = for_count body := by
  unfold for_prelude at h
  split at h
  · exact absurd h (by simp)
  · split at h
    · exact absurd h (by simp)
    · split at h
      · exact absurd h (by simp)
      · exact for_count_visit_directives X env name min extent _ _ _ _ h

/-! ## The mutator and the entry point -/

/-- The mutator on statements: the overrides `visit(const LetStmt *)` (lines 95-100) and
`visit(const For *)` (lines 102-270) of the pass. Modelled from the spec: the other node
kinds take the default `IRMutator` walk (IRMutator.cpp is not part of the sources),
"rebuilt structurally unchanged, recursing into its substructure". -/
def mutate (X : Externals) (env : Env) : Stmt → PState → Option (Stmt × PState)
  | Stmt.LetStmt n v b, st =>
    -- Interval in = bounds_of_expr_in_scope(op->value, scope); scope.push(op->name, in);
    let st0 : PState :=
      { st with scope := st.scope.push n (X.bounds_of_expr_in_scope v st.scope) }
    -- IRMutator::visit(op)
    match mutate_expr X v st0 with
    | none => none
    | some (v1, st1) =>
      match mutate X env b st1 with
      | none => none
      | some (b1, st2) =>
        -- scope.pop(op->name)
        match st2.scope.pop n with
        | some sc => some (Stmt.LetStmt n v1 b1, { st2 with scope := sc })
        | none => none
  | Stmt.AssertStmt c m, st =>
    match mutate_expr X c st with
    | none => none
    | some (c1, st1) =>
      match mutate_expr X m st1 with
      | none => none
      | some (m1, st2) => some (Stmt.AssertStmt c1 m1, st2)
  | Stmt.ProducerConsumer n p none c, st =>
    match mutate X env p st with
    | none => none
    | some (p1, st1) =>
      match mutate X env c st1 with
      | none => none
      | some (c1, st2) => some (Stmt.ProducerConsumer n p1 none c1, st2)
  | Stmt.ProducerConsumer n p (some u0) c, st =>
    match mutate X env p st with
    | none => none
    | some (p1, st1) =>
      match mutate X env u0 st1 with
      | none => none
      | some (u1, st2) =>
        match mutate X env c st2 with
        | none => none
        | some (c1, st3) => some (Stmt.ProducerConsumer n p1 (some u1) c1, st3)
  | Stmt.For n mn ex ft dev body, st =>
    -- lines 103-266
    match _hprelude : for_prelude X env n mn ex body st with
    | none => none
    | some r =>
      -- body = mutate(body);
      match mutate X env r.1 r.2 with
      | none => none
      | some (body2, st2) =>
        -- stmt = For::make(op->name, op->min, op->extent, op->for_type, op->device_api, body);
        some (Stmt.For n mn ex ft dev body2, st2)
  | Stmt.Store n v i, st =>
    match mutate_expr X v st with
    | none => none
    | some (v1, st1) =>
      match mutate_expr X i st1 with
      | none => none
      | some (i1, st2) => some (Stmt.Store n v1 i1, st2)
  | Stmt.Provide n vs as, st =>
    match mutate_exprs X as st with
    | none => none
    | some (as1, st1) =>
      match mutate_exprs X vs st1 with
      | none => none
      | some (vs1, st2) => some (Stmt.Provide n vs1 as1, st2)
  | Stmt.Allocate n t es c b, st =>
    match mutate_exprs X es st with
    | none => none
    | some (es1, st1) =>
      match mutate X env b st1 with
      | none => none
      | some (b1, st2) =>
        match mutate_expr X c st2 with
        | none => none
        | some (c1, st3) => some (Stmt.Allocate n t es1 c1 b1, st3)
  | Stmt.Free n, st => some (Stmt.Free n, st)
  | Stmt.Realize n ts bs c b, st =>
    match mutate_ranges X bs st with
    | none => none
    | some (bs1, st1) =>
      match mutate X env b st1 with
      | none => none
      | some (b1, st2) =>
        match mutate_expr X c st2 with
        | none => none
        | some (c1, st3) => some (Stmt.Realize n ts bs1 c1 b1, st3)
  | Stmt.Block f r, st =>
    match mutate X env f st with
    | none => none
    | some (f1, st1) =>
      match mutate X env r st1 with
      | none => none
      | some (r1, st2) => some (Stmt.Block f1 r1, st2)
  | Stmt.IfThenElse c t none, st =>
    match mutate_expr X c st with
    | none => none
    | some (c1, st1) =>
      match mutate X env t st1 with
      | none => none
      | some (t1, st2) => some (Stmt.IfThenElse c1 t1 none, st2)
  | Stmt.IfThenElse c t (some e0), st =>
    match mutate_expr X c st with
    | none => none
    | some (c1, st1) =>
      match mutate X env t st1 with
      | none => none
      | some (t1, st2) =>
        match mutate X env e0 st2 with
        | none => none
        | some (e1, st3) => some (Stmt.IfThenElse c1 t1 (some e1), st3)
  | Stmt.Evaluate v, st =>
    match mutate_expr X v st with
    | none => none
    | some (v1, st1) => some (Stmt.Evaluate v1, st1)
termination_by s => (for_count s, sizeOf s)
decreasing_by
  all_goals simp_wf
  all_goals simp only [Prod.lex_def, for_count, for_count_opt]
  all_goals first
    | omega
    | (simp only [true_and]; omega)
    | (have hfc := for_count_for_prelude _ _ _ _ _ _ _ _ (by assumption); omega)

/-- The entry point (lines 274-286): a fresh mutator, with an empty scope and `ptmp = 0`,
applied to `s`. The debug levels only change the diagnostic output. -/
def inject_prefetch (X : Externals) (env : Env) (s : Stmt) : Option Stmt :=
  (mutate X env s { scope := [], ptmp := 0 }).map Prod.fst

/-! ## The entry point with its global state -/

/-- The global debug levels `dbg_prefetch0` to `dbg_prefetch3` (lines 25-28), which an
invocation of the pass may lower. -/
structure DebugLevels where
  dbg_prefetch0 : Int
  dbg_prefetch1 : Int
  dbg_prefetch2 : Int
  dbg_prefetch3 : Int

/-- The entry point with its global state (lines 274-286): `hl_debug_prefetch` is the
value of the environment variable `HL_DEBUG_PREFETCH` when it is set, `dbg` the debug
levels left by the invocations before. The levels are lowered, clamped at zero, and a
fresh `InjectPrefetch(env)` mutates `s`; the levels only select the diagnostic output. -/
def inject_prefetch_run (X : Externals) (env : Env) (hl_debug_prefetch : Option Int)
    (dbg : DebugLevels) (s : Stmt) : Option Stmt × DebugLevels :=
  let dbg1 : DebugLevels :=
    match hl_debug_prefetch with
    | some dbg_level =>
      { dbg_prefetch0 := max (dbg.dbg_prefetch0 - dbg_level) 0,
        dbg_prefetch1 := max (dbg.dbg_prefetch1 - dbg_level) 0,
        dbg_prefetch2 := max (dbg.dbg_prefetch2 - dbg_level) 0,
        dbg_prefetch3 := max (dbg.dbg_prefetch3 - dbg_level) 0 }
    | none => dbg
  -- return InjectPrefetch(env).mutate(s);
  ((mutate X env s { scope := [], ptmp := 0 }).map Prod.fst, dbg1)

/-! ## Theorems -/

theorem length_dim_args (varname pstr : String) (k : Nat) :
    (dim_args varname pstr k).length = 3 * k := by
  induction k with
  | zero => rfl
  | succ k ih => simp only [dim_args, List.length_append, ih, dim_triple, List.length_cons,
      List.length_nil]; omega

theorem dim_args_succ_getElem? (varname pstr : String) (k j : Nat) :
    (dim_args varname pstr (k + 1))[j]? =
      if j < 3 * k then (dim_args varname pstr k)[j]?
      else (dim_triple varname pstr k)[j - 3 * k]? := by
  simp only [dim_args, List.getElem?_append, length_dim_args]

theorem getElem?_dim_args (varname pstr : String) (k i : Nat) (h : i < k) :
    (dim_args varname pstr k)[3 * i]? =
        some (Expr.Variable (Int_ 32) (min_name varname pstr i)) ∧
    (dim_args varname pstr k)[3 * i + 1]? =
        some (Expr.Bin BinOp.Add
          (Expr.Bin BinOp.Sub (Expr.Variable (Int_ 32) (max_name varname pstr i))
            (Expr.Variable (Int_ 32) (min_name varname pstr i)))
          (int_expr 1)) ∧
    (dim_args varname pstr k)[3 * i + 2]? =
        some (Expr.Variable (Int_ 32) (stride_name varname i)) := by
  induction k with
  | zero => omega
  | succ k ih =>
    simp only [dim_args_succ_getElem?]
    by_cases hik : i < k
    · have h1 : 3 * i < 3 * k := by omega
      have h2 : 3 * i + 1 < 3 * k := by omega
      have h3 : 3 * i + 2 < 3 * k := by omega
      simp only [h1, h2, h3, if_true]
      exact ih hik
    · have hi : i = k := by omega
      subst hi
      have h1 : ¬ 3 * i < 3 * i := by omega
      have h2 : ¬ 3 * i + 1 < 3 * i := by omega
      have h3 : ¬ 3 * i + 2 < 3 * i := by omega
      have e1 : 3 * i - 3 * i = 0 := by omega
      have e2 : 3 * i + 1 - 3 * i = 1 := by omega
      have e3 : 3 * i + 2 - 3 * i = 2 := by omega
      simp only [h1, h2, h3, if_false, e1, e2, e3]
      simp [dim_triple]

theorem length_fold_set_dim_args (varname pstr : String) (k : Nat) (L : List (Option Expr)) :
    ((List.range k).foldl (set_dim_args varname pstr) L).length = L.length := by
  induction k with
  | zero => simp
  | succ k ih =>
    simp only [List.range_succ, List.foldl_append, List.foldl_cons, List.foldl_nil,
      set_dim_args, List.length_set, ih]

theorem getElem?_fold_set_dim_args (varname pstr : String) (L : List (Option Expr))
    (k j : Nat) :
    ((List.range k).foldl (set_dim_args varname pstr) L)[j]? =
      if 2 ≤ j ∧ j < 3 * k + 2 ∧ j < L.length then
        ((dim_args varname pstr k)[j - 2]?).map some
      else L[j]? := by
  induction k with
  | zero =>
    have : ¬ (2 ≤ j ∧ j < 3 * 0 + 2 ∧ j < L.length) := by omega
    simp [this]
  | succ k ih =>
    simp only [List.range_succ, List.foldl_append, List.foldl_cons, List.foldl_nil]
    simp only [set_dim_args, List.getElem?_set, List.length_set, length_fold_set_dim_args, ih,
      dim_args_succ_getElem?]
    by_cases h4 : 3 * k + 4 = j
    · subst h4
      by_cases hl : 3 * k + 4 < L.length
      · have c1 : (2 ≤ 3 * k + 4 ∧ 3 * k + 4 < 3 * (k + 1) + 2 ∧ 3 * k + 4 < L.length) := by omega
        have c2 : ¬ (3 * k + 4 - 2 < 3 * k) := by omega
        have c3 : 3 * k + 4 - 2 - 3 * k = 2 := by omega
        simp [hl, c1, c2, c3, dim_triple]
      · have c1 : ¬ (2 ≤ 3 * k + 4 ∧ 3 * k + 4 < 3 * (k + 1) + 2 ∧ 3 * k + 4 < L.length) := by
          omega
        have c2 : L[3 * k + 4]? = none := List.getElem?_eq_none (by omega)
        simp [hl, c1, c2]
    · by_cases h3 : 3 * k + 3 = j
      · subst h3
        by_cases hl : 3 * k + 3 < L.length
        · have c1 : (2 ≤ 3 * k + 3 ∧ 3 * k + 3 < 3 * (k + 1) + 2 ∧ 3 * k + 3 < L.length) := by
            omega
          have c2 : ¬ (3 * k + 3 - 2 < 3 * k) := by omega
          have c3 : 3 * k + 3 - 2 - 3 * k = 1 := by omega
          simp [hl, c1, c2, c3, dim_triple]
        · have c1 : ¬ (2 ≤ 3 * k + 3 ∧ 3 * k + 3 < 3 * (k + 1) + 2 ∧ 3 * k + 3 < L.length) := by
            omega
          have c2 : L[3 * k + 3]? = none := List.getElem?_eq_none (by omega)
          simp [hl, c1, c2]
      · by_cases h2 : 3 * k + 2 = j
        · subst h2
          by_cases hl : 3 * k + 2 < L.length
          · have c1 : (2 ≤ 3 * k + 2 ∧ 3 * k + 2 < 3 * (k + 1) + 2 ∧ 3 * k + 2 < L.length) := by
              omega
            have c2 : ¬ (3 * k + 2 - 2 < 3 * k) := by omega
            have c3 : 3 * k + 2 - 2 - 3 * k = 0 := by omega
            simp [hl, c1, c2, c3, dim_triple]
          · have c1 : ¬ (2 ≤ 3 * k + 2 ∧ 3 * k + 2 < 3 * (k + 1) + 2 ∧ 3 * k + 2 < L.length) := by
              omega
            have c2 : L[3 * k + 2]? = none := List.getElem?_eq_none (by omega)
            simp [hl, c1, c2]
        · simp only [h4, h3, h2, if_false]
          by_cases hc : 2 ≤ j ∧ j < 3 * k + 2 ∧ j < L.length
          · have c1 : 2 ≤ j ∧ j < 3 * (k + 1) + 2 ∧ j < L.length := by omega
            have c2 : j - 2 < 3 * k := by omega
            simp [hc, c1, c2]
          · by_cases hj : j < L.length
            · have c1 : ¬ (2 ≤ j ∧ j < 3 * (k + 1) + 2 ∧ j < L.length) := by omega
              simp [hc, c1]
            · have c1 : ¬ (2 ≤ j ∧ j < 3 * (k + 1) + 2 ∧ j < L.length) := by omega
              simp [hc, c1]

theorem create_buffer_args_eq (X : Externals) (t : Type_) (varname pstr : String)
    (dims : Nat) :
    create_buffer_args X t varname pstr dims =
      (descriptor_args X t varname pstr dims).map some := by
  apply List.ext_getElem?
  intro j
  simp only [create_buffer_args, getElem?_fold_set_dim_args, List.length_set,
    List.length_replicate, descriptor_args]
  match j with
  | 0 => simp [List.getElem?_set]
  | 1 => simp [List.getElem?_set]
  | j + 2 =>
    by_cases hj : j + 2 < dims * 3 + 2
    · have c1 : 2 ≤ j + 2 ∧ j + 2 < 3 * dims + 2 ∧ j + 2 < dims * 3 + 2 := by omega
      simp [c1]
    · have c1 : ¬ (2 ≤ j + 2 ∧ j + 2 < 3 * dims + 2 ∧ j + 2 < dims * 3 + 2) := by omega
      have c2 : (dim_args varname pstr dims)[j]? = none :=
        List.getElem?_eq_none (by rw [length_dim_args]; omega)
      simp [c1, c2, List.getElem?_set, List.getElem?_replicate]
      omega

theorem defined_args_map_some : ∀ (l : List Expr), defined_args (l.map some) = some l
  | [] => rfl
  | a :: l => by simp [defined_args, defined_args_map_some l]

theorem Call_make_create (X : Externals) (t : Type_) (varname pstr : String) (dims : Nat) :
    Call_make Handle "create_buffer_t" (create_buffer_args X t varname pstr dims)
        CallType.Intrinsic =
      some (Expr.Call Handle "create_buffer_t" (descriptor_args X t varname pstr dims)
        CallType.Intrinsic) := by
  simp [Call_make, create_buffer_args_eq, defined_args_map_some]

theorem Call_make_prefetch (t : Type_) (hst : Bool) (varname pstr : String) (dims : Nat) :
    Call_make (Int_ 32) "prefetch_buffer_t" (prefetch_args t hst varname pstr dims)
        CallType.Intrinsic =
      some (Expr.Call (Int_ 32) "prefetch_buffer_t"
        [int_expr dims, elem_size_arg t hst varname,
          Expr.Variable (Int_ 32) (prefetch_buf_name varname pstr)] CallType.Intrinsic) := by
  cases hst <;> simp [Call_make, prefetch_args, elem_size_arg, defined_args, List.replicate]

theorem Scope.pop_push (n : String) (v : Interval) (s : Scope) :
    Scope.pop n (Scope.push n v s) = some s := by
  simp [Scope.pop, Scope.push]

mutual
theorem mutate_expr_id (X : Externals) : ∀ (e : Expr) (st : PState),
    mutate_expr X e st = some (e, st)
  | Expr.IntImm _ _, _ => by simp [mutate_expr]
  | Expr.UIntImm _ _, _ => by simp [mutate_expr]
  | Expr.FloatImm _ _, _ => by simp [mutate_expr]
  | Expr.StringImm _, _ => by simp [mutate_expr]
  | Expr.Variable _ _, _ => by simp [mutate_expr]
  | Expr.Cast _ v, st => by simp [mutate_expr, mutate_expr_id X v]
  | Expr.Bin _ a b, st => by simp [mutate_expr, mutate_expr_id X a, mutate_expr_id X b]
  | Expr.Not a, st => by simp [mutate_expr, mutate_expr_id X a]
  | Expr.Select c t f, st => by
    simp [mutate_expr, mutate_expr_id X c, mutate_expr_id X t, mutate_expr_id X f]
  | Expr.Load _ _ i, st => by simp [mutate_expr, mutate_expr_id X i]
  | Expr.Ramp b s _, st => by simp [mutate_expr, mutate_expr_id X b, mutate_expr_id X s]
  | Expr.Broadcast v _, st => by simp [mutate_expr, mutate_expr_id X v]
  | Expr.Call _ _ args _, st => by simp [mutate_expr, mutate_exprs_id X args]
  | Expr.Let n v b, st => by
    simp [mutate_expr, mutate_expr_id X v, mutate_expr_id X b, Scope.pop_push]
theorem mutate_exprs_id (X : Externals) : ∀ (es : List Expr) (st : PState),
    mutate_exprs X es st = some (es, st)
  | [], _ => by simp [mutate_exprs]
  | e :: es, st => by simp [mutate_exprs, mutate_expr_id X e, mutate_exprs_id X es]
end

theorem mutate_ranges_id (X : Externals) : ∀ (rs : List (Expr × Expr)) (st : PState),
    mutate_ranges X rs st = some (rs, st)
  | [], _ => by simp [mutate_ranges]
  | (mn, ex) :: rs, st => by
    simp [mutate_ranges, mutate_expr_id X mn, mutate_expr_id X ex, mutate_ranges_id X rs]

theorem prefetch_box_eq (X : Externals) (env : Env) (g : GenState) (b : String × Box)
    (hg : g.consistent) :
    prefetch_box X env g b =
      some { cnt := g.cnt + 1, pstmts := some (box_block X env g.pstmts g.ptmp b),
             ptmp := g.ptmp + 1 } := by
  obtain ⟨cnt, pstmts, ptmp⟩ := g
  simp only [GenState.consistent] at hg
  unfold prefetch_box
  simp only [Call_make_prefetch, Call_make_create]
  cases pstmts with
  | none =>
    have hc : cnt = 0 := hg.2 rfl
    subst hc
    simp [box_block, chain, create_call, prefetch_call]
  | some p =>
    have hc : cnt ≠ 0 := fun h => by simpa using hg.1 h
    simp [hc, box_block, chain, create_call, prefetch_call]

theorem prefetch_boxes_eq (X : Externals) (env : Env) :
    ∀ (boxes : List (String × Box)) (g : GenState), g.consistent →
      prefetch_boxes X env boxes g =
        some { cnt := g.cnt + boxes.length,
               pstmts := boxes_block X env g.pstmts g.ptmp boxes,
               ptmp := g.ptmp + boxes.length } := by
  intro boxes
  induction boxes with
  | nil => intro g _; simp [prefetch_boxes, boxes_block]
  | cons b bs ih =>
    intro g hg
    simp only [prefetch_boxes, prefetch_box_eq X env g b hg]
    rw [ih _ (by simp [GenState.consistent])]
    have e1 : g.cnt + 1 + bs.length = g.cnt + (bs.length + 1) := by omega
    have e2 : g.ptmp + 1 + bs.length = g.ptmp + (bs.length + 1) := by omega
    simp only [boxes_block, List.length_cons, e1, e2]

theorem boxes_block_append (X : Externals) (env : Env) :
    ∀ (bs cs : List (String × Box)) (prev : Option Stmt) (n : Nat),
      boxes_block X env prev n (bs ++ cs) =
        boxes_block X env (boxes_block X env prev n bs) (n + bs.length) cs := by
  intro bs
  induction bs with
  | nil => intro cs prev n; simp [boxes_block]
  | cons b bs ih =>
    intro cs prev n
    have e : n + 1 + bs.length = n + (bs.length + 1) := by omega
    rw [List.cons_append]
    simp only [boxes_block, List.length_cons]
    rw [ih, e]

theorem boxes_block_cons_isSome (X : Externals) (env : Env) :
    ∀ (bs : List (String × Box)) (prev : Stmt) (n : Nat),
      ∃ p, boxes_block X env (some prev) n bs = some p := by
  intro bs
  induction bs with
  | nil => intro prev n; exact ⟨prev, rfl⟩
  | cons b bs ih => intro prev n; simp only [boxes_block]; exact ih _ _

theorem visit_directive_eq (X : Externals) (env : Env) (name : String) (min extent : Expr)
    (ivar_name : String) (body : Stmt) (st : PState) (p : Directive) :
    visit_directive X env name min extent ivar_name (body, st) p =
      if p.var = ivar_name then
        some (splice X env name min extent p body st,
          { scope := st.scope,
            ptmp := st.ptmp +
              (X.boxes_required body (st.scope.push name (prein name p.offset))).length })
      else some (body, st) := by
  unfold visit_directive
  by_cases hv : p.var = ivar_name
  · simp only [hv, if_true]
    rw [prefetch_boxes_eq X env _ _ (by simp [GenState.consistent])]
    simp only [Scope.pop_push, splice, prein]
    generalize X.boxes_required body _ = boxes
    cases boxes with
    | nil => simp [boxes_block]
    | cons b bs =>
      obtain ⟨q, hq⟩ := boxes_block_cons_isSome X env bs (box_block X env none st.ptmp b)
        (st.ptmp + 1)
      simp [boxes_block, hq]
  · simp [hv]

theorem mutate_For (X : Externals) (env : Env) (n : String) (mn ex : Expr) (ft : ForType)
    (dev : DeviceAPI) (body : Stmt) (st : PState) :
    mutate X env (Stmt.For n mn ex ft dev body) st =
      match for_prelude X env n mn ex body st with
      | none => none
      | some r =>
        match mutate X env r.1 r.2 with
        | none => none
        | some (body2, st2) => some (Stmt.For n mn ex ft dev body2, st2) := by
  rw [mutate]
  split <;> simp_all

theorem mutate_for_free (X : Externals) (env : Env) :
    ∀ (s : Stmt) (st : PState), for_count s = 0 → mutate X env s st = some (s, st)
  | Stmt.LetStmt n v b, st, h => by
    have hb : for_count b = 0 := by simpa [for_count] using h
    simp [mutate, mutate_expr_id, mutate_for_free X env b _ hb, Scope.pop_push]
  | Stmt.AssertStmt c m, st, _ => by simp [mutate, mutate_expr_id]
  | Stmt.ProducerConsumer n p none c, st, h => by
    simp only [for_count, for_count_opt] at h
    simp [mutate, mutate_for_free X env p _ (by omega), mutate_for_free X env c _ (by omega)]
  | Stmt.ProducerConsumer n p (some u) c, st, h => by
    simp only [for_count, for_count_opt] at h
    simp [mutate, mutate_for_free X env p _ (by omega), mutate_for_free X env c _ (by omega),
      mutate_for_free X env u _ (by omega)]
  | Stmt.For _ _ _ _ _ _, st, h => by simp [for_count] at h
  | Stmt.Store _ _ _, st, _ => by simp [mutate, mutate_expr_id]
  | Stmt.Provide _ _ _, st, _ => by simp [mutate, mutate_exprs_id]
  | Stmt.Allocate _ _ _ _ b, st, h => by
    have hb : for_count b = 0 := by simpa [for_count] using h
    simp [mutate, mutate_expr_id, mutate_exprs_id, mutate_for_free X env b _ hb]
  | Stmt.Free _, st, _ => by simp [mutate]
  | Stmt.Realize _ _ _ _ b, st, h => by
    have hb : for_count b = 0 := by simpa [for_count] using h
    simp [mutate, mutate_expr_id, mutate_ranges_id, mutate_for_free X env b _ hb]
  | Stmt.Block f r, st, h => by
    simp only [for_count] at h
    simp [mutate, mutate_for_free X env f _ (by omega), mutate_for_free X env r _ (by omega)]
  | Stmt.IfThenElse c t none, st, h => by
    simp only [for_count, for_count_opt] at h
    simp [mutate, mutate_expr_id, mutate_for_free X env t _ (by omega)]
  | Stmt.IfThenElse c t (some e), st, h => by
    simp only [for_count, for_count_opt] at h
    simp [mutate, mutate_expr_id, mutate_for_free X env t _ (by omega),
      mutate_for_free X env e _ (by omega)]
  | Stmt.Evaluate _, st, _ => by simp [mutate, mutate_expr_id]

theorem visit_directives_eq (X : Externals) (env : Env) (name : String) (min extent : Expr)
    (ivar_name : String) :
    ∀ (ps : List Directive) (body : Stmt) (st : PState),
      visit_directives X env name min extent ivar_name ps (body, st) =
        some ((guards_of X env name min extent ivar_name ps body st).1.foldr Stmt.Block body,
          (guards_of X env name min extent ivar_name ps body st).2) := by
  intro ps
  induction ps with
  | nil => intro body st; simp [visit_directives, guards_of]
  | cons p ps ih =>
    intro body st
    simp only [visit_directives, visit_directive_eq, guards_of]
    by_cases hv : p.var = ivar_name
    · simp only [hv, if_true, splice]
      cases hb : boxes_block X env none st.ptmp
          (X.boxes_required body (st.scope.push name (prein name p.offset))) with
      | none => simp only [ih]
      | some pstmts => simp only [ih, List.foldr_append, List.foldr_cons, List.foldr_nil]
    · simp only [hv, if_false, ih]

theorem for_prelude_eq (X : Externals) (env : Env) (name : String) (min extent : Expr)
    (body : Stmt) (st : PState) :
    for_prelude X env name min extent body st =
      (for_guards X env name min extent body st).map
        (fun r => (r.1.foldr Stmt.Block body, r.2)) := by
  unfold for_prelude for_guards
  cases tuple_func name with
  | none => simp
  | some func_name =>
    cases tuple_var name with
    | none => simp
    | some ivar_name =>
      cases hf : get_func env func_name with
      | none => simp [hf]
      | some f => simp [hf, visit_directives_eq]

theorem for_count_boxes_block (X : Externals) (env : Env) (boxes : List (String × Box))
    (n : Nat) : for_count_opt (boxes_block X env none n boxes) = 0 := by
  have h := prefetch_boxes_eq X env boxes { cnt := 0, pstmts := none, ptmp := n }
    (by simp [GenState.consistent])
  exact for_count_prefetch_boxes X env boxes _ _ (by simp [for_count_opt]) h

theorem for_count_guards_of (X : Externals) (env : Env) (name : String) (min extent : Expr)
    (ivar_name : String) :
    ∀ (ps : List Directive) (body : Stmt) (st : PState),
      ∀ g ∈ (guards_of X env name min extent ivar_name ps body st).1, for_count g = 0 := by
  intro ps
  induction ps with
  | nil => intro body st g hg; simp [guards_of] at hg
  | cons p ps ih =>
    intro body st g hg
    simp only [guards_of] at hg
    by_cases hv : p.var = ivar_name
    · simp only [hv, if_true] at hg
      have h0 := for_count_boxes_block X env
        (X.boxes_required body (st.scope.push name (prein name p.offset))) st.ptmp
      cases hb : boxes_block X env none st.ptmp
          (X.boxes_required body (st.scope.push name (prein name p.offset))) with
      | none =>
        rw [hb] at hg
        exact ih _ _ g hg
      | some pstmts =>
        rw [hb] at hg h0
        simp only [List.mem_append, List.mem_singleton] at hg
        rcases hg with hg | hg
        · exact ih _ _ g hg
        · subst hg
          simpa [for_count, for_count_opt] using h0
    · simp only [hv, if_false] at hg
      exact ih _ _ g hg

theorem mutate_prepend (X : Externals) (env : Env) (body : Stmt) :
    ∀ (gs : List Stmt) (st : PState), (∀ g ∈ gs, for_count g = 0) →
      mutate X env (gs.foldr Stmt.Block body) st =
        (mutate X env body st).map (fun r => (gs.foldr Stmt.Block r.1, r.2)) := by
  intro gs
  induction gs with
  | nil => intro st _; simp
  | cons g gs ih =>
    intro st h
    have hg : for_count g = 0 := h g (List.mem_cons_self _ _)
    have hgs : ∀ x ∈ gs, for_count x = 0 := fun x hx => h x (List.mem_cons_of_mem _ hx)
    simp only [List.foldr_cons, mutate, mutate_for_free X env g st hg, ih st hgs]
    cases mutate X env body st with
    | none => simp
    | some r => simp

/-- The loop visitor, by the guards of the loop: the guards are put, unchanged, in front
of the mutated original body. -/
theorem mutate_For_eq (X : Externals) (env : Env) (n : String) (mn ex : Expr) (ft : ForType)
    (dev : DeviceAPI) (body : Stmt) (st : PState) :
    mutate X env (Stmt.For n mn ex ft dev body) st =
      match for_guards X env n mn ex body st with
      | none => none
      | some r =>
        match mutate X env body r.2 with
        | none => none
        | some r2 => some (Stmt.For n mn ex ft dev (r.1.foldr Stmt.Block r2.1), r2.2) := by
  rw [mutate_For, for_prelude_eq]
  cases hfg : for_guards X env n mn ex body st with
  | none => simp
  | some r =>
    have hgs : ∀ g ∈ r.1, for_count g = 0 := by
      unfold for_guards at hfg
      split at hfg
      · split at hfg
        · simp only [Option.some.injEq] at hfg
          subst hfg
          exact for_count_guards_of X env n mn ex _ _ _ _
        · exact absurd hfg (by simp)
      · exact absurd hfg (by simp)
    simp only [Option.map_some']
    rw [mutate_prepend X env body r.1 r.2 hgs]
    cases mutate X env body r.2 with
    | none => simp
    | some r2 => simp

theorem mutate_sound (X : Externals) (env : Env) :
    ∀ (s : Stmt) (st : PState) (out : Stmt) (st1 : PState),
      mutate X env s st = some (out, st1) → Rewrites X env st s out st1
  | Stmt.LetStmt n v b, st, out, st1, h => by
    simp only [mutate, mutate_expr_id] at h
    cases hb : mutate X env b
        { scope := st.scope.push n (X.bounds_of_expr_in_scope v st.scope), ptmp := st.ptmp } with
    | none => simp [hb] at h
    | some r =>
      obtain ⟨b1, st2⟩ := r
      simp only [hb] at h
      cases hp : st2.scope.pop n with
      | none => simp [hp] at h
      | some sc =>
        simp only [hp, Option.some.injEq, Prod.mk.injEq] at h
        obtain ⟨h1, h2⟩ := h
        subst h1 h2
        exact Rewrites.LetStmt st st2 n v b b1 sc (mutate_sound X env b _ _ _ hb) hp
  | Stmt.AssertStmt c m, st, out, st1, h => by
    simp only [mutate, mutate_expr_id, Option.some.injEq, Prod.mk.injEq] at h
    obtain ⟨h1, h2⟩ := h
    subst h1 h2
    exact Rewrites.AssertStmt st c m
  | Stmt.ProducerConsumer n p none c, st, out, st1, h => by
    simp only [mutate] at h
    cases hp : mutate X env p st with
    | none => simp [hp] at h
    | some r =>
      obtain ⟨p1, st2⟩ := r
      simp only [hp] at h
      cases hc : mutate X env c st2 with
      | none => simp [hc] at h
      | some r =>
        obtain ⟨c1, st3⟩ := r
        simp only [hc, Option.some.injEq, Prod.mk.injEq] at h
        obtain ⟨h1, h2⟩ := h
        subst h1 h2
        exact Rewrites.ProducerConsumer_none st st2 st3 n p p1 c c1
          (mutate_sound X env p _ _ _ hp) (mutate_sound X env c _ _ _ hc)
  | Stmt.ProducerConsumer n p (some u) c, st, out, st1, h => by
    simp only [mutate] at h
    cases hp : mutate X env p st with
    | none => simp [hp] at h
    | some r =>
      obtain ⟨p1, st2⟩ := r
      simp only [hp] at h
      cases hu : mutate X env u st2 with
      | none => simp [hu] at h
      | some r =>
        obtain ⟨u1, st3⟩ := r
        simp only [hu] at h
        cases hc : mutate X env c st3 with
        | none => simp [hc] at h
        | some r =>
          obtain ⟨c1, st4⟩ := r
          simp only [hc, Option.some.injEq, Prod.mk.injEq] at h
          obtain ⟨h1, h2⟩ := h
          subst h1 h2
          exact Rewrites.ProducerConsumer_some st st2 st3 st4 n p p1 u u1 c c1
            (mutate_sound X env p _ _ _ hp) (mutate_sound X env u _ _ _ hu)
            (mutate_sound X env c _ _ _ hc)
  | Stmt.For n mn ex ft dev b, st, out, st1, h => by
    rw [mutate_For_eq] at h
    cases hg : for_guards X env n mn ex b st with
    | none => simp [hg] at h
    | some r =>
      simp only [hg] at h
      cases hb : mutate X env b r.2 with
      | none => simp [hb] at h
      | some r2 =>
        obtain ⟨b1, st2⟩ := r2
        simp only [hb, Option.some.injEq, Prod.mk.injEq] at h
        obtain ⟨h1, h2⟩ := h
        subst h1 h2
        exact Rewrites.For st st2 n mn ex ft dev b b1 r hg (mutate_sound X env b _ _ _ hb)
  | Stmt.Store n v i, st, out, st1, h => by
    simp only [mutate, mutate_expr_id, Option.some.injEq, Prod.mk.injEq] at h
    obtain ⟨h1, h2⟩ := h
    subst h1 h2
    exact Rewrites.Store st n v i
  | Stmt.Provide n vs as, st, out, st1, h => by
    simp only [mutate, mutate_exprs_id, Option.some.injEq, Prod.mk.injEq] at h
    obtain ⟨h1, h2⟩ := h
    subst h1 h2
    exact Rewrites.Provide st n vs as
  | Stmt.Allocate n t es c b, st, out, st1, h => by
    simp only [mutate, mutate_exprs_id] at h
    cases hb : mutate X env b st with
    | none => simp [hb] at h
    | some r =>
      obtain ⟨b1, st2⟩ := r
      simp only [hb, mutate_expr_id, Option.some.injEq, Prod.mk.injEq] at h
      obtain ⟨h1, h2⟩ := h
      subst h1 h2
      exact Rewrites.Allocate st st2 n t es c b b1 (mutate_sound X env b _ _ _ hb)
  | Stmt.Free n, st, out, st1, h => by
    simp only [mutate, Option.some.injEq, Prod.mk.injEq] at h
    obtain ⟨h1, h2⟩ := h
    subst h1 h2
    exact Rewrites.Free st n
  | Stmt.Realize n ts bs c b, st, out, st1, h => by
    simp only [mutate, mutate_ranges_id] at h
    cases hb : mutate X env b st with
    | none => simp [hb] at h
    | some r =>
      obtain ⟨b1, st2⟩ := r
      simp only [hb, mutate_expr_id, Option.some.injEq, Prod.mk.injEq] at h
      obtain ⟨h1, h2⟩ := h
      subst h1 h2
      exact Rewrites.Realize st st2 n ts bs c b b1 (mutate_sound X env b _ _ _ hb)
  | Stmt.Block f r, st, out, st1, h => by
    simp only [mutate] at h
    cases hf : mutate X env f st with
    | none => simp [hf] at h
    | some q =>
      obtain ⟨f1, st2⟩ := q
      simp only [hf] at h
      cases hr : mutate X env r st2 with
      | none => simp [hr] at h
      | some q =>
        obtain ⟨r1, st3⟩ := q
        simp only [hr, Option.some.injEq, Prod.mk.injEq] at h
        obtain ⟨h1, h2⟩ := h
        subst h1 h2
        exact Rewrites.Block st st2 st3 f f1 r r1
          (mutate_sound X env f _ _ _ hf) (mutate_sound X env r _ _ _ hr)
  | Stmt.IfThenElse c t none, st, out, st1, h => by
    simp only [mutate, mutate_expr_id] at h
    cases ht : mutate X env t st with
    | none => simp [ht] at h
    | some q =>
      obtain ⟨t1, st2⟩ := q
      simp only [ht, Option.some.injEq, Prod.mk.injEq] at h
      obtain ⟨h1, h2⟩ := h
      subst h1 h2
      exact Rewrites.IfThenElse_none st st2 c t t1 (mutate_sound X env t _ _ _ ht)
  | Stmt.IfThenElse c t (some e), st, out, st1, h => by
    simp only [mutate, mutate_expr_id] at h
    cases ht : mutate X env t st with
    | none => simp [ht] at h
    | some q =>
      obtain ⟨t1, st2⟩ := q
      simp only [ht] at h
      cases he : mutate X env e st2 with
      | none => simp [he] at h
      | some q =>
        obtain ⟨e1, st3⟩ := q
        simp only [he, Option.some.injEq, Prod.mk.injEq] at h
        obtain ⟨h1, h2⟩ := h
        subst h1 h2
        exact Rewrites.IfThenElse_some st st2 st3 c t t1 e e1
          (mutate_sound X env t _ _ _ ht) (mutate_sound X env e _ _ _ he)
  | Stmt.Evaluate v, st, out, st1, h => by
    simp only [mutate, mutate_expr_id, Option.some.injEq, Prod.mk.injEq] at h
    obtain ⟨h1, h2⟩ := h
    subst h1 h2
    exact Rewrites.Evaluate st v

theorem split_chars_ne_nil (delim : Char) : ∀ (l : List Char), split_chars delim l ≠ []
  | [] => by simp [split_chars]
  | c :: cs => by
    simp only [split_chars]
    split
    · simp
    · split <;> simp

theorem tuple_func_isSome (name : String) : ∃ f, tuple_func name = some f := by
  unfold tuple_func split_string
  cases h : split_chars '.' name.data with
  | nil => exact absurd h (split_chars_ne_nil _ _)
  | cons w ws => exact ⟨_, rfl⟩

theorem tuple_var_isSome (name : String) : ∃ v, tuple_var name = some v := by
  unfold tuple_var split_string
  cases h : split_chars '.' name.data with
  | nil => exact absurd h (split_chars_ne_nil _ _)
  | cons w ws => exact ⟨_, rfl⟩

theorem mem_of_lookup {α : Type} (k : String) (v : α) :
    ∀ (l : List (String × α)), l.lookup k = some v → (k, v) ∈ l
  | [], h => by simp at h
  | (k1, v1) :: l, h => by
    simp only [List.lookup] at h
    split at h
    · rename_i heq
      simp only [beq_iff_eq] at heq
      simp only [Option.some.injEq] at h
      subst h heq
      exact List.mem_cons_self _ _
    · exact List.mem_cons_of_mem _ (mem_of_lookup k v l h)

theorem mutate_no_directive (X : Externals) (env : Env)
    (hno : ∀ p ∈ env, p.2.prefetches = []) :
    ∀ (s : Stmt) (st : PState), stages_known env s = true → mutate X env s st = some (s, st)
  | Stmt.LetStmt n v b, st, h => by
    simp only [stages_known] at h
    simp [mutate, mutate_expr_id, mutate_no_directive X env hno b _ h, Scope.pop_push]
  | Stmt.AssertStmt c m, st, _ => by simp [mutate, mutate_expr_id]
  | Stmt.ProducerConsumer n p none c, st, h => by
    simp only [stages_known, stages_known_opt, Bool.and_eq_true] at h
    simp [mutate, mutate_no_directive X env hno p _ h.1.1, mutate_no_directive X env hno c _ h.2]
  | Stmt.ProducerConsumer n p (some u) c, st, h => by
    simp only [stages_known, stages_known_opt, Bool.and_eq_true] at h
    simp [mutate, mutate_no_directive X env hno p _ h.1.1,
      mutate_no_directive X env hno c _ h.2, mutate_no_directive X env hno u _ h.1.2]
  | Stmt.For n mn ex ft dev b, st, h => by
    simp only [stages_known, Bool.and_eq_true] at h
    obtain ⟨hf, hb⟩ := h
    obtain ⟨fn, hfn⟩ := tuple_func_isSome n
    obtain ⟨iv, hiv⟩ := tuple_var_isSome n
    rw [hfn] at hf
    simp only [Option.isSome_iff_exists] at hf
    obtain ⟨f, hfe⟩ := hf
    have hp : f.prefetches = [] := hno (fn, f) (mem_of_lookup fn f env hfe)
    rw [mutate_For_eq]
    simp [for_guards, hfn, hiv, hfe, hp, guards_of, mutate_no_directive X env hno b st hb]
  | Stmt.Store _ _ _, st, _ => by simp [mutate, mutate_expr_id]
  | Stmt.Provide _ _ _, st, _ => by simp [mutate, mutate_exprs_id]
  | Stmt.Allocate _ _ _ _ b, st, h => by
    simp only [stages_known] at h
    simp [mutate, mutate_expr_id, mutate_exprs_id, mutate_no_directive X env hno b _ h]
  | Stmt.Free _, st, _ => by simp [mutate]
  | Stmt.Realize _ _ _ _ b, st, h => by
    simp only [stages_known] at h
    simp [mutate, mutate_expr_id, mutate_ranges_id, mutate_no_directive X env hno b _ h]
  | Stmt.Block f r, st, h => by
    simp only [stages_known, Bool.and_eq_true] at h
    simp [mutate, mutate_no_directive X env hno f _ h.1, mutate_no_directive X env hno r _ h.2]
  | Stmt.IfThenElse c t none, st, h => by
    simp only [stages_known, stages_known_opt, Bool.and_eq_true] at h
    simp [mutate, mutate_expr_id, mutate_no_directive X env hno t _ h.1]
  | Stmt.IfThenElse c t (some e), st, h => by
    simp only [stages_known, stages_known_opt, Bool.and_eq_true] at h
    simp [mutate, mutate_expr_id, mutate_no_directive X env hno t _ h.1,
      mutate_no_directive X env hno e _ h.2]
  | Stmt.Evaluate _, st, _ => by simp [mutate, mutate_expr_id]

/-- C1 (as amended): for every statement tree `s` all of whose loops belong to a stage of
`env`, and every environment in which no stage carries a prefetch directive,
`inject_prefetch` does not fail and returns `s` itself. -/
theorem inject_prefetch_no_directive (X : Externals) (env : Env) (s : Stmt)
    (hno : ∀ p ∈ env, p.2.prefetches = []) (hknown : stages_known env s = true) :
    inject_prefetch X env s = some s := by
  simp [inject_prefetch, mutate_no_directive X env hno s _ hknown]

/-- C1, witness: the sample loop under the directive-free sample environment. -/
theorem inject_prefetch_no_directive_witness :
    (∀ p ∈ sample_env_plain, p.2.prefetches = []) ∧
    stages_known sample_env_plain sample_loop = true ∧
    inject_prefetch sample_externals sample_env_plain sample_loop = some sample_loop :=
  ⟨by simp [sample_env_plain], by decide,
    inject_prefetch_no_directive sample_externals sample_env_plain sample_loop
      (by simp [sample_env_plain]) (by decide)⟩

/-- C1, counterexample: with the empty environment, which has no directive at all, the
pass aborts on the sample loop, whose stage `f` is unknown. -/
theorem inject_prefetch_no_directive_counterexample :
    (∀ p ∈ ([] : Env), p.2.prefetches = []) ∧
    inject_prefetch sample_externals [] sample_loop = none := by
  refine ⟨by simp, ?_⟩
  simp only [inject_prefetch, sample_loop, mutate_For_eq]
  rfl

theorem guards_of_mem (X : Externals) (env : Env) (name : String) (min extent : Expr)
    (ivar_name : String) :
    ∀ (ps : List Directive) (body : Stmt) (st : PState),
      ∀ g ∈ (guards_of X env name min extent ivar_name ps body st).1,
        ∃ p ∈ ps, p.var = ivar_name ∧
          ∃ pstmts, g = Stmt.IfThenElse (pcond name p.offset min extent) pstmts none := by
  intro ps
  induction ps with
  | nil => intro body st g hg; simp [guards_of] at hg
  | cons p ps ih =>
    intro body st g hg
    simp only [guards_of] at hg
    by_cases hv : p.var = ivar_name
    · simp only [hv, if_true] at hg
      cases hb : boxes_block X env none st.ptmp
          (X.boxes_required body (st.scope.push name (prein name p.offset))) with
      | none =>
        rw [hb] at hg
        obtain ⟨q, hq, hrest⟩ := ih _ _ g hg
        exact ⟨q, List.mem_cons_of_mem _ hq, hrest⟩
      | some pstmts =>
        rw [hb] at hg
        simp only [List.mem_append, List.mem_singleton] at hg
        rcases hg with hg | hg
        · obtain ⟨q, hq, hrest⟩ := ih _ _ g hg
          exact ⟨q, List.mem_cons_of_mem _ hq, hrest⟩
        · exact ⟨p, List.mem_cons_self _ _, hv, pstmts, hg⟩
    · simp only [hv, if_false] at hg
      obtain ⟨q, hq, hrest⟩ := ih _ _ g hg
      exact ⟨q, List.mem_cons_of_mem _ hq, hrest⟩

theorem for_guards_mem (X : Externals) (env : Env) (name : String) (min extent : Expr)
    (body : Stmt) (st : PState) (r : List Stmt × PState)
    (h : for_guards X env name min extent body st = some r) :
    ∀ g ∈ r.1, ∃ k pstmts, g = Stmt.IfThenElse (pcond name k min extent) pstmts none := by
  unfold for_guards at h
  split at h
  · split at h
    · simp only [Option.some.injEq] at h
      subst h
      intro g hg
      obtain ⟨p, _, _, pstmts, hp⟩ := guards_of_mem X env name min extent _ _ _ _ g hg
      exact ⟨p.offset, pstmts, hp⟩
    · exact absurd h (by simp)
  · exact absurd h (by simp)

theorem erasesTo_of_rewrites (X : Externals) (env : Env) (st : PState) (s out : Stmt)
    (st1 : PState) (h : Rewrites X env st s out st1) : ErasesTo out s := by
  induction h with
  | LetStmt st st1 n v b b1 sc _ _ ih => exact ErasesTo.LetStmt n v b1 b ih
  | AssertStmt st c m => exact ErasesTo.AssertStmt c m
  | ProducerConsumer_none st st1 st2 n p p1 c c1 _ _ ih1 ih2 =>
    exact ErasesTo.ProducerConsumer_none n p1 p c1 c ih1 ih2
  | ProducerConsumer_some st st1 st2 st3 n p p1 u u1 c c1 _ _ _ ih1 ih2 ih3 =>
    exact ErasesTo.ProducerConsumer_some n p1 p u1 u c1 c ih1 ih2 ih3
  | For st st2 n mn ex ft dev b b1 r hg _ ih =>
    exact ErasesTo.For n mn ex ft dev r.1 b1 b (for_guards_mem X env n mn ex b st r hg) ih
  | Store st n v i => exact ErasesTo.Store n v i
  | Provide st n vs as => exact ErasesTo.Provide n vs as
  | Allocate st st1 n t es c b b1 _ ih => exact ErasesTo.Allocate n t es c b1 b ih
  | Free st n => exact ErasesTo.Free n
  | Realize st st1 n ts bs c b b1 _ ih => exact ErasesTo.Realize n ts bs c b1 b ih
  | Block st st1 st2 f f1 r r1 _ _ ih1 ih2 => exact ErasesTo.Block f1 f r1 r ih1 ih2
  | IfThenElse_none st st1 c t t1 _ ih => exact ErasesTo.IfThenElse_none c t1 t ih
  | IfThenElse_some st st1 st2 c t t1 e e1 _ _ ih1 ih2 =>
    exact ErasesTo.IfThenElse_some c t1 t e1 e ih1 ih2
  | Evaluate st v => exact ErasesTo.Evaluate v

theorem inject_prefetch_sample :
    inject_prefetch sample_externals sample_env sample_loop = some sample_out := by
  have hg : for_guards sample_externals sample_env "f.i" (int_expr 0) (int_expr 10)
      (Stmt.Store "out" (Expr.Load (Int_ 32) "g" (Expr.Variable (Int_ 32) "f.i"))
        (Expr.Variable (Int_ 32) "f.i")) { scope := [], ptmp := 0 } =
      some (guards_of sample_externals sample_env "f.i" (int_expr 0) (int_expr 10) "i"
        [{ var := "i", offset := 2 }]
        (Stmt.Store "out" (Expr.Load (Int_ 32) "g" (Expr.Variable (Int_ 32) "f.i"))
          (Expr.Variable (Int_ 32) "f.i")) { scope := [], ptmp := 0 }) := rfl
  simp only [inject_prefetch, sample_loop, mutate_For_eq, hg, mutate, mutate_expr_id,
    Option.map_some']
  rfl

/-- C2: whenever the pass succeeds on `s`, erasing from its output the guarded blocks in
front of loop bodies (each leading `IfThenElse` under a guard of that loop, with the
`Block` that holds it) gives `s` back: nothing else of the tree is altered. -/
theorem inject_prefetch_erases (X : Externals) (env : Env) (s out : Stmt)
    (h : inject_prefetch X env s = some out) : ErasesTo out s := by
  unfold inject_prefetch at h
  cases hm : mutate X env s { scope := [], ptmp := 0 } with
  | none => simp [hm] at h
  | some r =>
    obtain ⟨o, st1⟩ := r
    simp only [hm, Option.map_some', Option.some.injEq] at h
    subst h
    exact erasesTo_of_rewrites X env _ s o st1 (mutate_sound X env s _ o st1 hm)

/-- C2, witness: the sample loop with the directive `(i, 2)`. -/
theorem inject_prefetch_erases_witness :
    inject_prefetch sample_externals sample_env sample_loop = some sample_out ∧
    ErasesTo sample_out sample_loop :=
  ⟨inject_prefetch_sample,
    inject_prefetch_erases sample_externals sample_env sample_loop sample_out
      inject_prefetch_sample⟩

theorem for_guards_single (X : Externals) (env : Env) (n : String) (mn ex : Expr)
    (body : Stmt) (st : PState) (fn v : String) (f : Function) (k : Int)
    (b : String × Box) (bs : List (String × Box))
    (hfn : tuple_func n = some fn) (hf : get_func env fn = some f)
    (hv : tuple_var n = some v) (hp : f.prefetches = [{ var := v, offset := k }])
    (hb : X.boxes_required body (st.scope.push n (prein n k)) = b :: bs) :
    ∃ pstmts, boxes_block X env none st.ptmp (b :: bs) = some pstmts ∧
      for_guards X env n mn ex body st =
        some ([Stmt.IfThenElse (pcond n k mn ex) pstmts none],
          { scope := st.scope, ptmp := st.ptmp + (bs.length + 1) }) := by
  obtain ⟨q, hq⟩ := boxes_block_cons_isSome X env bs (box_block X env none st.ptmp b)
    (st.ptmp + 1)
  refine ⟨q, by simpa [boxes_block] using hq, ?_⟩
  simp only [for_guards, hfn, hv, hf, hp, guards_of, if_true, hb, boxes_block, hq,
    List.length_cons, List.nil_append]

/-- C3: for a loop `n` of a known stage whose only directive is `(v, k)`, with `v` the
variable component of `n`, and whose box analysis returns at least one buffer, the pass
gives the loop with the body `Block(IfThenElse(c, pstmts), rest)`: `c` is the likely
comparison `(Var(n) + k) < (min + extent - 1)` on the loop's own `min` and `extent`,
`pstmts` is the block generated from the boxes, and `rest` is the mutated original
body (the pass fails exactly when that mutation fails). -/
theorem visit_For_single_directive (X : Externals) (env : Env) (n : String) (mn ex : Expr)
    (ft : ForType) (dev : DeviceAPI) (body : Stmt) (st : PState) (fn v : String)
    (f : Function) (k : Int) (b : String × Box) (bs : List (String × Box))
    (hfn : tuple_func n = some fn) (hf : get_func env fn = some f)
    (hv : tuple_var n = some v) (hp : f.prefetches = [{ var := v, offset := k }])
    (hb : X.boxes_required body (st.scope.push n (prein n k)) = b :: bs) :
    ∃ pstmts,
      prefetch_boxes X env (b :: bs) { cnt := 0, pstmts := none, ptmp := st.ptmp } =
        some { cnt := bs.length + 1, pstmts := some pstmts,
               ptmp := st.ptmp + (bs.length + 1) } ∧
      mutate X env (Stmt.For n mn ex ft dev body) st =
        (mutate X env body { scope := st.scope, ptmp := st.ptmp + (bs.length + 1) }).map
          (fun r =>
            (Stmt.For n mn ex ft dev
              (Stmt.Block
                (Stmt.IfThenElse
                  (likely (Expr.Bin BinOp.LT
                    (Expr.Bin BinOp.Add (Expr.Variable (Int_ 32) n) (int_expr k))
                    (Expr.Bin BinOp.Sub (Expr.Bin BinOp.Add mn ex) (int_expr 1))))
                  pstmts none)
                r.1),
              r.2)) := by
  obtain ⟨pstmts, hps, hg⟩ := for_guards_single X env n mn ex body st fn v f k b bs
    hfn hf hv hp hb
  refine ⟨pstmts, ?_, ?_⟩
  · rw [prefetch_boxes_eq X env _ _ (by simp [GenState.consistent])]
    simp only [hps, List.length_cons, Nat.zero_add]
  · rw [mutate_For_eq, hg]
    simp only []
    cases hm : mutate X env body { scope := st.scope, ptmp := st.ptmp + (bs.length + 1) } with
    | none => rfl
    | some r => rfl

/-- C3, witness: the sample loop `f.i`, whose stage has the one directive `(i, 2)`. -/
theorem visit_For_single_directive_witness :
    ∃ pstmts,
      prefetch_boxes sample_externals sample_env
          [("g", [⟨Expr.Variable (Int_ 32) "lo", Expr.Variable (Int_ 32) "hi"⟩])]
          { cnt := 0, pstmts := none, ptmp := 0 } =
        some { cnt := 0 + 1, pstmts := some pstmts, ptmp := 0 + (0 + 1) } ∧
      mutate sample_externals sample_env sample_loop { scope := [], ptmp := 0 } =
        (mutate sample_externals sample_env
          (Stmt.Store "out" (Expr.Load (Int_ 32) "g" (Expr.Variable (Int_ 32) "f.i"))
            (Expr.Variable (Int_ 32) "f.i")) { scope := [], ptmp := 0 + (0 + 1) }).map
          (fun r =>
            (Stmt.For "f.i" (int_expr 0) (int_expr 10) ForType.Serial DeviceAPI.Host
              (Stmt.Block
                (Stmt.IfThenElse
                  (likely (Expr.Bin BinOp.LT
                    (Expr.Bin BinOp.Add (Expr.Variable (Int_ 32) "f.i") (int_expr 2))
                    (Expr.Bin BinOp.Sub (Expr.Bin BinOp.Add (int_expr 0) (int_expr 10))
                      (int_expr 1))))
                  pstmts none)
                r.1),
              r.2)) :=
  visit_For_single_directive sample_externals sample_env "f.i" (int_expr 0) (int_expr 10)
    ForType.Serial DeviceAPI.Host
    (Stmt.Store "out" (Expr.Load (Int_ 32) "g" (Expr.Variable (Int_ 32) "f.i"))
      (Expr.Variable (Int_ 32) "f.i"))
    { scope := [], ptmp := 0 } "f" "i"
    { output_types := [Int_ 32], prefetches := [{ var := "i", offset := 2 }] } 2
    ("g", [⟨Expr.Variable (Int_ 32) "lo", Expr.Variable (Int_ 32) "hi"⟩]) []
    (by decide) rfl (by decide) rfl rfl

theorem eval_pcond (ρ : String → Int) (n : String) (k : Int) (mn ex : Expr) (m e : Int)
    (hm : eval_expr ρ mn = some m) (he : eval_expr ρ ex = some e) :
    eval_expr ρ (pcond n k mn ex) = some (if ρ n + k < m + e - 1 then 1 else 0) := by
  simp [pcond, likely, eval_expr, eval_exprs, eval_bin, int_expr, hm, he]

/-- C4 (as amended): for a non-negative offset `k` the guard is conservative. Whatever
the values `m` of `min` and `e` of `extent`, for an iteration value `ρ n` with
`m ≤ ρ n < m + e`, if the guard of the loop evaluates to true then the prefetched
index `ρ n + k` lies in the iteration space: `m ≤ ρ n + k < m + e`. -/
theorem guard_conservative (ρ : String → Int) (n : String) (k : Int) (mn ex : Expr)
    (m e : Int) (hm : eval_expr ρ mn = some m) (he : eval_expr ρ ex = some e)
    (hk : 0 ≤ k) (hlo : m ≤ ρ n) (_hhi : ρ n < m + e)
    (hg : eval_expr ρ (pcond n k mn ex) = some 1) :
    m ≤ ρ n + k ∧ ρ n + k < m + e := by
  rw [eval_pcond ρ n k mn ex m e hm he] at hg
  by_cases hlt : ρ n + k < m + e - 1
  · constructor <;> omega
  · simp [hlt] at hg

/-- C4, witness: the loop `f.i` over `[0, 10)` at iteration 3 with offset 2. -/
theorem guard_conservative_witness :
    (0 : Int) ≤ 2 ∧ (0 : Int) ≤ (fun _ => (3 : Int)) "f.i" ∧
    ((0 : Int) ≤ (fun _ => (3 : Int)) "f.i" + 2 ∧ (fun _ => (3 : Int)) "f.i" + 2 < 0 + 10) :=
  ⟨by decide, by decide,
    guard_conservative (fun _ => 3) "f.i" 2 (int_expr 0) (int_expr 10) 0 10 rfl rfl
      (by decide) (by decide) (by decide) (by decide)⟩

/-- C4, counterexample: with the negative offset -1 the guard of the loop `f.i` over
`[0, 10)` holds at the first iteration, 0, and the prefetched index -1 is below `min`. -/
theorem guard_conservative_counterexample :
    eval_expr (fun _ => 0) (pcond "f.i" (-1) (int_expr 0) (int_expr 10)) = some 1 ∧
    ((0 : Int) ≤ (fun _ => (0 : Int)) "f.i" ∧ (fun _ => (0 : Int)) "f.i" < 0 + 10) ∧
    ¬ ((0 : Int) ≤ (fun _ => (0 : Int)) "f.i" + (-1) ∧
        (fun _ => (0 : Int)) "f.i" + (-1) < 0 + 10) := by
  refine ⟨by decide, by decide, by decide⟩

theorem getElem?_descriptor_args (X : Externals) (t : Type_) (varname pstr : String)
    (dims : Nat) :
    (descriptor_args X t varname pstr dims).length = 3 * dims + 2 ∧
    (descriptor_args X t varname pstr dims)[0]? =
      some (Expr.Call Handle "address_of" [Expr.Load t varname (int_expr 0)]
        CallType.PureIntrinsic) ∧
    (descriptor_args X t varname pstr dims)[1]? = some (X.make_zero t) ∧
    ∀ i, i < dims →
      (descriptor_args X t varname pstr dims)[3 * i + 2]? =
        some (Expr.Variable (Int_ 32) (min_name varname pstr i)) ∧
      (descriptor_args X t varname pstr dims)[3 * i + 3]? =
        some (Expr.Bin BinOp.Add
          (Expr.Bin BinOp.Sub (Expr.Variable (Int_ 32) (max_name varname pstr i))
            (Expr.Variable (Int_ 32) (min_name varname pstr i)))
          (int_expr 1)) ∧
      (descriptor_args X t varname pstr dims)[3 * i + 4]? =
        some (Expr.Variable (Int_ 32) (stride_name varname i)) := by
  refine ⟨by simp [descriptor_args, length_dim_args], by simp [descriptor_args],
    by simp [descriptor_args], ?_⟩
  intro i hi
  obtain ⟨h1, h2, h3⟩ := getElem?_dim_args varname pstr dims i hi
  have e3 : 3 * i + 3 = (3 * i + 1) + 1 + 1 := by omega
  have e4 : 3 * i + 4 = (3 * i + 2) + 1 + 1 := by omega
  refine ⟨?_, ?_, ?_⟩
  · simpa [descriptor_args] using h1
  · rw [e3]; simpa [descriptor_args] using h2
  · rw [e4]; simpa [descriptor_args] using h3

/-- C5: for a buffer `b` whose box has `d` dimensions, one round of the loop over the
boxes succeeds and binds, under the name `b.prefetch_<n>_buf` (with `n` the occurrence
number, the value of `ptmp` before the round), a `create_buffer_t` call with exactly
`3*d + 2` arguments: argument 0 is `address_of(Load(b, 0))`, argument 1 is the zero of
the resolved element type, and for every `i < d` arguments `3i+2`, `3i+3`, `3i+4` are the
variable `b.prefetch_<n>_min_<i>`, the expression
`b.prefetch_<n>_max_<i> - b.prefetch_<n>_min_<i> + 1` and the variable `b.stride.<i>`. -/
theorem create_buffer_t_layout (X : Externals) (env : Env) (g : GenState) (b : String)
    (box : Box) (hg : g.consistent) :
    ∃ args inner,
      prefetch_box X env g (b, box) =
        some { cnt := g.cnt + 1,
               pstmts := some (let_bounds b (toString g.ptmp) 0 box
                 (Stmt.LetStmt (b ++ ".prefetch_" ++ toString g.ptmp ++ "_buf")
                   (Expr.Call Handle "create_buffer_t" args CallType.Intrinsic) inner)),
               ptmp := g.ptmp + 1 } ∧
      args.length = 3 * box.length + 2 ∧
      args[0]? = some (Expr.Call Handle "address_of"
        [Expr.Load (get_type env b).1 b (int_expr 0)] CallType.PureIntrinsic) ∧
      args[1]? = some (X.make_zero (get_type env b).1) ∧
      ∀ i, i < box.length →
        args[3 * i + 2]? = some (Expr.Variable (Int_ 32)
          (b ++ ".prefetch_" ++ toString g.ptmp ++ "_min_" ++ toString i)) ∧
        args[3 * i + 3]? = some (Expr.Bin BinOp.Add
          (Expr.Bin BinOp.Sub
            (Expr.Variable (Int_ 32)
              (b ++ ".prefetch_" ++ toString g.ptmp ++ "_max_" ++ toString i))
            (Expr.Variable (Int_ 32)
              (b ++ ".prefetch_" ++ toString g.ptmp ++ "_min_" ++ toString i)))
          (int_expr 1)) ∧
        args[3 * i + 4]? = some (Expr.Variable (Int_ 32) (b ++ ".stride." ++ toString i)) :=
  ⟨descriptor_args X (get_type env b).1 b (toString g.ptmp) box.length,
    chain (prefetch_call env b box.length g.ptmp) g.pstmts,
    prefetch_box_eq X env g (b, box) hg,
    getElem?_descriptor_args X (get_type env b).1 b (toString g.ptmp) box.length⟩

/-- C5, witness: the first round, for the buffer `g` with a box of two dimensions. -/
theorem create_buffer_t_layout_witness :
    ∃ args inner,
      prefetch_box sample_externals sample_env { cnt := 0, pstmts := none, ptmp := 0 }
          ("g", [⟨int_expr 0, int_expr 7⟩, ⟨int_expr 1, int_expr 5⟩]) =
        some { cnt := 0 + 1,
               pstmts := some (let_bounds "g" (toString 0) 0
                 [⟨int_expr 0, int_expr 7⟩, ⟨int_expr 1, int_expr 5⟩]
                 (Stmt.LetStmt ("g" ++ ".prefetch_" ++ toString 0 ++ "_buf")
                   (Expr.Call Handle "create_buffer_t" args CallType.Intrinsic) inner)),
               ptmp := 0 + 1 } ∧
      args.length = 3 * 2 + 2 ∧
      args[0]? = some (Expr.Call Handle "address_of"
        [Expr.Load (get_type sample_env "g").1 "g" (int_expr 0)] CallType.PureIntrinsic) ∧
      args[1]? = some (sample_externals.make_zero (get_type sample_env "g").1) ∧
      ∀ i, i < 2 →
        args[3 * i + 2]? = some (Expr.Variable (Int_ 32)
          ("g" ++ ".prefetch_" ++ toString 0 ++ "_min_" ++ toString i)) ∧
        args[3 * i + 3]? = some (Expr.Bin BinOp.Add
          (Expr.Bin BinOp.Sub
            (Expr.Variable (Int_ 32)
              ("g" ++ ".prefetch_" ++ toString 0 ++ "_max_" ++ toString i))
            (Expr.Variable (Int_ 32)
              ("g" ++ ".prefetch_" ++ toString 0 ++ "_min_" ++ toString i)))
          (int_expr 1)) ∧
        args[3 * i + 4]? = some (Expr.Variable (Int_ 32) ("g" ++ ".stride." ++ toString i)) :=
  create_buffer_t_layout sample_externals sample_env { cnt := 0, pstmts := none, ptmp := 0 }
    "g" [⟨int_expr 0, int_expr 7⟩, ⟨int_expr 1, int_expr 5⟩]
    (by simp [GenState.consistent])

/-- C6: for a buffer `b` whose box has `d` dimensions, one round of the loop over the
boxes succeeds and generates the call `prefetch_buffer_t(d, size, Var(b.prefetch_<n>_buf))`
with exactly these three arguments, as the first statement under the `LetStmt` that binds
the descriptor `b.prefetch_<n>_buf` of the same occurrence `n`. `size` is the literal
byte size of the first declared output type of the stage `b` when `b` is a key of the
environment (the default `UInt(8)` standing in for a stage that declares no output), and
the variable `b.elem_size` when `b` is not in the environment. -/
theorem prefetch_buffer_t_args (X : Externals) (env : Env) (g : GenState) (b : String)
    (box : Box) (hg : g.consistent) :
    ∃ create,
      prefetch_box X env g (b, box) =
        some { cnt := g.cnt + 1,
               pstmts := some (let_bounds b (toString g.ptmp) 0 box
                 (Stmt.LetStmt (b ++ ".prefetch_" ++ toString g.ptmp ++ "_buf") create
                   (chain
                     (Expr.Call (Int_ 32) "prefetch_buffer_t"
                       [int_expr box.length,
                        (match env.lookup b with
                          | some f => int_expr (f.output_types.headD (UInt 8)).bytes
                          | none => Expr.Variable (Int_ 32) (b ++ ".elem_size")),
                        Expr.Variable (Int_ 32)
                          (b ++ ".prefetch_" ++ toString g.ptmp ++ "_buf")]
                       CallType.Intrinsic)
                     g.pstmts))),
               ptmp := g.ptmp + 1 } := by
  refine ⟨create_call X env b box.length g.ptmp, ?_⟩
  rw [prefetch_box_eq X env g (b, box) hg]
  have hsize : elem_size_arg (get_type env b).1 (get_type env b).2 b =
      (match env.lookup b with
        | some f => int_expr (f.output_types.headD (UInt 8)).bytes
        | none => Expr.Variable (Int_ 32) (b ++ ".elem_size")) := by
    unfold get_type elem_size_arg
    cases env.lookup b with
    | none => simp
    | some f =>
      cases hts : f.output_types with
      | nil => simp [hts, Function.outputs]
      | cons t ts => simp [hts, Function.outputs]
  simp only [box_block, prefetch_call, hsize, prefetch_buf_name]

/-- C6, witness: the first round for `f`, a stage of the sample environment with a
4-byte output, and a box of one dimension. -/
theorem prefetch_buffer_t_args_witness :
    ∃ create,
      prefetch_box sample_externals sample_env { cnt := 0, pstmts := none, ptmp := 0 }
          ("f", [⟨int_expr 0, int_expr 7⟩]) =
        some { cnt := 0 + 1,
               pstmts := some (let_bounds "f" (toString 0) 0 [⟨int_expr 0, int_expr 7⟩]
                 (Stmt.LetStmt ("f" ++ ".prefetch_" ++ toString 0 ++ "_buf") create
                   (chain
                     (Expr.Call (Int_ 32) "prefetch_buffer_t"
                       [int_expr (1 : Nat),
                        (match List.lookup "f" sample_env with
                          | some f => int_expr (f.output_types.headD (UInt 8)).bytes
                          | none => Expr.Variable (Int_ 32) ("f" ++ ".elem_size")),
                        Expr.Variable (Int_ 32)
                          ("f" ++ ".prefetch_" ++ toString 0 ++ "_buf")]
                       CallType.Intrinsic)
                     none))),
               ptmp := 0 + 1 } :=
  prefetch_buffer_t_args sample_externals sample_env { cnt := 0, pstmts := none, ptmp := 0 }
    "f" [⟨int_expr 0, int_expr 7⟩] (by simp [GenState.consistent])

theorem digit_value_digitChar (k : Nat) (h : k < 10) : digit_value (Nat.digitChar k) = k := by
  interval_cases k <;> rfl

theorem digitChar_not_sep (k : Nat) (h : k < 10) :
    Nat.digitChar k ≠ '.' ∧ Nat.digitChar k ≠ '_' := by
  interval_cases k <;> decide

theorem foldl_toDigitsCore :
    ∀ (fuel n : Nat) (ds : List Char), n < fuel →
      (Nat.toDigitsCore 10 fuel n ds).foldl read_digit 0 = ds.foldl read_digit n := by
  intro fuel
  induction fuel with
  | zero => intro n ds h; omega
  | succ fuel ih =>
    intro n ds h
    simp only [Nat.toDigitsCore]
    by_cases h0 : n / 10 = 0
    · have hn : n % 10 = n := by omega
      have hd := digit_value_digitChar (n % 10) (Nat.mod_lt _ (by decide))
      rw [hn] at hd
      simp only [h0, if_true, List.foldl_cons, read_digit, hd, hn, Nat.mul_zero,
        Nat.zero_add]
    · have hlt : n / 10 < fuel := by omega
      simp only [h0, if_false]
      rw [ih (n / 10) _ hlt]
      have hn : 10 * (n / 10) + n % 10 = n := Nat.div_add_mod n 10
      simp only [List.foldl_cons, read_digit,
        digit_value_digitChar (n % 10) (Nat.mod_lt _ (by decide)), hn]

theorem toDigits_injective (a b : Nat) (h : Nat.toDigits 10 a = Nat.toDigits 10 b) : a = b := by
  have ha := foldl_toDigitsCore (a + 1) a [] (by omega)
  have hb := foldl_toDigitsCore (b + 1) b [] (by omega)
  simp only [List.foldl_nil] at ha hb
  unfold Nat.toDigits at h
  rw [← ha, ← hb, h]

theorem toDigitsCore_not_sep :
    ∀ (fuel n : Nat) (ds : List Char) (c : Char),
      c ∈ Nat.toDigitsCore 10 fuel n ds → c ∈ ds ∨ (c ≠ '.' ∧ c ≠ '_') := by
  intro fuel
  induction fuel with
  | zero => intro n ds c h; exact Or.inl (by simpa [Nat.toDigitsCore] using h)
  | succ fuel ih =>
    intro n ds c h
    simp only [Nat.toDigitsCore] at h
    have hd := digitChar_not_sep (n % 10) (Nat.mod_lt _ (by decide))
    by_cases h0 : n / 10 = 0
    · simp only [h0, if_true, List.mem_cons] at h
      rcases h with h | h
      · subst h; exact Or.inr hd
      · exact Or.inl h
    · simp only [h0, if_false] at h
      rcases ih _ _ _ h with h1 | h1
      · simp only [List.mem_cons] at h1
        rcases h1 with h1 | h1
        · subst h1; exact Or.inr hd
        · exact Or.inl h1
      · exact Or.inr h1

theorem toDigits_not_sep (n : Nat) (c : Char) (h : c ∈ Nat.toDigits 10 n) :
    c ≠ '.' ∧ c ≠ '_' := by
  rcases toDigitsCore_not_sep _ _ _ _ h with h1 | h1
  · simp at h1
  · exact h1

theorem split_at_first (x : Char) :
    ∀ (d1 d2 s1 s2 : List Char), x ∉ d1 → x ∉ d2 → d1 ++ x :: s1 = d2 ++ x :: s2 →
      d1 = d2 ∧ s1 = s2 := by
  intro d1
  induction d1 with
  | nil =>
    intro d2 s1 s2 _ h2 h
    cases d2 with
    | nil => simpa using h
    | cons c d2 =>
      simp only [List.nil_append, List.cons_append, List.cons.injEq] at h
      exact absurd (h.1 ▸ List.mem_cons_self _ _) h2
  | cons c d1 ih =>
    intro d2 s1 s2 h1 h2 h
    cases d2 with
    | nil =>
      simp only [List.nil_append, List.cons_append, List.cons.injEq] at h
      exact absurd (h.1 ▸ List.mem_cons_self _ _) h1
    | cons c2 d2 =>
      simp only [List.cons_append, List.cons.injEq] at h
      obtain ⟨hc, hrest⟩ := h
      have := ih d2 s1 s2 (fun hx => h1 (List.mem_cons_of_mem _ hx))
        (fun hx => h2 (List.mem_cons_of_mem _ hx)) hrest
      exact ⟨by rw [hc, this.1], this.2⟩

theorem split_at_last (x : Char) (l1 l2 t1 t2 : List Char) (h1 : x ∉ t1) (h2 : x ∉ t2)
    (h : l1 ++ x :: t1 = l2 ++ x :: t2) : l1 = l2 ∧ t1 = t2 := by
  have hr := congrArg List.reverse h
  simp only [List.reverse_append, List.reverse_cons, List.append_assoc, List.singleton_append]
    at hr
  have := split_at_first x t1.reverse t2.reverse l1.reverse l2.reverse
    (by simpa using h1) (by simpa using h2) hr
  exact ⟨List.reverse_injective this.2, List.reverse_injective this.1⟩

theorem NameKind.tail_injective (k1 k2 : NameKind) (h : k1.tail = k2.tail) : k1 = k2 := by
  cases k1 <;> cases k2 <;> simp only [NameKind.tail] at h
  · rfl
  · exact absurd h (by simp)
  · exact absurd h (by simp)
  · exact absurd h (by simp)
  · have := toDigits_injective _ _ (List.append_cancel_left h)
    rw [this]
  · exact absurd h (by simp)
  · exact absurd h (by simp)
  · exact absurd h (by simp)
  · have := toDigits_injective _ _ (List.append_cancel_left h)
    rw [this]

theorem NameKind.tail_not_dot (k : NameKind) : '.' ∉ k.tail := by
  cases k with
  | buf => decide
  | min i =>
    simp only [NameKind.tail, List.mem_append, not_or]
    exact ⟨by decide, fun h => (toDigits_not_sep i _ h).1 rfl⟩
  | max i =>
    simp only [NameKind.tail, List.mem_append, not_or]
    exact ⟨by decide, fun h => (toDigits_not_sep i _ h).1 rfl⟩

theorem GenName.str_data (k : GenName) :
    k.str.data =
      k.buffer.data ++ '.' :: ("prefetch_".data ++ (Nat.toDigits 10 k.n ++ '_' :: k.kind.tail)) := by
  obtain ⟨b, n, kind⟩ := k
  cases kind <;>
    simp [GenName.str, prefetch_buf_name, min_name, max_name, NameKind.tail, String.data_append]
      <;> rfl

theorem GenName.str_injective : Function.Injective GenName.str := by
  intro k1 k2 h
  have hd := congrArg String.data h
  rw [GenName.str_data, GenName.str_data] at hd
  have nodot : ∀ k : GenName,
      '.' ∉ "prefetch_".data ++ (Nat.toDigits 10 k.n ++ '_' :: k.kind.tail) := by
    intro k hmem
    simp only [List.mem_append, List.mem_cons] at hmem
    rcases hmem with hmem | hmem | hmem | hmem
    · revert hmem; decide
    · exact (toDigits_not_sep _ _ hmem).1 rfl
    · revert hmem; decide
    · exact NameKind.tail_not_dot _ hmem
  obtain ⟨hb, ht⟩ := split_at_last '.' _ _ _ _ (nodot k1) (nodot k2) hd
  have ht2 := List.append_cancel_left ht
  obtain ⟨hn, hk⟩ := split_at_first '_' _ _ _ _
    (fun hmem => (toDigits_not_sep _ _ hmem).2 rfl)
    (fun hmem => (toDigits_not_sep _ _ hmem).2 rfl) ht2
  obtain ⟨b1, n1, kind1⟩ := k1
  obtain ⟨b2, n2, kind2⟩ := k2
  simp only at hb hn hk
  have e1 : b1 = b2 := String.ext hb
  have e2 : n1 = n2 := toDigits_injective _ _ hn
  have e3 : kind1 = kind2 := NameKind.tail_injective _ _ hk
  rw [e1, e2, e3]

theorem KeysOK.nil (lo hi : Nat) : KeysOK lo hi [] := by
  simp [KeysOK]

theorem KeysOK.union (lo hi lo1 hi1 lo2 hi2 : Nat) (a b : List GenName)
    (ha : KeysOK lo1 hi1 a) (hb : KeysOK lo2 hi2 b) (hdisj : hi1 ≤ lo2 ∨ hi2 ≤ lo1)
    (h1 : lo ≤ lo1) (h2 : lo ≤ lo2) (h3 : hi1 ≤ hi) (h4 : hi2 ≤ hi) :
    KeysOK lo hi (a ++ b) := by
  obtain ⟨na, ra, ba⟩ := ha
  obtain ⟨nb, rb, bb⟩ := hb
  have hne : ∀ k1 ∈ a, ∀ k2 ∈ b, k1.n ≠ k2.n := by
    intro k1 hk1 k2 hk2 he
    have := ra k1 hk1
    have := rb k2 hk2
    omega
  refine ⟨?_, ?_, ?_⟩
  · rw [List.nodup_append]
    refine ⟨na, nb, ?_⟩
    intro k hk1 hk2
    exact hne k hk1 k hk2 rfl
  · intro k hk
    rcases List.mem_append.1 hk with hk | hk
    · have := ra k hk; omega
    · have := rb k hk; omega
  · intro k1 hk1 k2 hk2 he
    rcases List.mem_append.1 hk1 with hk1 | hk1 <;> rcases List.mem_append.1 hk2 with hk2 | hk2
    · exact ba k1 hk1 k2 hk2 he
    · exact absurd he (hne k1 hk1 k2 hk2)
    · exact absurd he.symm (hne k2 hk2 k1 hk1)
    · exact bb k1 hk1 k2 hk2 he

theorem mem_bound_keys (b : String) (n : Nat) :
    ∀ (box : List Interval) (i : Nat) (k : GenName), k ∈ bound_keys b n i box →
      k.buffer = b ∧ k.n = n ∧ ∃ j, i ≤ j ∧ (k.kind = NameKind.min j ∨ k.kind = NameKind.max j) := by
  intro box
  induction box with
  | nil => intro i k h; simp [bound_keys] at h
  | cons iv rest ih =>
    intro i k h
    simp only [bound_keys, List.mem_cons] at h
    rcases h with h | h | h
    · subst h; exact ⟨rfl, rfl, i, Nat.le_refl _, Or.inl rfl⟩
    · subst h; exact ⟨rfl, rfl, i, Nat.le_refl _, Or.inr rfl⟩
    · obtain ⟨h1, h2, j, hj, hk⟩ := ih (i + 1) k h
      exact ⟨h1, h2, j, by omega, hk⟩

theorem nodup_bound_keys (b : String) (n : Nat) :
    ∀ (box : List Interval) (i : Nat), (bound_keys b n i box).Nodup := by
  intro box
  induction box with
  | nil => intro i; simp [bound_keys]
  | cons iv rest ih =>
    intro i
    simp only [bound_keys, List.nodup_cons, List.mem_cons, not_or]
    refine ⟨⟨by simp, ?_⟩, ?_, ih (i + 1)⟩
    · intro h
      obtain ⟨_, _, j, hj, hk⟩ := mem_bound_keys b n rest (i + 1) _ h
      rcases hk with hk | hk
      · simp only [NameKind.min.injEq] at hk; omega
      · simp at hk
    · intro h
      obtain ⟨_, _, j, hj, hk⟩ := mem_bound_keys b n rest (i + 1) _ h
      rcases hk with hk | hk
      · simp at hk
      · simp only [NameKind.max.injEq] at hk; omega

theorem KeysOK_box_keys (n : Nat) (b : String × Box) : KeysOK n (n + 1) (box_keys n b) := by
  refine ⟨?_, ?_, ?_⟩
  · simp only [box_keys]
    rw [List.nodup_append]
    refine ⟨nodup_bound_keys _ _ _ _, by simp, ?_⟩
    intro k hk1 hk2
    obtain ⟨_, _, j, _, hk⟩ := mem_bound_keys _ _ _ _ _ hk1
    simp only [List.mem_singleton] at hk2
    subst hk2
    rcases hk with hk | hk <;> simp at hk
  · intro k hk
    simp only [box_keys, List.mem_append, List.mem_singleton] at hk
    rcases hk with hk | hk
    · obtain ⟨_, h2, _⟩ := mem_bound_keys _ _ _ _ _ hk
      omega
    · subst hk; simp
  · intro k1 hk1 k2 hk2 _
    have hb : ∀ k ∈ box_keys n b, k.buffer = b.1 := by
      intro k hk
      simp only [box_keys, List.mem_append, List.mem_singleton] at hk
      rcases hk with hk | hk
      · exact (mem_bound_keys _ _ _ _ _ hk).1
      · subst hk; rfl
    rw [hb k1 hk1, hb k2 hk2]

theorem KeysOK_boxes_keys :
    ∀ (bs : List (String × Box)) (n : Nat), KeysOK n (n + bs.length) (boxes_keys n bs) := by
  intro bs
  induction bs with
  | nil => intro n; exact KeysOK.nil _ _
  | cons b bs ih =>
    intro n
    simp only [boxes_keys, List.length_cons]
    exact KeysOK.union n (n + (bs.length + 1)) (n + 1) (n + 1 + bs.length) n (n + 1) _ _
      (ih (n + 1)) (KeysOK_box_keys n b) (Or.inr (Nat.le_refl _)) (by omega) (by omega)
      (by omega) (by omega)

theorem let_names_let_bounds (b pstr : String) (n : Nat) (hp : pstr = toString n) :
    ∀ (box : List Interval) (i : Nat) (s : Stmt),
      let_names (let_bounds b pstr i box s) =
        (bound_keys b n i box).map GenName.str ++ let_names s := by
  intro box
  induction box with
  | nil => intro i s; simp [let_bounds, bound_keys]
  | cons iv rest ih =>
    intro i s
    subst hp
    simp only [let_bounds, let_names, bound_keys, List.map_cons, List.cons_append, ih,
      GenName.str]

theorem let_names_box_block (X : Externals) (env : Env) (prev : Option Stmt) (n : Nat)
    (b : String × Box) :
    let_names (box_block X env prev n b) =
      (box_keys n b).map GenName.str ++ let_names_opt prev := by
  simp only [box_block, let_names_let_bounds b.1 (toString n) n rfl, let_names, box_keys,
    List.map_append, List.map_cons, List.map_nil, List.append_assoc, List.singleton_append,
    GenName.str]
  cases prev <;> simp [chain, let_names, let_names_opt]

theorem let_names_boxes_block (X : Externals) (env : Env) :
    ∀ (bs : List (String × Box)) (prev : Option Stmt) (n : Nat),
      let_names_opt (boxes_block X env prev n bs) =
        (boxes_keys n bs).map GenName.str ++ let_names_opt prev := by
  intro bs
  induction bs with
  | nil => intro prev n; simp [boxes_block, boxes_keys]
  | cons b bs ih =>
    intro prev n
    simp only [boxes_block, boxes_keys, ih, let_names_opt, let_names_box_block,
      List.map_append, List.append_assoc]

theorem guards_of_names (X : Externals) (env : Env) (name : String) (min extent : Expr)
    (ivar_name : String) :
    ∀ (ps : List Directive) (body : Stmt) (st : PState),
      st.ptmp ≤ (guards_of X env name min extent ivar_name ps body st).2.ptmp ∧
      ∃ keys,
        KeysOK st.ptmp (guards_of X env name min extent ivar_name ps body st).2.ptmp keys ∧
        ∀ b1, let_names
            ((guards_of X env name min extent ivar_name ps body st).1.foldr Stmt.Block b1) =
          keys.map GenName.str ++ let_names b1 := by
  intro ps
  induction ps with
  | nil =>
    intro body st
    exact ⟨Nat.le_refl _, [], KeysOK.nil _ _, fun b1 => by simp [guards_of]⟩
  | cons p ps ih =>
    intro body st
    simp only [guards_of]
    by_cases hv : p.var = ivar_name
    · simp only [hv, if_true]
      have hnames := let_names_boxes_block X env
        (X.boxes_required body (st.scope.push name (prein name p.offset))) none st.ptmp
      have hok := KeysOK_boxes_keys
        (X.boxes_required body (st.scope.push name (prein name p.offset))) st.ptmp
      cases hb : boxes_block X env none st.ptmp
          (X.boxes_required body (st.scope.push name (prein name p.offset))) with
      | none =>
        simp only []
        obtain ⟨hle, keys, hk, hn⟩ := ih body
          { scope := st.scope,
            ptmp := st.ptmp +
              (X.boxes_required body (st.scope.push name (prein name p.offset))).length }
        refine ⟨by simp only [] at hle; omega, keys, ?_, hn⟩
        exact KeysOK.union _ _ _ _ _ _ _ _ (KeysOK.nil st.ptmp st.ptmp) hk
          (Or.inl (by simp only []; omega)) (Nat.le_refl _) (by simp only []; omega)
          (by simp only [] at hle; omega) (Nat.le_refl _)
      | some pstmts =>
        simp only []
        rw [hb] at hnames
        simp only [let_names_opt, List.append_nil] at hnames
        obtain ⟨hle, keys, hk, hn⟩ := ih
          (Stmt.Block (Stmt.IfThenElse (pcond name p.offset min extent) pstmts none) body)
          { scope := st.scope,
            ptmp := st.ptmp +
              (X.boxes_required body (st.scope.push name (prein name p.offset))).length }
        refine ⟨by simp only [] at hle; omega, keys ++ boxes_keys st.ptmp
          (X.boxes_required body (st.scope.push name (prein name p.offset))), ?_, ?_⟩
        · exact KeysOK.union _ _ _ _ _ _ _ _ hk hok (Or.inr (Nat.le_refl _))
            (by simp only []; omega) (Nat.le_refl _) (Nat.le_refl _)
            (by simp only [] at hle; omega)
        · intro b1
          simp only [List.foldr_append, List.foldr_cons, List.foldr_nil, hn, let_names,
            let_names_opt, hnames, List.map_append, List.append_assoc, List.append_nil]
    · simp only [hv, if_false]
      exact ih body st

theorem perm_mix {α : Type} (a x b y : List α) :
    ((a ++ x) ++ (b ++ y)).Perm ((a ++ b) ++ (x ++ y)) := by
  rw [List.append_assoc, List.append_assoc]
  exact List.Perm.append_left a (List.perm_append_comm_assoc x b y)

theorem for_guards_names (X : Externals) (env : Env) (name : String) (min extent : Expr)
    (body : Stmt) (st : PState) (r : List Stmt × PState)
    (h : for_guards X env name min extent body st = some r) :
    st.ptmp ≤ r.2.ptmp ∧
      ∃ keys, KeysOK st.ptmp r.2.ptmp keys ∧
        ∀ b1, let_names (r.1.foldr Stmt.Block b1) = keys.map GenName.str ++ let_names b1 := by
  unfold for_guards at h
  split at h
  · split at h
    · simp only [Option.some.injEq] at h
      subst h
      exact guards_of_names X env name min extent _ _ _ _
    · exact absurd h (by simp)
  · exact absurd h (by simp)

theorem rewrites_names (X : Externals) (env : Env) (st : PState) (s out : Stmt)
    (st1 : PState) (h : Rewrites X env st s out st1) :
    st.ptmp ≤ st1.ptmp ∧
      ∃ keys, KeysOK st.ptmp st1.ptmp keys ∧
        (let_names out).Perm (let_names s ++ keys.map GenName.str) := by
  induction h with
  | LetStmt st st1 n v b b1 sc _ _ ih =>
    obtain ⟨hle, keys, hk, hp⟩ := ih
    exact ⟨hle, keys, hk, by simpa [let_names] using hp⟩
  | AssertStmt st c m => exact ⟨Nat.le_refl _, [], KeysOK.nil _ _, by simp [let_names]⟩
  | ProducerConsumer_none st st1 st2 n p p1 c c1 _ _ ih1 ih2 =>
    obtain ⟨hle1, k1, hk1, hp1⟩ := ih1
    obtain ⟨hle2, k2, hk2, hp2⟩ := ih2
    refine ⟨by omega, k1 ++ k2, ?_, ?_⟩
    · exact KeysOK.union _ _ _ _ _ _ _ _ hk1 hk2 (Or.inl (Nat.le_refl _)) (Nat.le_refl _)
        hle1 hle2 (Nat.le_refl _)
    · simp only [let_names, let_names_opt, List.nil_append, List.map_append]
      exact (List.Perm.append hp1 hp2).trans (perm_mix _ _ _ _)
  | ProducerConsumer_some st st1 st2 st3 n p p1 u u1 c c1 _ _ _ ih1 ih2 ih3 =>
    obtain ⟨hle1, k1, hk1, hp1⟩ := ih1
    obtain ⟨hle2, k2, hk2, hp2⟩ := ih2
    obtain ⟨hle3, k3, hk3, hp3⟩ := ih3
    have hk23 : KeysOK st1.ptmp st3.ptmp (k2 ++ k3) :=
      KeysOK.union _ _ _ _ _ _ _ _ hk2 hk3 (Or.inl (Nat.le_refl _)) (Nat.le_refl _)
        hle2 hle3 (Nat.le_refl _)
    refine ⟨by omega, k1 ++ (k2 ++ k3), ?_, ?_⟩
    · exact KeysOK.union _ _ _ _ _ _ _ _ hk1 hk23 (Or.inl (Nat.le_refl _)) (Nat.le_refl _)
        hle1 (by omega) (Nat.le_refl _)
    · simp only [let_names, let_names_opt, List.map_append]
      have h23 := (List.Perm.append hp2 hp3).trans (perm_mix _ _ _ _)
      exact (List.Perm.append hp1 h23).trans (perm_mix _ _ _ _)
  | For st st2 n mn ex ft dev b b1 r hg _ ih =>
    obtain ⟨hle1, k1, hk1, hn⟩ := for_guards_names X env n mn ex b st r hg
    obtain ⟨hle2, k2, hk2, hp2⟩ := ih
    refine ⟨by omega, k1 ++ k2, ?_, ?_⟩
    · exact KeysOK.union _ _ _ _ _ _ _ _ hk1 hk2 (Or.inl (Nat.le_refl _)) (Nat.le_refl _)
        hle1 hle2 (Nat.le_refl _)
    · simp only [let_names, hn, List.map_append]
      have h1 : (List.map GenName.str k1 ++ let_names b1).Perm
          (List.map GenName.str k1 ++ (let_names b ++ List.map GenName.str k2)) :=
        List.Perm.append_left _ hp2
      exact h1.trans (List.perm_append_comm_assoc _ _ _)
  | Store st n v i => exact ⟨Nat.le_refl _, [], KeysOK.nil _ _, by simp [let_names]⟩
  | Provide st n vs as => exact ⟨Nat.le_refl _, [], KeysOK.nil _ _, by simp [let_names]⟩
  | Allocate st st1 n t es c b b1 _ ih =>
    obtain ⟨hle, keys, hk, hp⟩ := ih
    exact ⟨hle, keys, hk, by simpa [let_names] using hp⟩
  | Free st n => exact ⟨Nat.le_refl _, [], KeysOK.nil _ _, by simp [let_names]⟩
  | Realize st st1 n ts bs c b b1 _ ih =>
    obtain ⟨hle, keys, hk, hp⟩ := ih
    exact ⟨hle, keys, hk, by simpa [let_names] using hp⟩
  | Block st st1 st2 f f1 r r1 _ _ ih1 ih2 =>
    obtain ⟨hle1, k1, hk1, hp1⟩ := ih1
    obtain ⟨hle2, k2, hk2, hp2⟩ := ih2
    refine ⟨by omega, k1 ++ k2, ?_, ?_⟩
    · exact KeysOK.union _ _ _ _ _ _ _ _ hk1 hk2 (Or.inl (Nat.le_refl _)) (Nat.le_refl _)
        hle1 hle2 (Nat.le_refl _)
    · simp only [let_names, List.map_append]
      exact (List.Perm.append hp1 hp2).trans (perm_mix _ _ _ _)
  | IfThenElse_none st st1 c t t1 _ ih =>
    obtain ⟨hle, keys, hk, hp⟩ := ih
    exact ⟨hle, keys, hk, by simpa [let_names, let_names_opt] using hp⟩
  | IfThenElse_some st st1 st2 c t t1 e e1 _ _ ih1 ih2 =>
    obtain ⟨hle1, k1, hk1, hp1⟩ := ih1
    obtain ⟨hle2, k2, hk2, hp2⟩ := ih2
    refine ⟨by omega, k1 ++ k2, ?_, ?_⟩
    · exact KeysOK.union _ _ _ _ _ _ _ _ hk1 hk2 (Or.inl (Nat.le_refl _)) (Nat.le_refl _)
        hle1 hle2 (Nat.le_refl _)
    · simp only [let_names, let_names_opt, List.map_append]
      exact (List.Perm.append hp1 hp2).trans (perm_mix _ _ _ _)
  | Evaluate st v => exact ⟨Nat.le_refl _, [], KeysOK.nil _ _, by simp [let_names]⟩

/-- C7: whenever the pass succeeds on `s`, the `LetStmt` bindings of its output are those
of `s` plus generated bindings `<buffer>.prefetch_<n>_buf`, `<buffer>.prefetch_<n>_min_<i>`
and `<buffer>.prefetch_<n>_max_<i>`, given by a list `keys` of (buffer, n, kind) such
that: the generated names are pairwise distinct, the keys are pairwise distinct, an
occurrence number `n` serves a single buffer, and the string construction is injective
in (buffer, n, kind, i). -/
theorem generated_names_distinct (X : Externals) (env : Env) (s out : Stmt)
    (h : inject_prefetch X env s = some out) :
    ∃ keys : List GenName,
      (let_names out).Perm (let_names s ++ keys.map GenName.str) ∧
      (keys.map GenName.str).Nodup ∧
      keys.Nodup ∧
      (∀ k1 ∈ keys, ∀ k2 ∈ keys, k1.n = k2.n → k1.buffer = k2.buffer) ∧
      Function.Injective GenName.str := by
  unfold inject_prefetch at h
  cases hm : mutate X env s { scope := [], ptmp := 0 } with
  | none => simp [hm] at h
  | some r =>
    obtain ⟨o, st1⟩ := r
    simp only [hm, Option.map_some', Option.some.injEq] at h
    subst h
    obtain ⟨_, keys, ⟨hnd, _, hbuf⟩, hperm⟩ :=
      rewrites_names X env _ s o st1 (mutate_sound X env s _ o st1 hm)
    exact ⟨keys, hperm, hnd.map GenName.str_injective, hnd, hbuf, GenName.str_injective⟩

/-- C7, witness: the sample loop with the directive `(i, 2)`. -/
theorem generated_names_distinct_witness :
    inject_prefetch sample_externals sample_env sample_loop = some sample_out ∧
    ∃ keys : List GenName,
      (let_names sample_out).Perm (let_names sample_loop ++ keys.map GenName.str) ∧
      (keys.map GenName.str).Nodup ∧
      keys.Nodup ∧
      (∀ k1 ∈ keys, ∀ k2 ∈ keys, k1.n = k2.n → k1.buffer = k2.buffer) ∧
      Function.Injective GenName.str :=
  ⟨inject_prefetch_sample,
    generated_names_distinct sample_externals sample_env sample_loop sample_out
      inject_prefetch_sample⟩

theorem is_call_of_count (name : String) (e : Expr) (h : count_calls name e = 0) :
    is_call name e = false := by
  cases e <;> simp only [is_call]
  rename_i t n args ct
  simp only [count_calls] at h
  by_cases hn : n = name
  · simp [hn] at h
  · simp [hn]

theorem count_calls_dim_args (name varname pstr : String) (k : Nat) :
    count_calls_list name (dim_args varname pstr k) = 0 := by
  have happ : ∀ (l1 l2 : List Expr),
      count_calls_list name (l1 ++ l2) = count_calls_list name l1 + count_calls_list name l2 := by
    intro l1
    induction l1 with
    | nil => intro l2; simp [count_calls_list]
    | cons e es ih => intro l2; simp [count_calls_list, ih, Nat.add_assoc]
  induction k with
  | zero => simp [dim_args, count_calls_list]
  | succ k ih =>
    simp [dim_args, happ, ih, dim_triple, count_calls_list, count_calls, int_expr]

theorem count_calls_create_call (X : Externals) (env : Env) (name varname : String)
    (dims n : Nat) (hz : ∀ t, count_calls name (X.make_zero t) = 0)
    (hname : name = "create_buffer_t" ∨ name = "prefetch_buffer_t") :
    count_calls name (create_call X env varname dims n) =
      if name = "create_buffer_t" then 1 else 0 := by
  rcases hname with h | h <;> subst h <;>
    simp [create_call, descriptor_args, count_calls, count_calls_list, count_calls_dim_args,
      hz, int_expr]

theorem count_calls_prefetch_call (env : Env) (name varname : String) (dims n : Nat)
    (hname : name = "create_buffer_t" ∨ name = "prefetch_buffer_t") :
    count_calls name (prefetch_call env varname dims n) =
      if name = "prefetch_buffer_t" then 1 else 0 := by
  have he : count_calls name
      (elem_size_arg (get_type env varname).1 (get_type env varname).2 varname) = 0 := by
    unfold elem_size_arg
    split <;> simp [count_calls, int_expr]
  rcases hname with h | h <;> subst h <;>
    simp [prefetch_call, count_calls, count_calls_list, he, int_expr]

theorem stmt_calls_let_bounds (name varname pstr : String) :
    ∀ (box : List Interval) (i : Nat) (s : Stmt),
      (∀ iv ∈ box, count_calls name iv.min = 0 ∧ count_calls name iv.max = 0) →
      stmt_calls name (let_bounds varname pstr i box s) = stmt_calls name s := by
  intro box
  induction box with
  | nil => intro i s _; simp [let_bounds]
  | cons iv rest ih =>
    intro i s h
    have h0 := h iv (List.mem_cons_self _ _)
    simp only [let_bounds, stmt_calls, h0.1, h0.2, Nat.zero_add]
    exact ih _ _ (fun x hx => h x (List.mem_cons_of_mem _ hx))

theorem descriptor_lets_let_bounds (varname pstr : String) :
    ∀ (box : List Interval) (i : Nat) (s : Stmt),
      (∀ iv ∈ box, count_calls "create_buffer_t" iv.min = 0 ∧
        count_calls "create_buffer_t" iv.max = 0) →
      descriptor_lets (let_bounds varname pstr i box s) = descriptor_lets s := by
  intro box
  induction box with
  | nil => intro i s _; simp [let_bounds]
  | cons iv rest ih =>
    intro i s h
    have h0 := h iv (List.mem_cons_self _ _)
    simp only [let_bounds, descriptor_lets, is_call_of_count _ _ h0.1,
      is_call_of_count _ _ h0.2, List.nil_append]
    simp only [Bool.false_eq_true, if_false, List.nil_append]
    exact ih _ _ (fun x hx => h x (List.mem_cons_of_mem _ hx))

theorem prefetch_evals_let_bounds (varname pstr : String) :
    ∀ (box : List Interval) (i : Nat) (s : Stmt),
      prefetch_evals (let_bounds varname pstr i box s) = prefetch_evals s := by
  intro box
  induction box with
  | nil => intro i s; simp [let_bounds]
  | cons iv rest ih => intro i s; simp only [let_bounds, prefetch_evals, ih]

theorem prefetch_evals_box_block (X : Externals) (env : Env) (prev : Option Stmt) (n : Nat)
    (b : String × Box) :
    prefetch_evals (box_block X env prev n b) =
      prefetch_call env b.1 b.2.length n :: prefetch_evals_opt prev := by
  simp only [box_block, prefetch_evals_let_bounds, prefetch_evals]
  cases prev <;> simp [chain, prefetch_evals, prefetch_evals_opt, prefetch_call, is_call]

theorem prefetch_evals_boxes_block (X : Externals) (env : Env) :
    ∀ (bs : List (String × Box)) (prev : Option Stmt) (n : Nat),
      prefetch_evals_opt (boxes_block X env prev n bs) =
        ((bs.enumFrom n).map
          (fun nb => prefetch_call env nb.2.1 nb.2.2.length nb.1)).reverse ++
          prefetch_evals_opt prev := by
  intro bs
  induction bs with
  | nil => intro prev n; simp [boxes_block]
  | cons b bs ih =>
    intro prev n
    simp only [boxes_block, ih, prefetch_evals_opt, prefetch_evals_box_block,
      List.enumFrom_cons, List.map_cons, List.reverse_cons, List.append_assoc,
      List.singleton_append]

theorem descriptor_lets_box_block (X : Externals) (env : Env) (prev : Option Stmt) (n : Nat)
    (b : String × Box)
    (h : ∀ iv ∈ b.2, count_calls "create_buffer_t" iv.min = 0 ∧
      count_calls "create_buffer_t" iv.max = 0) :
    descriptor_lets (box_block X env prev n b) =
      (prefetch_buf_name b.1 (toString n), create_call X env b.1 b.2.length n) ::
        descriptor_lets_opt prev := by
  simp only [box_block, descriptor_lets_let_bounds _ _ _ _ _ h, descriptor_lets]
  cases prev <;> simp [chain, descriptor_lets, descriptor_lets_opt, create_call, is_call]

theorem descriptor_lets_boxes_block (X : Externals) (env : Env) :
    ∀ (bs : List (String × Box)) (prev : Option Stmt) (n : Nat),
      (∀ b ∈ bs, ∀ iv ∈ b.2, count_calls "create_buffer_t" iv.min = 0 ∧
        count_calls "create_buffer_t" iv.max = 0) →
      descriptor_lets_opt (boxes_block X env prev n bs) =
        ((bs.enumFrom n).map
          (fun nb => (prefetch_buf_name nb.2.1 (toString nb.1),
            create_call X env nb.2.1 nb.2.2.length nb.1))).reverse ++
          descriptor_lets_opt prev := by
  intro bs
  induction bs with
  | nil => intro prev n _; simp [boxes_block]
  | cons b bs ih =>
    intro prev n h
    simp only [boxes_block]
    rw [ih _ _ (fun x hx => h x (List.mem_cons_of_mem _ hx))]
    simp only [descriptor_lets_opt,
      descriptor_lets_box_block X env prev n b (h b (List.mem_cons_self _ _)),
      List.enumFrom_cons, List.map_cons, List.reverse_cons, List.append_assoc,
      List.singleton_append]

theorem stmt_calls_box_block (X : Externals) (env : Env) (name : String)
    (prev : Option Stmt) (n : Nat) (b : String × Box)
    (hname : name = "create_buffer_t" ∨ name = "prefetch_buffer_t")
    (hz : ∀ t, count_calls name (X.make_zero t) = 0)
    (h : ∀ iv ∈ b.2, count_calls name iv.min = 0 ∧ count_calls name iv.max = 0) :
    stmt_calls name (box_block X env prev n b) = 1 + stmt_calls_opt name prev := by
  simp only [box_block, stmt_calls_let_bounds name _ _ _ _ _ h, stmt_calls,
    count_calls_create_call X env name _ _ _ hz hname]
  have hp := count_calls_prefetch_call env name b.1 b.2.length n hname
  cases prev with
  | none =>
    simp only [chain, stmt_calls, stmt_calls_opt, hp]
    rcases hname with h1 | h1 <;> subst h1 <;> simp
  | some p =>
    simp only [chain, stmt_calls, stmt_calls_opt, hp]
    rcases hname with h1 | h1 <;> subst h1 <;> simp

theorem stmt_calls_boxes_block (X : Externals) (env : Env) (name : String)
    (hname : name = "create_buffer_t" ∨ name = "prefetch_buffer_t")
    (hz : ∀ t, count_calls name (X.make_zero t) = 0) :
    ∀ (bs : List (String × Box)) (prev : Option Stmt) (n : Nat),
      (∀ b ∈ bs, ∀ iv ∈ b.2, count_calls name iv.min = 0 ∧ count_calls name iv.max = 0) →
      stmt_calls_opt name (boxes_block X env prev n bs) =
        bs.length + stmt_calls_opt name prev := by
  intro bs
  induction bs with
  | nil => intro prev n _; simp [boxes_block]
  | cons b bs ih =>
    intro prev n h
    simp only [boxes_block]
    rw [ih _ _ (fun x hx => h x (List.mem_cons_of_mem _ hx))]
    simp only [stmt_calls_opt,
      stmt_calls_box_block X env name prev n b hname hz (h b (List.mem_cons_self _ _)),
      List.length_cons]
    omega

theorem prefetch_boxes_append (X : Externals) (env : Env) :
    ∀ (xs ys : List (String × Box)) (g : GenState),
      prefetch_boxes X env (xs ++ ys) g =
        match prefetch_boxes X env xs g with
        | some g1 => prefetch_boxes X env ys g1
        | none => none := by
  intro xs
  induction xs with
  | nil => intro ys g; simp [prefetch_boxes]
  | cons x xs ih =>
    intro ys g
    simp only [List.cons_append, prefetch_boxes]
    cases prefetch_box X env g x with
    | none => rfl
    | some g1 => exact ih ys g1

/-- C8: for a matching directive of a loop whose box map is `b0 :: bs`, the boxes and the
zero constants holding no call of the two intrinsics, the loop body gets the guarded
block `pstmts` in front, and `pstmts` holds exactly as many `create_buffer_t` calls and
as many `prefetch_buffer_t` calls as the map has buffers: one descriptor construction per
buffer, bound to `<buffer>.prefetch_<n>_buf`, and one intrinsic call per buffer, whose
first argument is the number of intervals of that buffer's box (both listed from the last
enumerated buffer to the first). -/
theorem guarded_block_counts (X : Externals) (env : Env) (name : String) (mn ex : Expr)
    (ivar_name : String) (body : Stmt) (st : PState) (p : Directive) (b0 : String × Box)
    (bs : List (String × Box)) (hv : p.var = ivar_name)
    (hb : X.boxes_required body (st.scope.push name (prein name p.offset)) = b0 :: bs)
    (hc : externals_free_of "create_buffer_t" X (b0 :: bs))
    (hp : externals_free_of "prefetch_buffer_t" X (b0 :: bs)) :
    ∃ pstmts,
      visit_directive X env name mn ex ivar_name (body, st) p =
        some (Stmt.Block (Stmt.IfThenElse (pcond name p.offset mn ex) pstmts none) body,
          { scope := st.scope, ptmp := st.ptmp + (b0 :: bs).length }) ∧
      stmt_calls "create_buffer_t" pstmts = (b0 :: bs).length ∧
      stmt_calls "prefetch_buffer_t" pstmts = (b0 :: bs).length ∧
      descriptor_lets pstmts =
        (((b0 :: bs).enumFrom st.ptmp).map
          (fun nb => (nb.2.1 ++ ".prefetch_" ++ toString nb.1 ++ "_buf",
            Expr.Call Handle "create_buffer_t"
              (descriptor_args X (get_type env nb.2.1).1 nb.2.1 (toString nb.1) nb.2.2.length)
              CallType.Intrinsic))).reverse ∧
      prefetch_evals pstmts =
        (((b0 :: bs).enumFrom st.ptmp).map
          (fun nb => Expr.Call (Int_ 32) "prefetch_buffer_t"
            [int_expr nb.2.2.length,
              elem_size_arg (get_type env nb.2.1).1 (get_type env nb.2.1).2 nb.2.1,
              Expr.Variable (Int_ 32) (nb.2.1 ++ ".prefetch_" ++ toString nb.1 ++ "_buf")]
            CallType.Intrinsic)).reverse := by
  obtain ⟨q, hq⟩ := boxes_block_cons_isSome X env bs (box_block X env none st.ptmp b0)
    (st.ptmp + 1)
  have hq2 : boxes_block X env none st.ptmp (b0 :: bs) = some q := by
    simpa [boxes_block] using hq
  refine ⟨q, ?_, ?_, ?_, ?_, ?_⟩
  · rw [visit_directive_eq]
    simp only [hv, if_true, splice, hb, hq2]
  · have h := stmt_calls_boxes_block X env "create_buffer_t" (Or.inl rfl) hc.1 (b0 :: bs)
      none st.ptmp hc.2
    rw [hq2] at h
    simpa [stmt_calls_opt] using h
  · have h := stmt_calls_boxes_block X env "prefetch_buffer_t" (Or.inr rfl) hp.1 (b0 :: bs)
      none st.ptmp hp.2
    rw [hq2] at h
    simpa [stmt_calls_opt] using h
  · have h := descriptor_lets_boxes_block X env (b0 :: bs) none st.ptmp hc.2
    rw [hq2] at h
    simpa [descriptor_lets_opt, create_call, prefetch_buf_name] using h
  · have h := prefetch_evals_boxes_block X env (b0 :: bs) none st.ptmp
    rw [hq2] at h
    simpa [prefetch_evals_opt, prefetch_call, prefetch_buf_name] using h

/-- C8, witness: the directive `(i, 2)` on the sample loop, whose box map holds `g`. -/
theorem guarded_block_counts_witness :
    ∃ pstmts,
      visit_directive sample_externals sample_env "f.i" (int_expr 0) (int_expr 10) "i"
          (Stmt.Free "x", { scope := [], ptmp := 0 }) { var := "i", offset := 2 } =
        some (Stmt.Block
          (Stmt.IfThenElse (pcond "f.i" 2 (int_expr 0) (int_expr 10)) pstmts none)
          (Stmt.Free "x"),
          { scope := [],
            ptmp := 0 + [("g", [(⟨Expr.Variable (Int_ 32) "lo",
              Expr.Variable (Int_ 32) "hi"⟩ : Interval)])].length }) ∧
      stmt_calls "create_buffer_t" pstmts =
        [("g", [(⟨Expr.Variable (Int_ 32) "lo", Expr.Variable (Int_ 32) "hi"⟩ : Interval)])].length ∧
      stmt_calls "prefetch_buffer_t" pstmts =
        [("g", [(⟨Expr.Variable (Int_ 32) "lo", Expr.Variable (Int_ 32) "hi"⟩ : Interval)])].length ∧
      descriptor_lets pstmts =
        (([("g", [(⟨Expr.Variable (Int_ 32) "lo",
            Expr.Variable (Int_ 32) "hi"⟩ : Interval)])].enumFrom 0).map
          (fun nb => (nb.2.1 ++ ".prefetch_" ++ toString nb.1 ++ "_buf",
            Expr.Call Handle "create_buffer_t"
              (descriptor_args sample_externals (get_type sample_env nb.2.1).1 nb.2.1
                (toString nb.1) nb.2.2.length)
              CallType.Intrinsic))).reverse ∧
      prefetch_evals pstmts =
        (([("g", [(⟨Expr.Variable (Int_ 32) "lo",
            Expr.Variable (Int_ 32) "hi"⟩ : Interval)])].enumFrom 0).map
          (fun nb => Expr.Call (Int_ 32) "prefetch_buffer_t"
            [int_expr nb.2.2.length,
              elem_size_arg (get_type sample_env nb.2.1).1 (get_type sample_env nb.2.1).2
                nb.2.1,
              Expr.Variable (Int_ 32) (nb.2.1 ++ ".prefetch_" ++ toString nb.1 ++ "_buf")]
            CallType.Intrinsic)).reverse :=
  guarded_block_counts sample_externals sample_env "f.i" (int_expr 0) (int_expr 10) "i"
    (Stmt.Free "x") { scope := [], ptmp := 0 } { var := "i", offset := 2 }
    ("g", [⟨Expr.Variable (Int_ 32) "lo", Expr.Variable (Int_ 32) "hi"⟩]) [] rfl rfl
    (by simp [externals_free_of, sample_externals, count_calls])
    (by simp [externals_free_of, sample_externals, count_calls])

/-- C9 (as amended): the intrinsic calls appear in the generated block in reverse
enumeration order. For every box map, the loop over the boxes succeeds, and the
`prefetch_buffer_t` calls of its block, read in sequential (execution) order, are the
calls of the buffers from the last enumerated to the first: for `b1` enumerated before
`b2`, the call for `b2` precedes the call for `b1`. -/
theorem prefetch_calls_reverse_order (X : Externals) (env : Env)
    (boxes : List (String × Box)) (c : Nat) :
    ∃ pstmts,
      prefetch_boxes X env boxes { cnt := 0, pstmts := none, ptmp := c } =
        some { cnt := boxes.length, pstmts := pstmts, ptmp := c + boxes.length } ∧
      prefetch_evals_opt pstmts =
        ((boxes.enumFrom c).map
          (fun nb => Expr.Call (Int_ 32) "prefetch_buffer_t"
            [int_expr nb.2.2.length,
              elem_size_arg (get_type env nb.2.1).1 (get_type env nb.2.1).2 nb.2.1,
              Expr.Variable (Int_ 32) (nb.2.1 ++ ".prefetch_" ++ toString nb.1 ++ "_buf")]
            CallType.Intrinsic)).reverse := by
  refine ⟨boxes_block X env none c boxes, ?_, ?_⟩
  · rw [prefetch_boxes_eq X env boxes _ (by simp [GenState.consistent])]
    simp
  · have h := prefetch_evals_boxes_block X env boxes none c
    simpa [prefetch_evals_opt, prefetch_call, prefetch_buf_name] using h

/-- C9, counterexample: for the map enumerated as `a` then `b`, the calls of the block
are, in execution order, the call on the descriptor of `b`, then the call on the
descriptor of `a`. -/
theorem prefetch_calls_order_counterexample :
    ∃ pstmts,
      prefetch_boxes sample_externals sample_env sample_boxes
          { cnt := 0, pstmts := none, ptmp := 0 } =
        some { cnt := 2, pstmts := some pstmts, ptmp := 2 } ∧
      (prefetch_evals pstmts).map call_descriptor = ["b.prefetch_1_buf", "a.prefetch_0_buf"] :=
  ⟨_, rfl, rfl⟩

/-- C10 (as amended): the bindings generated for a buffer enclose that buffer's own
prefetch call followed by the whole block of the buffers enumerated before it. For a map
enumerated as `pre`, then `(b, box)`, then `post`: the loop over `pre` gives a block
`prev`; after the round of `b` the block is the bounds and the descriptor of `b` around
the call of `b` chained with `prev`; and the rounds of `post` go on from that block. -/
theorem bindings_enclose_earlier (X : Externals) (env : Env) (pre : List (String × Box))
    (b : String) (box : Box) (post : List (String × Box)) (c : Nat) :
    ∃ prev,
      prefetch_boxes X env pre { cnt := 0, pstmts := none, ptmp := c } =
        some { cnt := pre.length, pstmts := prev, ptmp := c + pre.length } ∧
      prefetch_boxes X env (pre ++ (b, box) :: post) { cnt := 0, pstmts := none, ptmp := c } =
        prefetch_boxes X env post
          { cnt := pre.length + 1,
            pstmts := some (let_bounds b (toString (c + pre.length)) 0 box
              (Stmt.LetStmt (b ++ ".prefetch_" ++ toString (c + pre.length) ++ "_buf")
                (create_call X env b box.length (c + pre.length))
                (chain (prefetch_call env b box.length (c + pre.length)) prev))),
            ptmp := c + pre.length + 1 } := by
  have hpre := prefetch_boxes_eq X env pre { cnt := 0, pstmts := none, ptmp := c }
    (by simp [GenState.consistent])
  simp only [Nat.zero_add] at hpre
  refine ⟨boxes_block X env none c pre, hpre, ?_⟩
  rw [prefetch_boxes_append, hpre]
  simp only [prefetch_boxes]
  rw [prefetch_box_eq]
  · simp only [box_block, prefetch_buf_name]
  · simp only [GenState.consistent]
    cases pre with
    | nil => simp [boxes_block]
    | cons x xs =>
      obtain ⟨q, hq⟩ := boxes_block_cons_isSome X env xs (box_block X env none c x) (c + 1)
      simp [boxes_block, hq]

/-- C10, counterexample: for the map enumerated as `a` then `b`, the body of the
`LetStmt` that binds the descriptor of `b` holds the call on the descriptor of `a`, and
the bindings of the bounds and of the descriptor of `a`. -/
theorem bindings_enclose_counterexample :
    ∃ pstmts,
      prefetch_boxes sample_externals sample_env sample_boxes
          { cnt := 0, pstmts := none, ptmp := 0 } =
        some { cnt := 2, pstmts := some pstmts, ptmp := 2 } ∧
      (let_body "b.prefetch_1_buf" pstmts).map
          (fun s => (prefetch_evals s).map call_descriptor) =
        some ["b.prefetch_1_buf", "a.prefetch_0_buf"] ∧
      (let_body "b.prefetch_1_buf" pstmts).map let_names =
        some ["a.prefetch_0_min_0", "a.prefetch_0_max_0", "a.prefetch_0_buf"] :=
  ⟨_, rfl, rfl, rfl⟩

theorem guards_of_no_match (X : Externals) (env : Env) (name : String) (min extent : Expr)
    (ivar_name : String) :
    ∀ (ps : List Directive) (body : Stmt) (st : PState), (∀ p ∈ ps, p.var ≠ ivar_name) →
      guards_of X env name min extent ivar_name ps body st = ([], st) := by
  intro ps
  induction ps with
  | nil => intro body st _; rfl
  | cons p ps ih =>
    intro body st h
    have hp : p.var ≠ ivar_name := h p (List.mem_cons_self _ _)
    simp only [guards_of, hp, if_false]
    exact ih body st (fun q hq => h q (List.mem_cons_of_mem _ hq))

/-- C12: for a loop whose stage is in the environment and none of whose stage's directives
has the variable component of the loop as its variable, the pass gives
`For(name, min, extent, for_type, device_api, mutate(body))`: the body is mutated from
the state in which the loop was entered, name, bounds, loop type and device are
unchanged, no guard is put in front of the body, and the state after the loop (the
occurrence counter included) is the state after the mutation of the body. -/
theorem visit_For_no_matching_directive (X : Externals) (env : Env) (n : String)
    (mn ex : Expr) (ft : ForType) (dev : DeviceAPI) (body : Stmt) (st : PState)
    (fn v : String) (f : Function)
    (hfn : tuple_func n = some fn) (hf : get_func env fn = some f)
    (hv : tuple_var n = some v) (hno : ∀ p ∈ f.prefetches, p.var ≠ v) :
    mutate X env (Stmt.For n mn ex ft dev body) st =
      (mutate X env body st).map (fun r => (Stmt.For n mn ex ft dev r.1, r.2)) := by
  rw [mutate_For_eq]
  simp only [for_guards, hfn, hv, hf, guards_of_no_match X env n mn ex v f.prefetches body st hno]
  cases hm : mutate X env body st with
  | none => rfl
  | some r => rfl

/-- C12, witness: the loop `f.j` under the sample environment, whose stage `f` has a
directive for the variable `i` only. -/
theorem visit_For_no_matching_directive_witness :
    mutate sample_externals sample_env
        (Stmt.For "f.j" (int_expr 0) (int_expr 4) ForType.Serial DeviceAPI.Host
          (Stmt.Free "x")) { scope := [], ptmp := 3 } =
      (mutate sample_externals sample_env (Stmt.Free "x") { scope := [], ptmp := 3 }).map
        (fun r =>
          (Stmt.For "f.j" (int_expr 0) (int_expr 4) ForType.Serial DeviceAPI.Host r.1, r.2)) :=
  visit_For_no_matching_directive sample_externals sample_env "f.j" (int_expr 0) (int_expr 4)
    ForType.Serial DeviceAPI.Host (Stmt.Free "x") { scope := [], ptmp := 3 } "f" "j"
    { output_types := [Int_ 32], prefetches := [{ var := "i", offset := 2 }] }
    (by decide) rfl (by decide) (by decide)

theorem guards_of_scope (X : Externals) (env : Env) (name : String) (min extent : Expr)
    (ivar_name : String) :
    ∀ (ps : List Directive) (body : Stmt) (st : PState),
      (guards_of X env name min extent ivar_name ps body st).2.scope = st.scope := by
  intro ps
  induction ps with
  | nil => intro body st; rfl
  | cons p ps ih =>
    intro body st
    simp only [guards_of]
    by_cases hv : p.var = ivar_name
    · simp only [hv, if_true]
      cases boxes_block X env none st.ptmp
          (X.boxes_required body (st.scope.push name (prein name p.offset))) with
      | none => simp only [ih]
      | some pstmts => simp only [ih]
    · simp only [hv, if_false, ih]

theorem for_guards_scope (X : Externals) (env : Env) (name : String) (min extent : Expr)
    (body : Stmt) (st : PState) (r : List Stmt × PState)
    (h : for_guards X env name min extent body st = some r) : r.2.scope = st.scope := by
  unfold for_guards at h
  split at h
  · split at h
    · simp only [Option.some.injEq] at h
      subst h
      exact guards_of_scope X env name min extent _ _ _ _
    · exact absurd h (by simp)
  · exact absurd h (by simp)

theorem rewrites_scope (X : Externals) (env : Env) (st : PState) (s out : Stmt)
    (st1 : PState) (h : Rewrites X env st s out st1) : st1.scope = st.scope := by
  induction h with
  | LetStmt st st1 n v b b1 sc _ hpop ih =>
    simp only [] at ih
    rw [ih, Scope.pop_push] at hpop
    simp only [Option.some.injEq] at hpop
    exact hpop.symm
  | AssertStmt st c m => rfl
  | ProducerConsumer_none st st1 st2 n p p1 c c1 _ _ ih1 ih2 => rw [ih2, ih1]
  | ProducerConsumer_some st st1 st2 st3 n p p1 u u1 c c1 _ _ _ ih1 ih2 ih3 =>
    rw [ih3, ih2, ih1]
  | For st st2 n mn ex ft dev b b1 r hg _ ih =>
    rw [ih, for_guards_scope X env n mn ex b st r hg]
  | Store st n v i => rfl
  | Provide st n vs as => rfl
  | Allocate st st1 n t es c b b1 _ ih => exact ih
  | Free st n => rfl
  | Realize st st1 n ts bs c b b1 _ ih => exact ih
  | Block st st1 st2 f f1 r r1 _ _ ih1 ih2 => rw [ih2, ih1]
  | IfThenElse_none st st1 c t t1 _ ih => exact ih
  | IfThenElse_some st st1 st2 c t t1 e e1 _ _ ih1 ih2 => rw [ih2, ih1]
  | Evaluate st v => rfl

theorem mutate_scope (X : Externals) (env : Env) (s : Stmt) (st : PState)
    (r : Stmt × PState) (h : mutate X env s st = some r) : r.2.scope = st.scope :=
  rewrites_scope X env st s r.1 r.2 (mutate_sound X env s st r.1 r.2 h)

theorem for_prelude_scope (X : Externals) (env : Env) (name : String) (min extent : Expr)
    (body : Stmt) (st : PState) (r : Stmt × PState)
    (h : for_prelude X env name min extent body st = some r) : r.2.scope = st.scope := by
  rw [for_prelude_eq] at h
  cases hg : for_guards X env name min extent body st with
  | none => simp [hg] at h
  | some q =>
    simp only [hg, Option.map_some', Option.some.injEq] at h
    subst h
    exact for_guards_scope X env name min extent body st q hg

/-- C17: the scope stack is balanced. When the visit of a statement node returns, the
scope is the scope before the visit, whatever the node and the initial scope; the visit
of an expression leaves the whole state as it was; a pop of the name just pushed gives
the scope before the push; and when the directives of a loop are done, which is when the
loop body is recursively mutated, the scope is again the scope in which the loop was
entered, without the shifted binding of the loop variable. -/
theorem scope_balanced (X : Externals) (env : Env) (s out : Stmt) (st st1 : PState)
    (h : mutate X env s st = some (out, st1)) :
    st1.scope = st.scope ∧
    (∀ (e : Expr) (st2 : PState), mutate_expr X e st2 = some (e, st2)) ∧
    (∀ (n : String) (v : Interval) (sc : Scope), Scope.pop n (Scope.push n v sc) = some sc) ∧
    (∀ (n : String) (mn ex : Expr) (body : Stmt) (st2 : PState) (r : Stmt × PState),
      for_prelude X env n mn ex body st2 = some r → r.2.scope = st2.scope) :=
  ⟨mutate_scope X env s st (out, st1) h, mutate_expr_id X, Scope.pop_push,
    for_prelude_scope X env⟩

/-- C17, witness: the sample loop, visited with a binding of `y` already in scope. -/
theorem scope_balanced_witness :
    ∃ out st1,
      mutate sample_externals sample_env sample_loop
          { scope := [("y", ⟨int_expr 0, int_expr 1⟩)], ptmp := 0 } = some (out, st1) ∧
      st1.scope = [("y", ⟨int_expr 0, int_expr 1⟩)] := by
  have hg : for_guards sample_externals sample_env "f.i" (int_expr 0) (int_expr 10)
      (Stmt.Store "out" (Expr.Load (Int_ 32) "g" (Expr.Variable (Int_ 32) "f.i"))
        (Expr.Variable (Int_ 32) "f.i"))
      { scope := [("y", ⟨int_expr 0, int_expr 1⟩)], ptmp := 0 } =
      some (guards_of sample_externals sample_env "f.i" (int_expr 0) (int_expr 10) "i"
        [{ var := "i", offset := 2 }]
        (Stmt.Store "out" (Expr.Load (Int_ 32) "g" (Expr.Variable (Int_ 32) "f.i"))
          (Expr.Variable (Int_ 32) "f.i"))
        { scope := [("y", ⟨int_expr 0, int_expr 1⟩)], ptmp := 0 }) := rfl
  have hm : ∃ out st1, mutate sample_externals sample_env sample_loop
      { scope := [("y", ⟨int_expr 0, int_expr 1⟩)], ptmp := 0 } = some (out, st1) := by
    simp only [sample_loop, mutate_For_eq, hg, mutate, mutate_expr_id]
    exact ⟨_, _, rfl⟩
  obtain ⟨out, st1, h⟩ := hm
  exact ⟨out, st1, h, (scope_balanced sample_externals sample_env sample_loop out _ st1 h).1⟩

theorem for_guards_isSome_iff (X : Externals) (env : Env) (n : String) (mn ex : Expr)
    (body : Stmt) (st : PState) :
    (for_guards X env n mn ex body st).isSome =
      (match tuple_func n with
        | some func_name => (get_func env func_name).isSome
        | none => false) := by
  obtain ⟨fn, hfn⟩ := tuple_func_isSome n
  obtain ⟨iv, hiv⟩ := tuple_var_isSome n
  simp only [for_guards, hfn, hiv]
  cases get_func env fn with
  | none => rfl
  | some f => rfl

theorem mutate_of_stages_known (X : Externals) (env : Env) :
    ∀ (s : Stmt) (st : PState), stages_known env s = true → ∃ r, mutate X env s st = some r
  | Stmt.LetStmt n v b, st, h => by
    simp only [stages_known] at h
    obtain ⟨r, hr⟩ := mutate_of_stages_known X env b
      { scope := st.scope.push n (X.bounds_of_expr_in_scope v st.scope), ptmp := st.ptmp } h
    have hs := mutate_scope X env b _ r hr
    simp only [] at hs
    simp [mutate, mutate_expr_id, hr, hs, Scope.pop_push]
  | Stmt.AssertStmt c m, st, _ => by simp [mutate, mutate_expr_id]
  | Stmt.ProducerConsumer n p none c, st, h => by
    simp only [stages_known, stages_known_opt, Bool.and_eq_true] at h
    obtain ⟨r1, h1⟩ := mutate_of_stages_known X env p st h.1.1
    obtain ⟨r2, h2⟩ := mutate_of_stages_known X env c r1.2 h.2
    simp [mutate, h1, h2]
  | Stmt.ProducerConsumer n p (some u) c, st, h => by
    simp only [stages_known, stages_known_opt, Bool.and_eq_true] at h
    obtain ⟨r1, h1⟩ := mutate_of_stages_known X env p st h.1.1
    obtain ⟨r2, h2⟩ := mutate_of_stages_known X env u r1.2 h.1.2
    obtain ⟨r3, h3⟩ := mutate_of_stages_known X env c r2.2 h.2
    simp [mutate, h1, h2, h3]
  | Stmt.For n mn ex ft dev b, st, h => by
    simp only [stages_known, Bool.and_eq_true] at h
    have hg := for_guards_isSome_iff X env n mn ex b st
    rw [h.1] at hg
    obtain ⟨r, hr⟩ := Option.isSome_iff_exists.1 hg
    obtain ⟨r2, h2⟩ := mutate_of_stages_known X env b r.2 h.2
    rw [mutate_For_eq]
    simp [hr, h2]
  | Stmt.Store _ _ _, st, _ => by simp [mutate, mutate_expr_id]
  | Stmt.Provide _ _ _, st, _ => by simp [mutate, mutate_exprs_id]
  | Stmt.Allocate _ _ _ _ b, st, h => by
    simp only [stages_known] at h
    obtain ⟨r, hr⟩ := mutate_of_stages_known X env b st h
    simp [mutate, mutate_expr_id, mutate_exprs_id, hr]
  | Stmt.Free _, st, _ => by simp [mutate]
  | Stmt.Realize _ _ _ _ b, st, h => by
    simp only [stages_known] at h
    obtain ⟨r, hr⟩ := mutate_of_stages_known X env b st h
    simp [mutate, mutate_expr_id, mutate_ranges_id, hr]
  | Stmt.Block f r, st, h => by
    simp only [stages_known, Bool.and_eq_true] at h
    obtain ⟨r1, h1⟩ := mutate_of_stages_known X env f st h.1
    obtain ⟨r2, h2⟩ := mutate_of_stages_known X env r r1.2 h.2
    simp [mutate, h1, h2]
  | Stmt.IfThenElse c t none, st, h => by
    simp only [stages_known, stages_known_opt, Bool.and_eq_true] at h
    obtain ⟨r1, h1⟩ := mutate_of_stages_known X env t st h.1
    simp [mutate, mutate_expr_id, h1]
  | Stmt.IfThenElse c t (some e), st, h => by
    simp only [stages_known, stages_known_opt, Bool.and_eq_true] at h
    obtain ⟨r1, h1⟩ := mutate_of_stages_known X env t st h.1
    obtain ⟨r2, h2⟩ := mutate_of_stages_known X env e r1.2 h.2
    simp [mutate, mutate_expr_id, h1, h2]
  | Stmt.Evaluate _, st, _ => by simp [mutate, mutate_expr_id]

theorem mutate_of_stage_unknown (X : Externals) (env : Env) :
    ∀ (s : Stmt) (st : PState), stages_known env s = false → mutate X env s st = none
  | Stmt.LetStmt n v b, st, h => by
    simp only [stages_known] at h
    simp [mutate, mutate_expr_id, mutate_of_stage_unknown X env b _ h]
  | Stmt.AssertStmt c m, st, h => by simp [stages_known] at h
  | Stmt.ProducerConsumer n p none c, st, h => by
    simp only [stages_known, stages_known_opt, Bool.and_true] at h
    simp only [mutate]
    cases hp : mutate X env p st with
    | none => rfl
    | some r1 =>
      simp only []
      cases hkp : stages_known env p with
      | false => rw [mutate_of_stage_unknown X env p st hkp] at hp; exact absurd hp (by simp)
      | true =>
        rw [hkp] at h
        simp only [Bool.true_and] at h
        simp [mutate_of_stage_unknown X env c _ h]
  | Stmt.ProducerConsumer n p (some u) c, st, h => by
    simp only [stages_known, stages_known_opt] at h
    simp only [mutate]
    cases hp : mutate X env p st with
    | none => rfl
    | some r1 =>
      simp only []
      cases hkp : stages_known env p with
      | false => rw [mutate_of_stage_unknown X env p st hkp] at hp; exact absurd hp (by simp)
      | true =>
        rw [hkp] at h
        simp only [Bool.true_and] at h
        cases hu : mutate X env u r1.2 with
        | none => rfl
        | some r2 =>
          simp only []
          cases hku : stages_known env u with
          | false =>
            rw [mutate_of_stage_unknown X env u _ hku] at hu; exact absurd hu (by simp)
          | true =>
            rw [hku] at h
            simp only [Bool.true_and] at h
            simp [mutate_of_stage_unknown X env c _ h]
  | Stmt.For n mn ex ft dev b, st, h => by
    simp only [stages_known] at h
    rw [mutate_For_eq]
    cases hg : for_guards X env n mn ex b st with
    | none => rfl
    | some r =>
      simp only []
      have hi := for_guards_isSome_iff X env n mn ex b st
      rw [hg] at hi
      simp only [Option.isSome_some] at hi
      rw [← hi] at h
      simp only [Bool.true_and] at h
      simp [mutate_of_stage_unknown X env b _ h]
  | Stmt.Store _ _ _, st, h => by simp [stages_known] at h
  | Stmt.Provide _ _ _, st, h => by simp [stages_known] at h
  | Stmt.Allocate _ _ _ _ b, st, h => by
    simp only [stages_known] at h
    simp [mutate, mutate_exprs_id, mutate_of_stage_unknown X env b _ h]
  | Stmt.Free _, st, h => by simp [stages_known] at h
  | Stmt.Realize _ _ _ _ b, st, h => by
    simp only [stages_known] at h
    simp [mutate, mutate_ranges_id, mutate_of_stage_unknown X env b _ h]
  | Stmt.Block f r, st, h => by
    simp only [stages_known] at h
    simp only [mutate]
    cases hf : mutate X env f st with
    | none => rfl
    | some r1 =>
      simp only []
      cases hkf : stages_known env f with
      | false => rw [mutate_of_stage_unknown X env f st hkf] at hf; exact absurd hf (by simp)
      | true =>
        rw [hkf] at h
        simp only [Bool.true_and] at h
        simp [mutate_of_stage_unknown X env r _ h]
  | Stmt.IfThenElse c t none, st, h => by
    simp only [stages_known, stages_known_opt, Bool.and_true] at h
    simp [mutate, mutate_expr_id, mutate_of_stage_unknown X env t _ h]
  | Stmt.IfThenElse c t (some e), st, h => by
    simp only [stages_known, stages_known_opt] at h
    simp only [mutate, mutate_expr_id]
    cases ht : mutate X env t st with
    | none => rfl
    | some r1 =>
      simp only []
      cases hkt : stages_known env t with
      | false => rw [mutate_of_stage_unknown X env t st hkt] at ht; exact absurd ht (by simp)
      | true =>
        rw [hkt] at h
        simp only [Bool.true_and] at h
        simp [mutate_of_stage_unknown X env e _ h]
  | Stmt.Evaluate _, st, h => by simp [stages_known] at h

/-- C13: the pass aborts if and only if the tree holds a loop whose stage, the first
dot-separated component of its name, is not a key of the environment. A tree with such a
loop gives no result; a tree all of whose loops belong to known stages gives one,
whatever the buffers of its box maps (a buffer outside the environment is no failure). -/
theorem inject_prefetch_aborts_iff (X : Externals) (env : Env) (s : Stmt) :
    inject_prefetch X env s = none ↔ stages_known env s = false := by
  unfold inject_prefetch
  constructor
  · intro h
    cases hk : stages_known env s with
    | false => rfl
    | true =>
      obtain ⟨r, hr⟩ := mutate_of_stages_known X env s { scope := [], ptmp := 0 } hk
      simp [hr] at h
  · intro h
    simp [mutate_of_stage_unknown X env s _ h]

theorem sizeOf_le_foldr_Block (body : Stmt) :
    ∀ (gs : List Stmt), gs.foldr Stmt.Block body = body ∨
      sizeOf body < sizeOf (gs.foldr Stmt.Block body) := by
  intro gs
  induction gs with
  | nil => exact Or.inl rfl
  | cons g gs ih =>
    refine Or.inr ?_
    simp only [List.foldr_cons, Stmt.Block.sizeOf_spec]
    rcases ih with h | h
    · rw [h]; omega
    · omega

/-- C16: the recursion of the loop visitor is well-founded although it is made on the
guard-prefixed body. When the directives of a loop `For(n, min, extent, ·, ·, body)` are
done and give the local body `r.1`, on which the visitor calls `mutate`: `r.1` has as
many `For` nodes as `body` (the generated guards hold none), it is `body` itself or is
larger than `body`, and it is below the loop in the lexicographic order on (number of
`For` nodes, size), which is well-founded; `mutate` is defined by recursion on that
order, the other calls being on the children of a node, so it is total. -/
theorem loop_recursion_decreases (X : Externals) (env : Env) (n : String) (mn ex : Expr)
    (ft : ForType) (dev : DeviceAPI) (body : Stmt) (st : PState) (r : Stmt × PState)
    (h : for_prelude X env n mn ex body st = some r) :
    for_count r.1 = for_count body ∧
    (r.1 = body ∨ sizeOf body < sizeOf r.1) ∧
    Prod.Lex (fun a b : Nat => a < b) (fun a b : Nat => a < b)
      (for_count r.1, sizeOf r.1)
      (for_count (Stmt.For n mn ex ft dev body), sizeOf (Stmt.For n mn ex ft dev body)) ∧
    WellFounded (InvImage (Prod.Lex (fun a b : Nat => a < b) (fun a b : Nat => a < b))
      (fun s : Stmt => (for_count s, sizeOf s))) := by
  have hc := for_count_for_prelude X env n mn ex body st r h
  refine ⟨hc, ?_, ?_, ?_⟩
  · rw [for_prelude_eq] at h
    cases hg : for_guards X env n mn ex body st with
    | none => simp [hg] at h
    | some q =>
      simp only [hg, Option.map_some', Option.some.injEq] at h
      subst h
      exact sizeOf_le_foldr_Block body q.1
  · apply Prod.Lex.left
    simp only [for_count, hc]
    omega
  · exact InvImage.wf _ (WellFounded.prod_lex Nat.lt_wfRel.wf Nat.lt_wfRel.wf)

/-- C16, witness: the sample loop, whose directive puts a guard in front of the body. -/
theorem loop_recursion_decreases_witness :
    ∃ r,
      for_prelude sample_externals sample_env "f.i" (int_expr 0) (int_expr 10)
          (Stmt.Free "x") { scope := [], ptmp := 0 } = some r ∧
      for_count r.1 = for_count (Stmt.Free "x") ∧
      (r.1 = Stmt.Free "x" ∨ sizeOf (Stmt.Free "x") < sizeOf r.1) ∧
      Prod.Lex (fun a b : Nat => a < b) (fun a b : Nat => a < b)
        (for_count r.1, sizeOf r.1)
        (for_count (Stmt.For "f.i" (int_expr 0) (int_expr 10) ForType.Serial DeviceAPI.Host
            (Stmt.Free "x")),
          sizeOf (Stmt.For "f.i" (int_expr 0) (int_expr 10) ForType.Serial DeviceAPI.Host
            (Stmt.Free "x"))) ∧
      WellFounded (InvImage (Prod.Lex (fun a b : Nat => a < b) (fun a b : Nat => a < b))
        (fun s : Stmt => (for_count s, sizeOf s))) :=
  ⟨_, rfl,
    loop_recursion_decreases sample_externals sample_env "f.i" (int_expr 0) (int_expr 10)
      ForType.Serial DeviceAPI.Host (Stmt.Free "x") { scope := [], ptmp := 0 } _ rfl⟩

/-- C15: `inject_prefetch` is deterministic and independent of earlier invocations.
Whatever the debug levels left by earlier invocations and whatever the values of
`HL_DEBUG_PREFETCH`, two invocations on the same tree and environment return the same
result, also when the second starts from the global state left by the first; the result
is that of a mutator started with an empty scope and the occurrence counter at 0, so the
generated names are the same too. -/
theorem inject_prefetch_deterministic (X : Externals) (env : Env) (s : Stmt)
    (lvl1 lvl2 : Option Int) (dbg1 dbg2 : DebugLevels) :
    (inject_prefetch_run X env lvl1 dbg1 s).1 = (inject_prefetch_run X env lvl2 dbg2 s).1 ∧
    (inject_prefetch_run X env lvl2 (inject_prefetch_run X env lvl1 dbg1 s).2 s).1 =
      (inject_prefetch_run X env lvl1 dbg1 s).1 ∧
    (inject_prefetch_run X env lvl1 dbg1 s).1 = inject_prefetch X env s ∧
    (inject_prefetch_run X env lvl1 dbg1 s).1.map let_names =
      (inject_prefetch_run X env lvl2 dbg2 s).1.map let_names :=
  ⟨rfl, rfl, rfl, rfl⟩

theorem split_chars_head (l : List Char) :
    ∃ w ws, split_chars '.' l = w :: ws ∧ '.' ∉ w ∧
      ((l = w ∧ ws = []) ∨ (ws ≠ [] ∧ ∃ post, l = w ++ '.' :: post)) := by
  induction l with
  | nil => exact ⟨[], [], rfl, by simp, Or.inl ⟨rfl, rfl⟩⟩
  | cons c cs ih =>
    obtain ⟨w, ws, hs, hw, hl⟩ := ih
    by_cases hc : c = '.'
    · subst hc
      exact ⟨[], split_chars '.' cs, by simp [split_chars], by simp,
        Or.inr ⟨split_chars_ne_nil _ _, cs, rfl⟩⟩
    · refine ⟨c :: w, ws, by simp [split_chars, hc, hs], ?_, ?_⟩
      · simp only [List.mem_cons, not_or]
        exact ⟨fun h => hc h.symm, hw⟩
      · rcases hl with ⟨h1, h2⟩ | ⟨hne, post, hp⟩
        · exact Or.inl ⟨by rw [h1], h2⟩
        · exact Or.inr ⟨hne, post, by rw [hp]; rfl⟩

theorem split_chars_last (l : List Char) :
    ∃ init v, split_chars '.' l = init ++ [v] ∧ '.' ∉ v ∧
      ((l = v ∧ init = []) ∨ ∃ pre, l = pre ++ '.' :: v) := by
  induction l with
  | nil => exact ⟨[], [], rfl, by simp, Or.inl ⟨rfl, rfl⟩⟩
  | cons c cs ih =>
    obtain ⟨init, v, hs, hv, hl⟩ := ih
    by_cases hc : c = '.'
    · subst hc
      refine ⟨[] :: init, v, by simp [split_chars, hs], hv, Or.inr ?_⟩
      rcases hl with ⟨h1, _⟩ | ⟨pre, hp⟩
      · exact ⟨[], by rw [h1]; rfl⟩
      · exact ⟨'.' :: pre, by rw [hp]; rfl⟩
    · cases init with
      | nil =>
        refine ⟨[], c :: v, by simp [split_chars, hc, hs], ?_, ?_⟩
        · simp only [List.mem_cons, not_or]
          exact ⟨fun h => hc h.symm, hv⟩
        · have hcs : split_chars '.' cs = [v] := by simpa using hs
          obtain ⟨w, ws, hs2, _, hl2⟩ := split_chars_head cs
          rw [hcs] at hs2
          simp only [List.cons.injEq] at hs2
          obtain ⟨e1, e2⟩ := hs2
          rcases hl2 with ⟨h3, _⟩ | ⟨hne, _⟩
          · exact Or.inl ⟨by rw [h3, e1], rfl⟩
          · exact absurd e2.symm hne
      | cons i0 irest =>
        refine ⟨(c :: i0) :: irest, v, by simp [split_chars, hc, hs], hv, Or.inr ?_⟩
        rcases hl with ⟨_, h2⟩ | ⟨pre, hp⟩
        · exact absurd h2 (by simp)
        · exact ⟨c :: pre, by rw [hp]; rfl⟩

theorem tuple_func_eq (n : String) :
    ∃ S : String, tuple_func n = some S ∧ '.' ∉ S.data ∧
      (n = S ∨ ∃ post : String, n = S ++ "." ++ post) := by
  obtain ⟨w, ws, hs, hw, hl⟩ := split_chars_head n.data
  refine ⟨String.mk w, by simp [tuple_func, split_string, hs], hw, ?_⟩
  rcases hl with ⟨h1, _⟩ | ⟨_, post, hp⟩
  · exact Or.inl (String.ext h1)
  · exact Or.inr ⟨String.mk post, String.ext (by simp [hp])⟩

theorem tuple_var_eq (n : String) :
    ∃ v : String, tuple_var n = some v ∧ '.' ∉ v.data ∧
      (n = v ∨ ∃ pre : String, n = pre ++ "." ++ v) := by
  obtain ⟨init, v, hs, hv, hl⟩ := split_chars_last n.data
  refine ⟨String.mk v, ?_, hv, ?_⟩
  · unfold tuple_var split_string
    rw [hs]
    cases init with
    | nil => simp
    | cons i0 irest =>
      simp only [List.cons_append, List.map_cons, List.map_append, List.map_nil]
      simp
  · rcases hl with ⟨h1, _⟩ | ⟨pre, hp⟩
    · exact Or.inl (String.ext h1)
    · exact Or.inr ⟨String.mk pre, String.ext (by simp [hp])⟩

theorem first_component_unique (n S T : String) (hS : '.' ∉ S.data) (hT : '.' ∉ T.data)
    (h1 : n = S ∨ ∃ post : String, n = S ++ "." ++ post)
    (h2 : n = T ∨ ∃ post : String, n = T ++ "." ++ post) : S = T := by
  have hdot : ∀ (A post : String), (A ++ "." ++ post).data = A.data ++ '.' :: post.data := by
    intro A post; simp
  rcases h1 with h1 | ⟨p1, h1⟩ <;> rcases h2 with h2 | ⟨p2, h2⟩
  · rw [← h1, ← h2]
  · exfalso
    apply hS
    rw [← h1, h2, hdot]
    simp
  · exfalso
    apply hT
    rw [← h2, h1, hdot]
    simp
  · have h := congrArg String.data (h1.symm.trans h2)
    rw [hdot, hdot] at h
    exact String.ext (split_at_first '.' _ _ _ _ hS hT h).1

theorem last_component_unique (n v u : String) (hv : '.' ∉ v.data) (hu : '.' ∉ u.data)
    (h1 : n = v ∨ ∃ pre : String, n = pre ++ "." ++ v)
    (h2 : n = u ∨ ∃ pre : String, n = pre ++ "." ++ u) : v = u := by
  have hdot : ∀ (pre A : String), (pre ++ "." ++ A).data = pre.data ++ '.' :: A.data := by
    intro pre A; simp
  rcases h1 with h1 | ⟨p1, h1⟩ <;> rcases h2 with h2 | ⟨p2, h2⟩
  · rw [← h1, ← h2]
  · exfalso
    apply hv
    rw [← h1, h2, hdot]
    simp
  · exfalso
    apply hu
    rw [← h2, h1, hdot]
    simp
  · have h := congrArg String.data (h1.symm.trans h2)
    rw [hdot, hdot] at h
    exact String.ext (split_at_last '.' _ _ _ _ hv hu h).2

/-- C19: the stage and the variable of a loop name. For every name `n`, the empty string
included, `tuple_func` and `tuple_var` return a result (their assertions never fail);
`tuple_func n` is `S` exactly when `S` is the part of `n` before its first `.` (`S` holds
no `.` and `n` is `S` or `S.` followed by something), and `tuple_var n` is `v` exactly
when `v` is the part of `n` after its last `.`; for a name without `.` both are the whole
name; and the loop visitor looks up the directives of the stage `S` and applies those
whose variable is `v`. -/
theorem directive_matching (n : String) :
    ∃ S v : String,
      tuple_func n = some S ∧ tuple_var n = some v ∧
      (∀ T : String, tuple_func n = some T ↔
        ('.' ∉ T.data ∧ (n = T ∨ ∃ post : String, n = T ++ "." ++ post))) ∧
      (∀ u : String, tuple_var n = some u ↔
        ('.' ∉ u.data ∧ (n = u ∨ ∃ pre : String, n = pre ++ "." ++ u))) ∧
      ('.' ∉ n.data → S = n ∧ v = n) ∧
      (∀ (X : Externals) (env : Env) (mn ex : Expr) (body : Stmt) (st : PState),
        for_guards X env n mn ex body st =
          (get_func env S).map (fun f => guards_of X env n mn ex v f.prefetches body st)) ∧
      (∀ (X : Externals) (env : Env) (mn ex : Expr) (body : Stmt) (st : PState)
        (p : Directive), p.var ≠ v →
        visit_directive X env n mn ex v (body, st) p = some (body, st)) := by
  obtain ⟨S, hS, hSd, hSn⟩ := tuple_func_eq n
  obtain ⟨v, hv, hvd, hvn⟩ := tuple_var_eq n
  refine ⟨S, v, hS, hv, ?_, ?_, ?_, ?_, ?_⟩
  · intro T
    constructor
    · intro hT
      rw [hS] at hT
      simp only [Option.some.injEq] at hT
      subst hT
      exact ⟨hSd, hSn⟩
    · rintro ⟨hTd, hTn⟩
      rw [hS, first_component_unique n S T hSd hTd hSn hTn]
  · intro u
    constructor
    · intro hu
      rw [hv] at hu
      simp only [Option.some.injEq] at hu
      subst hu
      exact ⟨hvd, hvn⟩
    · rintro ⟨hud, hun⟩
      rw [hv, last_component_unique n v u hvd hud hvn hun]
  · intro hn
    exact ⟨first_component_unique n S n hSd hn hSn (Or.inl rfl),
      last_component_unique n v n hvd hn hvn (Or.inl rfl)⟩
  · intro X env mn ex body st
    simp only [for_guards, hS, hv]
    cases get_func env S with
    | none => rfl
    | some f => rfl
  · intro X env mn ex body st p hp
    rw [visit_directive_eq]
    simp [hp]

theorem prefetch_boxes_take (X : Externals) (env : Env) (boxes : List (String × Box))
    (c j : Nat) (hj : j ≤ boxes.length) :
    prefetch_boxes X env (boxes.take j) { cnt := 0, pstmts := none, ptmp := c } =
      some { cnt := j, pstmts := boxes_block X env none c (boxes.take j), ptmp := c + j } := by
  rw [prefetch_boxes_eq X env _ _ (by simp [GenState.consistent])]
  simp [List.length_take, Nat.min_eq_left hj]

theorem consistent_boxes_block (X : Externals) (env : Env) (bs : List (String × Box))
    (c : Nat) :
    GenState.consistent
      { cnt := bs.length, pstmts := boxes_block X env none c bs, ptmp := c + bs.length } := by
  simp only [GenState.consistent]
  cases bs with
  | nil => simp [boxes_block]
  | cons x xs =>
    obtain ⟨q, hq⟩ := boxes_block_cons_isSome X env xs (box_block X env none c x) (c + 1)
    simp [boxes_block, hq]

/-- C18: occurrence numbers are allocated consecutively in the order of enumeration of
the box map, which for a `std::map` is the ascending order of the buffer names. For a map
enumerated as `boxes` with strictly ascending names, and the counter at `c` when the
directive starts: the loop over the boxes ends with the counter at `c + m`, `m` being the
number of buffers; a buffer enumerated earlier has the smaller name; and the round of the
`j`-th buffer starts after the rounds of the `j` buffers before it, with the counter at
`c + j`, and binds its descriptor under `<buffer>.prefetch_<c+j>_buf`, with
`<c+j>` in the names of its bounds. -/
theorem occurrence_numbers_consecutive (X : Externals) (env : Env)
    (boxes : List (String × Box)) (c : Nat)
    (hsorted : (boxes.map Prod.fst).Pairwise (fun a b => a < b)) :
    (∃ pstmts,
      prefetch_boxes X env boxes { cnt := 0, pstmts := none, ptmp := c } =
        some { cnt := boxes.length, pstmts := pstmts, ptmp := c + boxes.length }) ∧
    (∀ (i j : Nat) (hij : i < j) (hj : j < boxes.length),
      (boxes.get ⟨i, Nat.lt_trans hij hj⟩).1 < (boxes.get ⟨j, hj⟩).1) ∧
    (∀ (j : Nat) (hj : j < boxes.length),
      ∃ g create inner,
        prefetch_boxes X env (boxes.take j) { cnt := 0, pstmts := none, ptmp := c } = some g ∧
        g.cnt = j ∧ g.ptmp = c + j ∧
        prefetch_box X env g (boxes.get ⟨j, hj⟩) =
          some { cnt := j + 1,
                 pstmts := some (let_bounds (boxes.get ⟨j, hj⟩).1 (toString (c + j)) 0
                   (boxes.get ⟨j, hj⟩).2
                   (Stmt.LetStmt
                     ((boxes.get ⟨j, hj⟩).1 ++ ".prefetch_" ++ toString (c + j) ++ "_buf")
                     create inner)),
                 ptmp := c + j + 1 }) := by
  refine ⟨⟨boxes_block X env none c boxes, ?_⟩, ?_, ?_⟩
  · rw [prefetch_boxes_eq X env _ _ (by simp [GenState.consistent])]
    simp
  · intro i j hij hj
    have h := List.pairwise_iff_getElem.1 hsorted i j (by simpa using Nat.lt_trans hij hj)
      (by simpa using hj) hij
    simpa using h
  · intro j hj
    refine ⟨{ cnt := j, pstmts := boxes_block X env none c (boxes.take j), ptmp := c + j },
      create_call X env (boxes.get ⟨j, hj⟩).1 (boxes.get ⟨j, hj⟩).2.length (c + j),
      chain (prefetch_call env (boxes.get ⟨j, hj⟩).1 (boxes.get ⟨j, hj⟩).2.length (c + j))
        (boxes_block X env none c (boxes.take j)),
      prefetch_boxes_take X env boxes c j (Nat.le_of_lt hj), rfl, rfl, ?_⟩
    have hc := consistent_boxes_block X env (boxes.take j) c
    simp only [List.length_take, Nat.min_eq_left (Nat.le_of_lt hj)] at hc
    rw [prefetch_box_eq X env _ _ hc]
    simp only [box_block, prefetch_buf_name]

theorem sample_boxes_sorted : (sample_boxes.map Prod.fst).Pairwise (fun a b => a < b) := by
  simp [sample_boxes]
  decide

/-- C18, witness: the sample map of the buffers `a` and `b`, with the counter at 5. -/
theorem occurrence_numbers_consecutive_witness :
    (sample_boxes.map Prod.fst).Pairwise (fun a b => a < b) ∧
    ∃ g create inner,
      prefetch_boxes sample_externals sample_env (sample_boxes.take 1)
          { cnt := 0, pstmts := none, ptmp := 5 } = some g ∧
      g.cnt = 1 ∧ g.ptmp = 5 + 1 ∧
      prefetch_box sample_externals sample_env g (sample_boxes.get ⟨1, by decide⟩) =
        some { cnt := 1 + 1,
               pstmts := some (let_bounds (sample_boxes.get ⟨1, by decide⟩).1
                 (toString (5 + 1)) 0 (sample_boxes.get ⟨1, by decide⟩).2
                 (Stmt.LetStmt
                   ((sample_boxes.get ⟨1, by decide⟩).1 ++ ".prefetch_" ++ toString (5 + 1)
                     ++ "_buf")
                   create inner)),
               ptmp := 5 + 1 + 1 } :=
  ⟨sample_boxes_sorted,
    (occurrence_numbers_consecutive sample_externals sample_env sample_boxes 5
      sample_boxes_sorted).2.2 1 (by decide)⟩

theorem inject_prefetch_scenario :
    inject_prefetch scenario_externals scenario_env scenario_loop = some scenario_out := by
  have hg : for_guards scenario_externals scenario_env "f.i" (int_expr 0) (int_expr 10)
      (Stmt.Store "out"
        (Expr.Load (Int_ 32) "g"
          (Expr.Bin BinOp.Add (Expr.Variable (Int_ 32) "f.i") (int_expr 2)))
        (Expr.Variable (Int_ 32) "f.i")) { scope := [], ptmp := 0 } =
      some ([Stmt.IfThenElse scenario_guard scenario_block none],
        { scope := [], ptmp := 1 }) := rfl
  simp only [inject_prefetch, scenario_loop, mutate_For_eq, hg, mutate, mutate_expr_id,
    Option.map_some']
  rfl

/-- C14 (as amended): scenario A, the box analysis being the interval of each load index
under the shifted scope. For the loop `f.i` over `[0, 10)`, the directive `(i, 2)`, a body
that reads `g[i+2]` and a 4-byte stage `g`, the pass gives the loop with the guarded block
in front of its body: the guard evaluates as `(i+2) < 9`; the block holds one descriptor
construction, bound to `g.prefetch_0_buf`, whose min binding has the value `i+4` (the
index `i+2` taken two iterations ahead), whose extent argument evaluates to 1 and whose
stride argument is the variable `g.stride.0`; and it holds one intrinsic call, with the
dimension count 1 and the element size 4. -/
theorem scenario_A :
    inject_prefetch scenario_externals scenario_env scenario_loop =
      some (Stmt.For "f.i" (int_expr 0) (int_expr 10) ForType.Serial DeviceAPI.Host
        (Stmt.Block (Stmt.IfThenElse scenario_guard scenario_block none)
          (Stmt.Store "out"
            (Expr.Load (Int_ 32) "g"
              (Expr.Bin BinOp.Add (Expr.Variable (Int_ 32) "f.i") (int_expr 2)))
            (Expr.Variable (Int_ 32) "f.i")))) ∧
    (∀ ρ : String → Int,
      eval_expr ρ scenario_guard = some (if ρ "f.i" + 2 < 9 then 1 else 0)) ∧
    stmt_calls "create_buffer_t" scenario_block = 1 ∧
    stmt_calls "prefetch_buffer_t" scenario_block = 1 ∧
    descriptor_lets scenario_block =
      [("g.prefetch_0_buf",
        Expr.Call Handle "create_buffer_t"
          [Expr.Call Handle "address_of" [Expr.Load (Int_ 32) "g" (int_expr 0)]
              CallType.PureIntrinsic,
            Expr.IntImm (Int_ 32) 0,
            Expr.Variable (Int_ 32) "g.prefetch_0_min_0",
            scenario_extent,
            Expr.Variable (Int_ 32) "g.stride.0"]
          CallType.Intrinsic)] ∧
    (∀ ρ : String → Int,
      (let_value "g.prefetch_0_min_0" scenario_block).bind (eval_expr ρ) =
        some (ρ "f.i" + 4)) ∧
    (∀ ρ : String → Int,
      (let_value "g.prefetch_0_max_0" scenario_block).bind (eval_expr ρ) =
        some (ρ "f.i" + 4)) ∧
    (∀ ρ : String → Int,
      eval_expr
        (bind_var (bind_var ρ "g.prefetch_0_min_0" (ρ "f.i" + 4)) "g.prefetch_0_max_0"
          (ρ "f.i" + 4))
        scenario_extent = some 1) ∧
    prefetch_evals scenario_block =
      [Expr.Call (Int_ 32) "prefetch_buffer_t"
        [int_expr 1, int_expr 4, Expr.Variable (Int_ 32) "g.prefetch_0_buf"]
        CallType.Intrinsic] := by
  refine ⟨inject_prefetch_scenario, ?_, rfl, rfl, rfl, ?_, ?_, ?_, rfl⟩
  · intro ρ
    simp [scenario_guard, eval_expr, eval_exprs, eval_bin, int_expr]
  · intro ρ
    simp [scenario_block, let_value, eval_expr, eval_bin, int_expr]
    omega
  · intro ρ
    simp [scenario_block, let_value, eval_expr, eval_bin, int_expr]
    omega
  · intro ρ
    simp [scenario_extent, eval_expr, eval_bin, int_expr, bind_var]

/-- C14, counterexample: at the iteration `i = 0` the min binding of the descriptor of
scenario A has the value 4, not `i + 2 = 2`. -/
theorem scenario_A_min_counterexample :
    inject_prefetch scenario_externals scenario_env scenario_loop = some scenario_out ∧
    (let_value "g.prefetch_0_min_0" scenario_out).bind (eval_expr (fun _ => 0)) = some 4 ∧
    (4 : Int) ≠ (fun _ => (0 : Int)) "f.i" + 2 :=
  ⟨inject_prefetch_scenario, by decide, by decide⟩

theorem for_guards_two_directives :
    for_guards scenario_externals two_directive_env "f.i" (int_expr 0) (int_expr 10)
        read_body { scope := [], ptmp := 0 } =
      some (guards_of scenario_externals two_directive_env "f.i" (int_expr 0) (int_expr 10)
        "i" [{ var := "i", offset := 1 }, { var := "i", offset := 2 }] read_body
        { scope := [], ptmp := 0 }) := rfl

/-- C11 (as amended): each matching directive has the box analysis run on the local
`body` as it stands, under the scope in which the name of the loop is bound to the point
interval `[Var(name) + offset, Var(name) + offset]`. For a matching directive `p`
followed by the directives `ps`: the boxes are those of `body` under that scope; when
they give a block, the guarded block is put in front of `body`; and the directives `ps`
are processed on that guard-prefixed body, so that the box analysis of a later matching
directive runs over the block generated by an earlier one. The first directive of a loop
starts from the loop's original body. -/
theorem box_analysis_on_local_body (X : Externals) (env : Env) (name : String)
    (mn ex : Expr) (ivar_name : String) (body : Stmt) (st : PState) (p : Directive)
    (ps : List Directive) (hv : p.var = ivar_name) :
    visit_directives X env name mn ex ivar_name (p :: ps) (body, st) =
      (match prefetch_boxes X env
          (X.boxes_required body
            (st.scope.push name
              ⟨Expr.Bin BinOp.Add (Expr.Variable (Int_ 32) name) (int_expr p.offset),
               Expr.Bin BinOp.Add (Expr.Variable (Int_ 32) name) (int_expr p.offset)⟩))
          { cnt := 0, pstmts := none, ptmp := st.ptmp } with
        | none => none
        | some g =>
          visit_directives X env name mn ex ivar_name ps
            ((match g.pstmts with
              | some pstmts =>
                Stmt.Block (Stmt.IfThenElse (pcond name p.offset mn ex) pstmts none) body
              | none => body),
              { scope := st.scope, ptmp := g.ptmp })) ∧
    (∀ (f : Function) (func_name : String), tuple_func name = some func_name →
      tuple_var name = some ivar_name → get_func env func_name = some f →
      for_prelude X env name mn ex body st =
        visit_directives X env name mn ex ivar_name f.prefetches (body, st)) := by
  constructor
  · simp only [visit_directives, visit_directive_eq, hv, if_true]
    rw [prefetch_boxes_eq X env _ _ (by simp [GenState.consistent])]
    simp only [splice, prein, Nat.zero_add]
  · intro f func_name h1 h2 h3
    simp only [for_prelude, h1, h2, h3]

/-- C11, witness: the two directives of the variable `i` on the loop `f.i`. -/
theorem box_analysis_on_local_body_witness :
    visit_directives scenario_externals two_directive_env "f.i" (int_expr 0) (int_expr 10)
        "i" [{ var := "i", offset := 1 }, { var := "i", offset := 2 }]
        (read_body, { scope := [], ptmp := 0 }) =
      (match prefetch_boxes scenario_externals two_directive_env
          (scenario_externals.boxes_required read_body
            (Scope.push "f.i"
              ⟨Expr.Bin BinOp.Add (Expr.Variable (Int_ 32) "f.i") (int_expr 1),
               Expr.Bin BinOp.Add (Expr.Variable (Int_ 32) "f.i") (int_expr 1)⟩ []))
          { cnt := 0, pstmts := none, ptmp := 0 } with
        | none => none
        | some g =>
          visit_directives scenario_externals two_directive_env "f.i" (int_expr 0)
            (int_expr 10) "i" [{ var := "i", offset := 2 }]
            ((match g.pstmts with
              | some pstmts =>
                Stmt.Block
                  (Stmt.IfThenElse (pcond "f.i" 1 (int_expr 0) (int_expr 10)) pstmts none)
                  read_body
              | none => read_body),
              { scope := [], ptmp := g.ptmp })) :=
  (box_analysis_on_local_body scenario_externals two_directive_env "f.i" (int_expr 0)
    (int_expr 10) "i" read_body { scope := [], ptmp := 0 } { var := "i", offset := 1 }
    [{ var := "i", offset := 2 }] rfl).1

/-- C11, counterexample: on the loop `f.i` with the directives `(i, 1)` and `(i, 2)` and a
body that reads `g[i]`, the box of `g` in the original body under the scope of the second
directive has, at the iteration `i = 5`, the min 7; the min bound by the block of the
second directive has the value 0 there, because its box analysis also saw the load of
`g` at index 0 in the block generated for the first directive. -/
theorem box_analysis_counterexample :
    ∃ out,
      inject_prefetch scenario_externals two_directive_env
          (Stmt.For "f.i" (int_expr 0) (int_expr 10) ForType.Serial DeviceAPI.Host
            read_body) = some out ∧
      (scenario_externals.boxes_required read_body
          (Scope.push "f.i" (prein "f.i" 2) [])).map
        (fun b => (b.1, b.2.map (fun iv => eval_expr (fun _ => 5) iv.min))) =
        [("g", [some 7])] ∧
      (let_value "g.prefetch_1_min_0" out).bind (eval_expr (fun _ => 5)) = some 0 := by
  refine ⟨Stmt.For "f.i" (int_expr 0) (int_expr 10) ForType.Serial DeviceAPI.Host
    ((guards_of scenario_externals two_directive_env "f.i" (int_expr 0) (int_expr 10) "i"
      [{ var := "i", offset := 1 }, { var := "i", offset := 2 }] read_body
      { scope := [], ptmp := 0 }).1.foldr Stmt.Block read_body), ?_, by decide, by decide⟩
  simp only [inject_prefetch, mutate_For_eq, for_guards_two_directives]
  simp only [read_body, mutate, mutate_expr_id, Option.map_some']

theorem free_vars_list_append (l1 l2 : List Expr) :
    free_vars_list (l1 ++ l2) = free_vars_list l1 ++ free_vars_list l2 := by
  induction l1 with
  | nil => simp [free_vars_list]
  | cons e es ih => simp [free_vars_list, ih]

theorem mem_free_vars_dim_args (varname pstr x : String) (k : Nat)
    (h : x ∈ free_vars_list (dim_args varname pstr k)) :
    ∃ i, i < k ∧ (x = min_name varname pstr i ∨ x = max_name varname pstr i ∨
      x = stride_name varname i) := by
  induction k with
  | zero => simp [dim_args, free_vars_list] at h
  | succ k ih =>
    simp only [dim_args, free_vars_list_append, List.mem_append] at h
    rcases h with h | h
    · obtain ⟨i, hi, hx⟩ := ih h
      exact ⟨i, by omega, hx⟩
    · refine ⟨k, by omega, ?_⟩
      simp only [dim_triple, free_vars_list, free_vars, int_expr, List.append_nil,
        List.mem_append, List.mem_singleton, List.mem_cons, List.not_mem_nil, or_false] at h
      rcases h with h | (h | h) | h
      · exact Or.inl h
      · exact Or.inr (Or.inl h)
      · exact Or.inl h
      · exact Or.inr (Or.inr h)

theorem mem_free_vars_create_call (X : Externals) (env : Env) (varname x : String)
    (dims n : Nat) (hz : ∀ t, free_vars (X.make_zero t) = [])
    (h : x ∈ free_vars (create_call X env varname dims n)) :
    ∃ i, i < dims ∧ (x = min_name varname (toString n) i ∨
      x = max_name varname (toString n) i ∨ x = stride_name varname i) := by
  simp only [create_call, descriptor_args, free_vars, free_vars_list, hz, int_expr,
    List.nil_append, List.append_nil] at h
  exact mem_free_vars_dim_args varname (toString n) x dims h

theorem get_type_static (env : Env) (varname : String) :
    (get_type env varname).2 = false ↔ env.lookup varname = none := by
  unfold get_type
  cases env.lookup varname with
  | none => simp
  | some f =>
    simp only []
    split <;> simp

theorem mem_free_vars_prefetch_call (env : Env) (varname x : String) (dims n : Nat)
    (h : x ∈ free_vars (prefetch_call env varname dims n)) :
    x = prefetch_buf_name varname (toString n) ∨
      (env.lookup varname = none ∧ x = varname ++ ".elem_size") := by
  simp only [prefetch_call, free_vars, free_vars_list, int_expr, List.nil_append,
    List.append_nil, List.mem_append, List.mem_singleton] at h
  rcases h with h | h
  · right
    unfold elem_size_arg at h
    cases hs : (get_type env varname).2 with
    | true => simp [hs, free_vars, int_expr] at h
    | false =>
      simp only [hs, free_vars, List.mem_singleton] at h
      exact ⟨(get_type_static env varname).1 hs, by simpa using h⟩
  · exact Or.inl h

theorem mem_free_vars_let_bounds (varname pstr x : String) :
    ∀ (box : List Interval) (i : Nat) (s : Stmt),
      x ∈ stmt_free_vars (let_bounds varname pstr i box s) →
      (∃ iv ∈ box, x ∈ free_vars iv.min ∨ x ∈ free_vars iv.max) ∨
      (x ∈ stmt_free_vars s ∧ ∀ j, i ≤ j → j < i + box.length →
        x ≠ min_name varname pstr j ∧ x ≠ max_name varname pstr j) := by
  intro box
  induction box with
  | nil =>
    intro i s h
    exact Or.inr ⟨by simpa [let_bounds] using h, fun j h1 h2 => by simp at h2; omega⟩
  | cons iv rest ih =>
    intro i s h
    simp only [let_bounds, stmt_free_vars, List.mem_append, List.mem_filter,
      decide_eq_true_eq] at h
    rcases h with h | ⟨h | ⟨h, hmax⟩, hmin⟩
    · exact Or.inl ⟨iv, List.mem_cons_self _ _, Or.inl h⟩
    · exact Or.inl ⟨iv, List.mem_cons_self _ _, Or.inr h⟩
    · rcases ih (i + 1) s h with ⟨iv2, hiv2, hx⟩ | ⟨hs, hne⟩
      · exact Or.inl ⟨iv2, List.mem_cons_of_mem _ hiv2, hx⟩
      · refine Or.inr ⟨hs, ?_⟩
        intro j h1 h2
        by_cases hj : j = i
        · subst hj; exact ⟨hmin, hmax⟩
        · exact hne j (by omega) (by simp only [List.length_cons] at h2; omega)

theorem mem_free_vars_box_block (X : Externals) (env : Env) (prev : Option Stmt) (n : Nat)
    (b : String × Box) (x : String) (hz : ∀ t, free_vars (X.make_zero t) = [])
    (h : x ∈ stmt_free_vars (box_block X env prev n b)) :
    left_free env [b] x ∨ x ∈ stmt_free_vars_opt prev := by
  rcases mem_free_vars_let_bounds b.1 (toString n) x b.2 0 _ h with ⟨iv, hiv, hx⟩ | ⟨hs, hne⟩
  · exact Or.inl (Or.inl ⟨b, List.mem_singleton.2 rfl, iv, hiv, hx⟩)
  · simp only [stmt_free_vars, List.mem_append, List.mem_filter, decide_eq_true_eq] at hs
    rcases hs with hs | ⟨hs, hbuf⟩
    · obtain ⟨i, hi, hx⟩ := mem_free_vars_create_call X env b.1 x b.2.length n hz hs
      have hn := hne i (Nat.zero_le _) (by omega)
      rcases hx with hx | hx | hx
      · exact absurd hx hn.1
      · exact absurd hx hn.2
      · exact Or.inl (Or.inr (Or.inl ⟨b, List.mem_singleton.2 rfl, i, hi, hx⟩))
    · have hcall : x ∈ free_vars (prefetch_call env b.1 b.2.length n) ∨
          x ∈ stmt_free_vars_opt prev := by
        cases prev with
        | none => exact Or.inl (by simpa [chain, stmt_free_vars] using hs)
        | some p =>
          simp only [chain, stmt_free_vars, List.mem_append] at hs
          exact hs
      rcases hcall with hc | hc
      · rcases mem_free_vars_prefetch_call env b.1 x b.2.length n hc with hc | ⟨hl, hc⟩
        · exact absurd hc hbuf
        · exact Or.inl (Or.inr (Or.inr ⟨b, List.mem_singleton.2 rfl, hl, hc⟩))
      · exact Or.inr hc

theorem left_free_mono (env : Env) (bs cs : List (String × Box)) (x : String)
    (hsub : ∀ b ∈ bs, b ∈ cs) (h : left_free env bs x) : left_free env cs x := by
  rcases h with ⟨b, hb, r⟩ | ⟨b, hb, r⟩ | ⟨b, hb, r⟩
  · exact Or.inl ⟨b, hsub b hb, r⟩
  · exact Or.inr (Or.inl ⟨b, hsub b hb, r⟩)
  · exact Or.inr (Or.inr ⟨b, hsub b hb, r⟩)

theorem mem_free_vars_boxes_block (X : Externals) (env : Env) (x : String)
    (hz : ∀ t, free_vars (X.make_zero t) = []) :
    ∀ (bs : List (String × Box)) (prev : Option Stmt) (n : Nat),
      x ∈ stmt_free_vars_opt (boxes_block X env prev n bs) →
      left_free env bs x ∨ x ∈ stmt_free_vars_opt prev := by
  intro bs
  induction bs with
  | nil => intro prev n h; exact Or.inr (by simpa [boxes_block] using h)
  | cons b bs ih =>
    intro prev n h
    simp only [boxes_block] at h
    rcases ih _ _ h with h1 | h1
    · exact Or.inl (left_free_mono env bs (b :: bs) x
        (fun y hy => List.mem_cons_of_mem _ hy) h1)
    · simp only [stmt_free_vars_opt] at h1
      rcases mem_free_vars_box_block X env prev n b x hz h1 with h2 | h2
      · exact Or.inl (left_free_mono env [b] (b :: bs) x
          (fun y hy => by rw [List.mem_singleton.1 hy]; exact List.mem_cons_self _ _) h2)
      · exact Or.inr h2

theorem GenName.rest_no_dot (k : GenName) :
    '.' ∉ "prefetch_".data ++ (Nat.toDigits 10 k.n ++ '_' :: k.kind.tail) := by
  intro hmem
  simp only [List.mem_append, List.mem_cons] at hmem
  rcases hmem with hmem | hmem | hmem | hmem
  · revert hmem; decide
  · exact (toDigits_not_sep _ _ hmem).1 rfl
  · revert hmem; decide
  · exact NameKind.tail_not_dot _ hmem

theorem GenName.str_ne_stride (k : GenName) (b : String) (i : Nat) :
    k.str ≠ b ++ ".stride." ++ toString i := by
  intro h
  have hd := congrArg String.data h
  rw [GenName.str_data] at hd
  have hr : (b ++ ".stride." ++ toString i).data =
      (b.data ++ ".stride".data) ++ '.' :: Nat.toDigits 10 i := by
    simp only [String.data_append, List.append_assoc]
    rfl
  rw [hr] at hd
  have hsplit := split_at_last '.' _ _ _ _ (GenName.rest_no_dot k)
    (fun hm => (toDigits_not_sep i _ hm).1 rfl) hd
  have hu : '_' ∈ Nat.toDigits 10 i := by
    rw [← hsplit.2]
    simp
  exact (toDigits_not_sep i _ hu).2 rfl

theorem GenName.str_ne_elem_size (k : GenName) (b : String) :
    k.str ≠ b ++ ".elem_size" := by
  intro h
  have hd := congrArg String.data h
  rw [GenName.str_data] at hd
  have hr : (b ++ ".elem_size").data = b.data ++ '.' :: "elem_size".data := by
    simp only [String.data_append]
  rw [hr] at hd
  have hsplit := split_at_last '.' _ _ _ _ (GenName.rest_no_dot k) (by decide) hd
  have h2 := hsplit.2
  simp at h2

/-- C20: the generated temporaries are well scoped. For every box map, the zero constants
being closed, the loop over the boxes succeeds, and every variable that its block leaves
free is a free variable of a bound of a box, a stride `<buffer>.stride.<i>` of a dimension
of a buffer of the map, or `<buffer>.elem_size` of a buffer outside the environment. No
generated name `<buffer>.prefetch_<n>_buf`, `_min_<i>` or `_max_<i>` is a stride or an
element-size name, so every reference that the block makes to a generated variable lies
in the body of a `LetStmt` of the block that binds that name. -/
theorem generated_block_well_scoped (X : Externals) (env : Env)
    (boxes : List (String × Box)) (c : Nat) (hz : ∀ t, free_vars (X.make_zero t) = []) :
    ∃ pstmts,
      prefetch_boxes X env boxes { cnt := 0, pstmts := none, ptmp := c } =
        some { cnt := boxes.length, pstmts := pstmts, ptmp := c + boxes.length } ∧
      (∀ x ∈ stmt_free_vars_opt pstmts,
        (∃ b ∈ boxes, ∃ iv ∈ b.2, x ∈ free_vars iv.min ∨ x ∈ free_vars iv.max) ∨
        (∃ b ∈ boxes, ∃ i, i < b.2.length ∧ x = b.1 ++ ".stride." ++ toString i) ∨
        (∃ b ∈ boxes, env.lookup b.1 = none ∧ x = b.1 ++ ".elem_size")) ∧
      (∀ (k : GenName) (b : String) (i : Nat),
        k.str ≠ b ++ ".stride." ++ toString i ∧ k.str ≠ b ++ ".elem_size") := by
  refine ⟨boxes_block X env none c boxes, ?_, ?_, ?_⟩
  · rw [prefetch_boxes_eq X env _ _ (by simp [GenState.consistent])]
    simp
  · intro x hx
    rcases mem_free_vars_boxes_block X env x hz boxes none c hx with h | h
    · exact h
    · simp [stmt_free_vars_opt] at h
  · intro k b i
    exact ⟨GenName.str_ne_stride k b i, GenName.str_ne_elem_size k b⟩

/-- C20, witness: the sample map of the buffers `a` and `b`, whose zero constants are
integer immediates. -/
theorem generated_block_well_scoped_witness :
    ∃ pstmts,
      prefetch_boxes sample_externals sample_env sample_boxes
          { cnt := 0, pstmts := none, ptmp := 0 } =
        some { cnt := sample_boxes.length, pstmts := pstmts,
               ptmp := 0 + sample_boxes.length } ∧
      (∀ x ∈ stmt_free_vars_opt pstmts,
        (∃ b ∈ sample_boxes, ∃ iv ∈ b.2, x ∈ free_vars iv.min ∨ x ∈ free_vars iv.max) ∨
        (∃ b ∈ sample_boxes, ∃ i, i < b.2.length ∧ x = b.1 ++ ".stride." ++ toString i) ∨
        (∃ b ∈ sample_boxes, List.lookup b.1 sample_env = none ∧ x = b.1 ++ ".elem_size")) ∧
      (∀ (k : GenName) (b : String) (i : Nat),
        k.str ≠ b ++ ".stride." ++ toString i ∧ k.str ≠ b ++ ".elem_size") :=
  generated_block_well_scoped sample_externals sample_env sample_boxes 0
    (by intro t; simp [sample_externals, free_vars])

end Prefetch
